import Mathlib

/-!
# DogStatsD message parser and origin detection

A shallow embedding of `comp/dogstatsd/server/parse.go` and of
`comp/core/tagger/origindetection/origindetection.go`, followed by theorems
about the embedded functions.

Conventions of the embedding.

* A Go `[]byte` and a Go `string` are both a `List UInt8`.  A slice that the
  code compares with `nil` is an `Option Bytes` (`none` is `nil`); everywhere
  else a nil slice and an empty slice behave alike and both are `[]`.
* A Go function returning `(value, error)` returns a pair whose second
  component is an `Option Error` (`none` is a nil error), so that what is
  returned next to an error is visible.  Collaborators whose value is never
  looked at when they fail return an `Except`.
* `float64` is an abstract type `F` with a zero and a one; `strconv.ParseFloat`
  is a field of the parser record.
* The interner, the value pool and the metadata provider act on an abstract
  state `W` that is threaded through every call.  Logging is not modelled.
* Code of the package that is not among the sources is a field of the parser
  record, or a definition whose comment starts with "Modelled from the spec".
* The two unbounded loops (`parseFloat64List`, the optional-field loop of
  `parseMetricSample`) take a number of iterations they may use and return
  `none` when that number is exceeded; the top-level functions pass the
  length of their input plus one, and the theorems show it always suffices.
-/

namespace Dogstatsd

/-! ## Bytes and the Go standard library functions the code calls -/

abbrev Bytes := List UInt8

/-- The bytes of a string literal, one byte per (ASCII) character. -/
def B (s : String) : Bytes := s.toList.map (fun c => UInt8.ofNat c.toNat)

/-- Go `bytes.HasPrefix` / `strings.HasPrefix`. -/
def HasPrefix (s pre : Bytes) : Bool := pre.isPrefixOf s

/-- Search of `bytes.Index`, carrying the offset `i` of the current position. -/
def IndexFrom (sep : Bytes) : Bytes → Nat → Int
  | [], i => if sep.isPrefixOf [] then (i : Int) else -1
  | c :: s, i => if sep.isPrefixOf (c :: s) then (i : Int) else IndexFrom sep s (i + 1)

/-- Go `bytes.Index`: the index of the first instance of `sep` in `s`, or `-1`. -/
def Index (s sep : Bytes) : Int := IndexFrom sep s 0

/-- Go `bytes.Contains`, which is `Index(b, subslice) != -1`. -/
def Contains (b subslice : Bytes) : Bool := Index b subslice != -1

/-- Counting of `bytes.Count`; `skip` is the number of bytes of the last
match that are still to be passed over (instances do not overlap). -/
def CountFrom (sep : Bytes) : Bytes → Nat → Nat
  | [], _ => 0
  | _ :: s, skip + 1 => CountFrom sep s skip
  | c :: s, 0 =>
    if sep.isPrefixOf (c :: s) then 1 + CountFrom sep s (sep.length - 1)
    else CountFrom sep s 0

/-- Go `bytes.Count` for a non-empty separator: the number of non-overlapping
instances of `sep` in `s`.  (For an empty separator Go counts UTF-8 code
points; no call site passes one.) -/
def Count (s sep : Bytes) : Nat := CountFrom sep s 0

/-- The loop of Go's `genSplit`: `n` is the number of pieces still to cut off. -/
def SplitLoop (sep : Bytes) : Nat → Bytes → List Bytes
  | 0, s => [s]
  | n + 1, s =>
    let m := Index s sep
    if m < 0 then [s]
    else s.take m.toNat :: SplitLoop sep n (s.drop (m.toNat + sep.length))

/-- Go `bytes.Split` / `strings.Split` for a non-empty separator. -/
def Split (s sep : Bytes) : List Bytes := SplitLoop sep (Count s sep) s

/-! ## Errors -/

/-- Go error values.  `numError` is `*strconv.NumError`; `errorf` and
`errorfWrap` are `fmt.Errorf` with its format string, its byte arguments and
(for `errorfWrap`) the error it formats; `other` stands for the errors of
collaborators. -/
inductive Error where
  | numError (func : String) (num : Bytes) (err : String)
  | errorf (format : String) (args : List Bytes)
  | errorfWrap (format : String) (args : List Bytes) (cause : Error)
  | other (id : Nat)
  deriving DecidableEq, Repr

deriving instance DecidableEq for Except

/-- Go `strconv.ParseBool`. -/
def ParseBool (str : Bytes) : Bool × Option Error :=
  if str = B "1" ∨ str = B "t" ∨ str = B "T" ∨ str = B "TRUE" ∨ str = B "true" ∨ str = B "True" then
    (true, none)
  else if str = B "0" ∨ str = B "f" ∨ str = B "F" ∨ str = B "FALSE" ∨ str = B "false"
      ∨ str = B "False" then
    (false, none)
  else (false, some (Error.numError "ParseBool" str "invalid syntax"))

/-- Value of a string of decimal digits, `none` when a byte is not a digit. -/
def digitsValue : Bytes → Nat → Option Nat
  | [], acc => some acc
  | c :: s, acc =>
    if 48 ≤ c.toNat ∧ c.toNat ≤ 57 then digitsValue s (acc * 10 + (c.toNat - 48)) else none

/-- Go `strconv.ParseUint(s, 10, 64)`: a non-empty string of decimal digits
(no sign, no underscore) whose value fits 64 bits. -/
def ParseUint (s : Bytes) : Except Error Nat :=
  if s = [] then .error (Error.numError "ParseUint" s "invalid syntax")
  else
    match digitsValue s 0 with
    | none => .error (Error.numError "ParseUint" s "invalid syntax")
    | some n =>
      if n < 2 ^ 64 then .ok n
      else .error (Error.numError "ParseUint" s "value out of range")

/-- Size in bits of Go's `int` (`strconv.IntSize`) on 64-bit platforms. -/
def IntSize : Nat := 64

/-- Go `strconv.ParseInt(s, 10, 0)`: an optional sign followed by a non-empty
string of decimal digits, whose value fits an `int`. -/
def ParseInt (s0 : Bytes) : Except Error Int :=
  if s0 = [] then .error (Error.numError "ParseInt" s0 "invalid syntax")
  else
    let neg := s0.head? = some 45
    let s := if s0.head? = some 43 ∨ s0.head? = some 45 then s0.drop 1 else s0
    if s = [] then .error (Error.numError "ParseInt" s0 "invalid syntax")
    else
      match digitsValue s 0 with
      | none => .error (Error.numError "ParseInt" s0 "invalid syntax")
      | some un =>
        let cutoff := 2 ^ (IntSize - 1)
        if ¬ neg ∧ un ≥ cutoff then .error (Error.numError "ParseInt" s0 "value out of range")
        else if neg ∧ un > cutoff then .error (Error.numError "ParseInt" s0 "value out of range")
        else .ok (if neg then - (un : Int) else (un : Int))

/-! ## Data model -/

/-- The kinds of message, `parse.go` lines 23-30. -/
inductive messageType where
  | metricSampleType
  | serviceCheckType
  | eventType
  deriving DecidableEq, Repr

/-- Modelled from the spec: the declaration of `metricType` is not among the
sources; the spec gives "a fixed enumerated set of short tokens distinguishing
counter/gauge/set/histogram/distribution/timing-style metrics".  The first
constant is the zero value of the type. -/
inductive metricType where
  | gaugeType
  | countType
  | distributionType
  | histogramType
  | setType
  | timingType
  deriving DecidableEq, Repr

/-- Go `time.Time`: the zero value, or the instant `time.Unix(sec, nsec)`. -/
inductive Time where
  | zero
  | unix (sec : Int) (nsec : Int)
  deriving DecidableEq, Repr

/-- The struct `origindetection.ExternalData`. -/
structure ExternalData where
  Init : Bool := false
  ContainerName : Bytes := []
  PodUID : Bytes := []
  deriving DecidableEq, Repr

/-- The struct `dogstatsdMetricSample`, with the fields that `parseMetricSample` fills. -/
structure dogstatsdMetricSample (F : Type) where
  name : Bytes
  value : F
  values : List F
  setValue : Bytes
  metricType : metricType
  sampleRate : F
  tags : List Bytes
  containerID : Option Bytes
  externalData : ExternalData
  ts : Time
  deriving DecidableEq, Repr

/-- The zero value `dogstatsdMetricSample{}`. -/
def dogstatsdMetricSample.zeroValue (F : Type) [Zero F] : dogstatsdMetricSample F :=
  { name := [], value := 0, values := [], setValue := [], metricType := .gaugeType,
    sampleRate := 0, tags := [], containerID := none, externalData := {}, ts := .zero }

/-- The struct `parser` (`parse.go` lines 60-74) together with the functions
of the package that the code calls and that are not among the sources.

* `LoadOrStore` is `p.interner.LoadOrStore`;
* `float64ListGet` and `float64ListPut` are the effect on the pool of
  `p.float64List.get` (whose result is `float64ListBuffer`) and of
  `p.float64List.put`;
* `GetContainerIDForInode` is `p.provider.GetMetaCollector().GetContainerIDForInode`;
* `parseFloat64` is `strconv.ParseFloat(_, 64)`;
* `hasMetricSampleFormat`, `parseMetricSampleNameAndRawValue`,
  `parseMetricSampleMetricType` and `parseMetricSampleSampleRate` are the
  helpers of `parse_metrics.go`. -/
structure parser (F W : Type) where
  LoadOrStore : Bytes → W → Bytes × W
  float64ListGet : W → W
  float64ListPut : List F → W → W
  dsdOriginEnabled : Bool
  readTimestamps : Bool
  GetContainerIDForInode : Nat → Nat → W → Except Error Bytes × W
  parseFloat64 : Bytes → Except Error F
  hasMetricSampleFormat : Bytes → Bool
  parseMetricSampleNameAndRawValue : Bytes → Except Error (Bytes × Bytes)
  parseMetricSampleMetricType : Bytes → Except Error metricType
  parseMetricSampleSampleRate : Bytes → Except Error F

/-- Modelled from the spec: the value pool is not among the sources; the spec
gives it `acquire() -> empty reusable sequence`.  This is the sequence that
`p.float64List.get()` returns. -/
def float64ListBuffer (F : Type) : List F := []

/-! ## Constants of `parse.go` -/

/-- The constant `cacheValidity = 2 * time.Second`, in nanoseconds. -/
def cacheValidity : Nat := 2 * 1000000000

def eventPrefix : Bytes := B "_e\x7b"
def serviceCheckPrefix : Bytes := B "_sc"
def fieldSeparator : Bytes := B "|"
def colonSeparator : Bytes := B ":"
def commaSeparator : Bytes := B ","
def localDataPrefix : Bytes := B "c:"
def externalDataPrefix : Bytes := B "e:"
def containerIDPrefix : Bytes := B "ci-"
def inodePrefix : Bytes := B "in-"

/-- Modelled from the spec: the declaration is not among the sources; the spec
gives the tag-list field the prefix `#`. -/
def tagsFieldPrefix : Bytes := B "#"

/-- Modelled from the spec: the declaration is not among the sources; the spec
gives the sample-rate field the prefix `@`. -/
def sampleRateFieldPrefix : Bytes := B "@"

/-- Modelled from the spec: the declaration is not among the sources; the spec
gives the timestamp field the prefix `T`. -/
def timestampFieldPrefix : Bytes := B "T"

/-! ## `origindetection.go` -/

def ExternalDataInitPrefix : Bytes := B "it-"
def ExternalDataContainerNamePrefix : Bytes := B "cn-"
def ExternalDataPodUIDPrefix : Bytes := B "pu-"

/-- One iteration of the loop of `ParseExternalData` (lines 73-82). -/
def ParseExternalDataItem (acc : ExternalData × Option Error) (item : Bytes) :
    ExternalData × Option Error :=
  if HasPrefix item ExternalDataInitPrefix then
    let r := ParseBool (item.drop ExternalDataInitPrefix.length)
    ({ acc.1 with Init := r.1 }, r.2)
  else if HasPrefix item ExternalDataContainerNamePrefix then
    ({ acc.1 with ContainerName := item.drop ExternalDataContainerNamePrefix.length }, acc.2)
  else if HasPrefix item ExternalDataPodUIDPrefix then
    ({ acc.1 with PodUID := item.drop ExternalDataPodUIDPrefix.length }, acc.2)
  else acc

/-- The function `ParseExternalData` (lines 66-85). -/
def ParseExternalData (externalEnv : Bytes) : ExternalData × Option Error :=
  if externalEnv = [] then ({}, none)
  else (Split externalEnv (B ",")).foldl ParseExternalDataItem ({}, none)

/-! ## `parse.go` -/

/-- The function `findMessageType` (lines 89-98). -/
def findMessageType (message : Bytes) : messageType :=
  if HasPrefix message eventPrefix then .eventType
  else if HasPrefix message serviceCheckPrefix then .serviceCheckType
  else .metricSampleType

/-- The function `nextField` (lines 103-109). -/
def nextField (message : Bytes) : Bytes × Option Bytes :=
  let sepIndex := Index message fieldSeparator
  if sepIndex = -1 then (message, none)
  else (message.take sepIndex.toNat, some (message.drop (sepIndex.toNat + 1)))

/-- The loop of `parseTags` (lines 119-127).  The first argument is
`tagsCount - i`, so that the loop condition `i < tagsCount` is the test that
it is not zero.  The loop state is the list being filled, `i`, what is left of
`rawTags`, and the state of the interner. -/
def parseTagsLoop {F W : Type} (p : parser F W) :
    Nat → List Bytes → Nat → Bytes → W → List Bytes × Nat × Bytes × W
  | 0, tagsList, i, rawTags, w => (tagsList, i, rawTags, w)
  | n + 1, tagsList, i, rawTags, w =>
    let tagPos := Index rawTags commaSeparator
    if tagPos < 0 then (tagsList, i, rawTags, w)
    else
      let r := p.LoadOrStore (rawTags.take tagPos.toNat) w
      parseTagsLoop p n (tagsList.set i r.1) (i + 1)
        (rawTags.drop (tagPos.toNat + commaSeparator.length)) r.2

/-- The method `parser.parseTags` (lines 111-130). -/
def parseTags {F W : Type} (p : parser F W) (rawTags : Bytes) (w : W) : List Bytes × W :=
  if rawTags.length = 0 then ([], w)
  else
    let tagsCount := Count rawTags commaSeparator
    let tagsList : List Bytes := List.replicate (tagsCount + 1) []
    let (tagsList, i, rawTags, w) := parseTagsLoop p tagsCount tagsList 0 rawTags w
    let r := p.LoadOrStore rawTags w
    (tagsList.set i r.1, r.2)

/-- The end of `parseFloat64List`, after the loop (lines 266-270). -/
def parseFloat64ListEnd {F W : Type} (p : parser F W) (values : List F) (w : W) :
    (List F × Option Error) × W :=
  if values.length = 0 then
    (([], some (Error.errorf "no value found" [])), p.float64ListPut values w)
  else ((values, none), w)

/-- The loop of `parseFloat64List` (lines 243-265) followed by the end of the
function.  The first argument bounds the number of iterations; the loop state
is `idx`, `rawFloats`, `values` and the state of the pool. -/
def parseFloat64ListLoop {F W : Type} (p : parser F W) :
    Nat → Int → Bytes → List F → W → Option ((List F × Option Error) × W)
  | fuel, idx, rawFloats, values, w =>
    if idx != -1 && rawFloats.length != 0 then
      match fuel with
      | 0 => none
      | fuel + 1 =>
        let idx := Index rawFloats colonSeparator
        if idx = 0 then
          parseFloat64ListLoop p fuel idx (rawFloats.drop colonSeparator.length) values w
        else if idx = -1 then
          match p.parseFloat64 rawFloats with
          | .error err => some (([], some err), p.float64ListPut values w)
          | .ok value => parseFloat64ListLoop p fuel idx rawFloats (values ++ [value]) w
        else
          match p.parseFloat64 (rawFloats.take idx.toNat) with
          | .error err => some (([], some err), p.float64ListPut values w)
          | .ok value =>
            parseFloat64ListLoop p fuel idx (rawFloats.drop (idx.toNat + colonSeparator.length))
              (values ++ [value]) w
    else some (parseFloat64ListEnd p values w)

/-- The method `parser.parseFloat64List` (lines 237-271). -/
def parseFloat64List {F W : Type} (p : parser F W) (rawFloats : Bytes) (w : W) :
    Option ((List F × Option Error) × W) :=
  parseFloat64ListLoop p (rawFloats.length + 1) 0 rawFloats (float64ListBuffer F)
    (p.float64ListGet w)

/-- The method `parser.resolveContainerIDFromInode` (lines 320-333). -/
def resolveContainerIDFromInode {F W : Type} (p : parser F W) (inode : Bytes) (w : W) :
    Option Bytes × W :=
  match ParseUint inode with
  | .error _ => (none, w)
  | .ok inodeField =>
    match p.GetContainerIDForInode inodeField cacheValidity w with
    | (.error _, w) => (none, w)
    | (.ok containerID, w) => (some containerID, w)

/-- One iteration of the loop over the items of a local-data list (lines
291-297); the state is `containerID`, `containerIDFromInode` and the state of
the provider. -/
def resolveContainerIDItem {F W : Type} (p : parser F W)
    (acc : Option Bytes × Option Bytes × W) (item : Bytes) : Option Bytes × Option Bytes × W :=
  if HasPrefix item containerIDPrefix then
    (some (item.drop containerIDPrefix.length), acc.2.1, acc.2.2)
  else if HasPrefix item inodePrefix then
    let r := resolveContainerIDFromInode p (item.drop inodePrefix.length) acc.2.2
    (acc.1, r.1, r.2)
  else acc

/-- The method `parser.resolveContainerIDFromLocalData` (lines 281-317). -/
def resolveContainerIDFromLocalData {F W : Type} (p : parser F W) (rawLocalData : Bytes)
    (w : W) : Option Bytes × W :=
  let localData := rawLocalData.drop localDataPrefix.length
  if Contains localData (B ",") then
    let items := Split localData (B ",")
    let (containerID, containerIDFromInode, w) :=
      items.foldl (resolveContainerIDItem p) (none, none, w)
    if containerID = none then (containerIDFromInode, w) else (containerID, w)
  else if HasPrefix localData containerIDPrefix then
    (some (localData.drop containerIDPrefix.length), w)
  else if HasPrefix localData inodePrefix then
    resolveContainerIDFromInode p (localData.drop inodePrefix.length) w
  else (some localData, w)

/-- The variables that the optional-field loop of `parseMetricSample` assigns
(lines 178-183). -/
structure optionalFields (F : Type) where
  sampleRate : F
  tags : List Bytes
  containerID : Option Bytes
  externalData : ExternalData
  timestamp : Time
  deriving DecidableEq, Repr

/-- The initial values of the variables of the optional-field loop (lines 178-183). -/
def optionalFields.init (F : Type) [One F] : optionalFields F :=
  { sampleRate := 1, tags := [], containerID := none, externalData := {}, timestamp := .zero }

/-- The `switch` on one optional field (lines 186-219): the new values of the
variables, or the error with which `parseMetricSample` returns. -/
def parseOptionalField {F W : Type} (p : parser F W) (optionalField : Bytes)
    (st : optionalFields F) (w : W) : Except Error (optionalFields F) × W :=
  if HasPrefix optionalField tagsFieldPrefix then
    let r := parseTags p (optionalField.drop 1) w
    (.ok { st with tags := r.1 }, r.2)
  else if HasPrefix optionalField sampleRateFieldPrefix then
    match p.parseMetricSampleSampleRate (optionalField.drop 1) with
    | .error _ =>
      (.error (Error.errorf "could not parse dogstatsd sample rate %q" [optionalField]), w)
    | .ok sampleRate => (.ok { st with sampleRate := sampleRate }, w)
  else if HasPrefix optionalField timestampFieldPrefix then
    if !p.readTimestamps then (.ok st, w)
    else
      match ParseInt (optionalField.drop timestampFieldPrefix.length) with
      | .error err =>
        (.error (Error.errorfWrap "could not parse dogstatsd timestamp %q: %v"
          [optionalField.drop timestampFieldPrefix.length] err), w)
      | .ok ts =>
        if ts < 1 then (.error (Error.errorf "dogstatsd timestamp should be > 0" []), w)
        else (.ok { st with timestamp := Time.unix ts 0 }, w)
  else if p.dsdOriginEnabled && HasPrefix optionalField localDataPrefix then
    let r := resolveContainerIDFromLocalData p optionalField w
    (.ok { st with containerID := r.1 }, r.2)
  else if p.dsdOriginEnabled && HasPrefix optionalField externalDataPrefix then
    let rawExternalData := optionalField.drop externalDataPrefix.length
    let r := ParseExternalData rawExternalData
    match r.2 with
    | some err =>
      (.error (Error.errorfWrap "failed to parse OriginInfo.ExternalData %s: %v"
        [rawExternalData] err), w)
    | none => (.ok { st with externalData := r.1 }, w)
  else (.ok st, w)

/-- The optional-field loop `for message != nil` (lines 184-220).  The first
argument bounds the number of iterations. -/
def parseOptionalFields {F W : Type} (p : parser F W) :
    Nat → Option Bytes → optionalFields F → W → Option (Except Error (optionalFields F) × W)
  | _, none, st, w => some (.ok st, w)
  | 0, some _, _, _ => none
  | fuel + 1, some message, st, w =>
    let f := nextField message
    match parseOptionalField p f.1 st w with
    | (.error err, w) => some (.error err, w)
    | (.ok st, w) => parseOptionalFields p fuel f.2 st w

/-- The variables `setValue`, `values`, `value` read from the raw value, or
the error of the number parser (lines 155-173, before the error is wrapped). -/
def readMetricValues {F W : Type} [Zero F] (p : parser F W) (metricType : metricType)
    (rawValue : Bytes) (w : W) : Option ((Bytes × List F × F × Option Error) × W) :=
  if metricType = .setType then some ((rawValue, [], 0, none), w)
  else if !Contains rawValue colonSeparator then
    match p.parseFloat64 rawValue with
    | .error err => some (([], [], 0, some err), w)
    | .ok value => some (([], [], value, none), w)
  else
    match parseFloat64List p rawValue w with
    | none => none
    | some (r, w) => some (([], r.1, 0, r.2), w)

/-- The method `parser.parseMetricSample` (lines 133-234). -/
def parseMetricSample {F W : Type} [Zero F] [One F] (p : parser F W) (message : Bytes) (w : W) :
    Option ((dogstatsdMetricSample F × Option Error) × W) :=
  if !p.hasMetricSampleFormat message then
    some ((dogstatsdMetricSample.zeroValue F,
      some (Error.errorf "invalid dogstatsd message format" [])), w)
  else
    let f1 := nextField message
    match p.parseMetricSampleNameAndRawValue f1.1 with
    | .error err => some ((dogstatsdMetricSample.zeroValue F, some err), w)
    | .ok (name, rawValue) =>
      let f2 := nextField (f1.2.getD [])
      match p.parseMetricSampleMetricType f2.1 with
      | .error err => some ((dogstatsdMetricSample.zeroValue F, some err), w)
      | .ok metricType =>
        match readMetricValues p metricType rawValue w with
        | none => none
        | some ((_, _, _, some err), w) =>
          some ((dogstatsdMetricSample.zeroValue F,
            some (Error.errorfWrap "could not parse dogstatsd metric values: %v" [] err)), w)
        | some ((setValue, values, value, none), w) =>
          match parseOptionalFields p (message.length + 1) f2.2 (optionalFields.init F) w with
          | none => none
          | some (.error err, w) => some ((dogstatsdMetricSample.zeroValue F, some err), w)
          | some (.ok st, w) =>
            let r := p.LoadOrStore name w
            some (({ name := r.1, value := value, values := values, setValue := setValue,
                     metricType := metricType, sampleRate := st.sampleRate, tags := st.tags,
                     containerID := st.containerID, externalData := st.externalData,
                     ts := st.timestamp }, none), r.2)

/-! ## An instance of the parser record

The record below fixes every collaborator, so that the functions above can be
evaluated on the examples of the specification. -/

/-- A decimal number `digits / 10 ^ scale`, standing for a `float64` in the examples. -/
structure Decimal where
  digits : Int
  scale : Nat
  deriving DecidableEq, Repr

instance : Zero Decimal := ⟨⟨0, 0⟩⟩

instance : One Decimal := ⟨⟨1, 0⟩⟩

/-- Stand-in for `strconv.ParseFloat` in the examples: digits, optionally
followed by `.` and more digits. -/
def parseDecimal (s : Bytes) : Except Error Decimal :=
  let whole := s.takeWhile (fun c => c != 46)
  let frac := (s.dropWhile (fun c => c != 46)).drop 1
  if whole = [] then .error (Error.numError "ParseFloat" s "invalid syntax")
  else
    match digitsValue (whole ++ frac) 0 with
    | none => .error (Error.numError "ParseFloat" s "invalid syntax")
    | some n => .ok ⟨(n : Int), frac.length⟩

/-- Modelled from the spec: `parse_metrics.go` is not among the sources.  The
spec makes a message without its mandatory fields a format error; the
stand-in asks for a field separator. -/
def exampleHasMetricSampleFormat (message : Bytes) : Bool :=
  Contains message fieldSeparator

/-- Modelled from the spec: `parse_metrics.go` is not among the sources.  The
wire grammar of the spec starts with `<name>:<value>[:<value>]*`; the stand-in
cuts at the first `:` and asks for a name and a value. -/
def exampleNameAndRawValue (rawNameAndValue : Bytes) : Except Error (Bytes × Bytes) :=
  let sepIndex := Index rawNameAndValue colonSeparator
  if sepIndex = -1 then .error (Error.errorf "invalid name and value: %q" [rawNameAndValue])
  else
    let rawName := rawNameAndValue.take sepIndex.toNat
    let rawValue := rawNameAndValue.drop (sepIndex.toNat + 1)
    if rawName.length = 0 ∨ rawValue.length = 0 then
      .error (Error.errorf "invalid name and value: %q" [rawNameAndValue])
    else .ok (rawName, rawValue)

/-- Modelled from the spec: `parse_metrics.go` is not among the sources.  The
spec's examples use the tokens `c` (counter), `s` (set) and `h` (histogram);
`g`, `d` and `ms` are the protocol's tokens for the other three types. -/
def exampleMetricType (rawMetricType : Bytes) : Except Error metricType :=
  if rawMetricType = B "g" then .ok .gaugeType
  else if rawMetricType = B "c" then .ok .countType
  else if rawMetricType = B "d" then .ok .distributionType
  else if rawMetricType = B "h" then .ok .histogramType
  else if rawMetricType = B "s" then .ok .setType
  else if rawMetricType = B "ms" then .ok .timingType
  else .error (Error.errorf "invalid metric type: %q" [rawMetricType])

/-- Modelled from the spec: `parse_metrics.go` is not among the sources.  The
spec makes the sample rate a decimal in `(0,1]`. -/
def exampleSampleRate (rawSampleRate : Bytes) : Except Error Decimal :=
  match parseDecimal rawSampleRate with
  | .error err => .error err
  | .ok r =>
    if 0 < r.digits ∧ r.digits ≤ 10 ^ r.scale then .ok r
    else .error (Error.errorf "invalid sample rate: %q" [rawSampleRate])

/-- A parser whose state counts the calls to its collaborators: the interner
returns its input, the provider knows inode `456` only. -/
def exampleParser (dsdOriginEnabled readTimestamps : Bool) : parser Decimal Nat :=
  { LoadOrStore := fun b w => (b, w + 1)
    float64ListGet := fun w => w + 1
    float64ListPut := fun _ w => w + 1
    dsdOriginEnabled := dsdOriginEnabled
    readTimestamps := readTimestamps
    GetContainerIDForInode := fun inode _ w =>
      if inode = 456 then (.ok (B "from-inode"), w + 1) else (.error (Error.other 0), w + 1)
    parseFloat64 := parseDecimal
    hasMetricSampleFormat := exampleHasMetricSampleFormat
    parseMetricSampleNameAndRawValue := exampleNameAndRawValue
    parseMetricSampleMetricType := exampleMetricType
    parseMetricSampleSampleRate := exampleSampleRate }


/-! ## The value list as the specification words it -/

/-- The non-empty pieces of the raw value between the colons. -/
def nonEmptySegments (rawFloats : Bytes) : List Bytes :=
  (rawFloats.splitOn 58).filter (fun seg => seg ≠ [])

/-- The numbers of the segments that come before the first segment that is
not a number, and the error of that segment if there is one. -/
def parseSegments {F : Type} (parse : Bytes → Except Error F) : List Bytes → List F × Option Error
  | [] => ([], none)
  | seg :: segs =>
    match parse seg with
    | .error err => ([], some err)
    | .ok v => (v :: (parseSegments parse segs).1, (parseSegments parse segs).2)

/-- The result of `parseFloat64List` in the words of the specification: the
numbers of the non-empty segments in submitted order; no list and the error
of the number parser when a segment is not a number; no list and "no value
found" when there is no non-empty segment. -/
def specFloat64List {F : Type} (parse : Bytes → Except Error F) (rawFloats : Bytes) :
    List F × Option Error :=
  match parseSegments parse (nonEmptySegments rawFloats) with
  | (_, some err) => ([], some err)
  | ([], none) => ([], some (Error.errorf "no value found" []))
  | (v :: vs, none) => (v :: vs, none)

/-- The state in which `parseFloat64List` leaves the pool: the buffer is put
back, with the numbers read so far, exactly when the function fails. -/
def specFloat64ListPool {F W : Type} (p : parser F W) (rawFloats : Bytes) (w : W) : W :=
  match parseSegments p.parseFloat64 (nonEmptySegments rawFloats) with
  | (vs, some _) => p.float64ListPut vs (p.float64ListGet w)
  | ([], none) => p.float64ListPut [] (p.float64ListGet w)
  | (_ :: _, none) => p.float64ListGet w

/-! ## The optional fields as a list -/

/-- The switch of `parseMetricSample` applied to a list of optional fields in
order, stopping at the first error: what the optional-field loop computes
once the message is cut into its fields. -/
def foldOptionalFields {F W : Type} (p : parser F W) :
    List Bytes → optionalFields F → W → Except Error (optionalFields F) × W
  | [], st, w => (.ok st, w)
  | optionalField :: rest, st, w =>
    match parseOptionalField p optionalField st w with
    | (.error err, w) => (.error err, w)
    | (.ok st, w) => foldOptionalFields p rest st w

/-- The fields that the optional-field loop visits when it starts on `message`. -/
def optionalFieldList : Option Bytes → List Bytes
  | none => []
  | some message => message.splitOn 124

/-- The message without those of its optional fields (the fields after the
first two) that `skip` selects. -/
def removeOptionalFields (skip : Bytes → Bool) (message : Bytes) : Bytes :=
  [124].intercalate
    ((message.splitOn 124).take 2 ++ ((message.splitOn 124).drop 2).filter (fun f => !skip f))

/-- Whether a field starts with `T`. -/
def isTimestampField (f : Bytes) : Bool := f.head? = some 84

/-- Whether a field starts with `c:` or with `e:`. -/
def isOriginField (f : Bytes) : Bool :=
  List.isPrefixOf [99, 58] f || List.isPrefixOf [101, 58] f

/-! ## The provider calls of a local-data list -/

/-- The inodes of the items `in-<n>` of a local-data list whose `<n>`
`ParseUint` reads, in list order. -/
def inodeLookups (items : List Bytes) : List Nat :=
  items.filterMap (fun item =>
    if List.isPrefixOf [105, 110, 45] item then
      match ParseUint (item.drop 3) with
      | .ok n => some n
      | .error _ => none
    else none)

/-- A parser whose state is the list of the calls made to the provider, each
with its inode and its cache validity; the other collaborators are those of
`exampleParser` and leave the state alone. -/
def loggingParser (dsdOriginEnabled readTimestamps : Bool) : parser Decimal (List (Nat × Nat)) :=
  { LoadOrStore := fun b w => (b, w)
    float64ListGet := fun w => w
    float64ListPut := fun _ w => w
    dsdOriginEnabled := dsdOriginEnabled
    readTimestamps := readTimestamps
    GetContainerIDForInode := fun inode validity w =>
      if inode = 456 then (.ok (B "from-inode"), w ++ [(inode, validity)])
      else (.error (Error.other 0), w ++ [(inode, validity)])
    parseFloat64 := parseDecimal
    hasMetricSampleFormat := exampleHasMetricSampleFormat
    parseMetricSampleNameAndRawValue := exampleNameAndRawValue
    parseMetricSampleMetricType := exampleMetricType
    parseMetricSampleSampleRate := exampleSampleRate }

/-! ## The switch as an effect on the loop state -/

/-- What the switch of `parseMetricSample` does with one optional field: it
fails, leaves the state alone, or assigns one of the five variables. -/
inductive fieldEffect (F : Type) where
  | fail (err : Error)
  | skip
  | setTags (rawTags : Bytes)
  | setSampleRate (sampleRate : F)
  | setTimestamp (timestamp : Time)
  | setContainerID (rawLocalData : Bytes)
  | setExternalData (externalData : ExternalData)

/-- The effect of a field, read off the switch (lines 186-219). -/
def fieldEffectOf {F W : Type} (p : parser F W) (optionalField : Bytes) : fieldEffect F :=
  if HasPrefix optionalField tagsFieldPrefix then .setTags (optionalField.drop 1)
  else if HasPrefix optionalField sampleRateFieldPrefix then
    match p.parseMetricSampleSampleRate (optionalField.drop 1) with
    | .error _ => .fail (Error.errorf "could not parse dogstatsd sample rate %q" [optionalField])
    | .ok sampleRate => .setSampleRate sampleRate
  else if HasPrefix optionalField timestampFieldPrefix then
    if !p.readTimestamps then .skip
    else
      match ParseInt (optionalField.drop timestampFieldPrefix.length) with
      | .error err =>
        .fail (Error.errorfWrap "could not parse dogstatsd timestamp %q: %v"
          [optionalField.drop timestampFieldPrefix.length] err)
      | .ok ts =>
        if ts < 1 then .fail (Error.errorf "dogstatsd timestamp should be > 0" [])
        else .setTimestamp (Time.unix ts 0)
  else if p.dsdOriginEnabled && HasPrefix optionalField localDataPrefix then
    .setContainerID optionalField
  else if p.dsdOriginEnabled && HasPrefix optionalField externalDataPrefix then
    match (ParseExternalData (optionalField.drop externalDataPrefix.length)).2 with
    | some err =>
      .fail (Error.errorfWrap "failed to parse OriginInfo.ExternalData %s: %v"
        [optionalField.drop externalDataPrefix.length] err)
    | none => .setExternalData (ParseExternalData (optionalField.drop externalDataPrefix.length)).1
  else .skip

/-- An effect applied to the loop state and to the state of the collaborators. -/
def applyFieldEffect {F W : Type} (p : parser F W) :
    fieldEffect F → optionalFields F → W → Except Error (optionalFields F) × W
  | .fail err, _, w => (.error err, w)
  | .skip, st, w => (.ok st, w)
  | .setTags rawTags, st, w =>
    (.ok { st with tags := (parseTags p rawTags w).1 }, (parseTags p rawTags w).2)
  | .setSampleRate sampleRate, st, w => (.ok { st with sampleRate := sampleRate }, w)
  | .setTimestamp timestamp, st, w => (.ok { st with timestamp := timestamp }, w)
  | .setContainerID rawLocalData, st, w =>
    (.ok { st with containerID := (resolveContainerIDFromLocalData p rawLocalData w).1 },
      (resolveContainerIDFromLocalData p rawLocalData w).2)
  | .setExternalData externalData, st, w => (.ok { st with externalData := externalData }, w)

/-- The kind of an optional field, by its prefix. -/
inductive fieldKind where
  | tags
  | sampleRate
  | timestamp
  | localData
  | externalData
  | other
  deriving DecidableEq, Repr

/-- The kind of a field: the prefixes are tested in the order of the switch. -/
def fieldKindOf (optionalField : Bytes) : fieldKind :=
  if HasPrefix optionalField tagsFieldPrefix then .tags
  else if HasPrefix optionalField sampleRateFieldPrefix then .sampleRate
  else if HasPrefix optionalField timestampFieldPrefix then .timestamp
  else if HasPrefix optionalField localDataPrefix then .localData
  else if HasPrefix optionalField externalDataPrefix then .externalData
  else .other

/-- Two parsers with the same flags and the same helpers of `parse_metrics.go`;
they may differ in their interner, their pool and their provider. -/
structure sameHelpers {F W : Type} (p1 p2 : parser F W) : Prop where
  dsdOriginEnabled : p1.dsdOriginEnabled = p2.dsdOriginEnabled
  readTimestamps : p1.readTimestamps = p2.readTimestamps
  parseFloat64 : p1.parseFloat64 = p2.parseFloat64
  hasMetricSampleFormat : p1.hasMetricSampleFormat = p2.hasMetricSampleFormat
  parseMetricSampleNameAndRawValue :
    p1.parseMetricSampleNameAndRawValue = p2.parseMetricSampleNameAndRawValue
  parseMetricSampleMetricType : p1.parseMetricSampleMetricType = p2.parseMetricSampleMetricType
  parseMetricSampleSampleRate : p1.parseMetricSampleSampleRate = p2.parseMetricSampleSampleRate

/-- A relation `Rw` between the collaborator states of two parsers that every
collaborator keeps, both interners returning their input; when `C` holds the
two providers moreover give the same answer in related states. -/
structure collaboratorsRel {F W : Type} (p1 p2 : parser F W) (Rw : W → W → Prop) (C : Prop) :
    Prop where
  content1 : ∀ b w, (p1.LoadOrStore b w).1 = b
  content2 : ∀ b w, (p2.LoadOrStore b w).1 = b
  interner : ∀ b w1 w2, Rw w1 w2 → Rw (p1.LoadOrStore b w1).2 (p2.LoadOrStore b w2).2
  get : ∀ w1 w2, Rw w1 w2 → Rw (p1.float64ListGet w1) (p2.float64ListGet w2)
  put : ∀ l w1 w2, Rw w1 w2 → Rw (p1.float64ListPut l w1) (p2.float64ListPut l w2)
  provider : ∀ n d w1 w2, Rw w1 w2 →
    Rw (p1.GetContainerIDForInode n d w1).2 (p2.GetContainerIDForInode n d w2).2 ∧
    (C → (p1.GetContainerIDForInode n d w1).1 = (p2.GetContainerIDForInode n d w2).1)

/-- Two loop states with the same variables, the container ID being compared
only when `C` holds. -/
def optionalFieldsRel {F : Type} (C : Prop) (st1 st2 : optionalFields F) : Prop :=
  st1.sampleRate = st2.sampleRate ∧ st1.tags = st2.tags ∧ st1.externalData = st2.externalData ∧
  st1.timestamp = st2.timestamp ∧ (C → st1.containerID = st2.containerID)

/-- Two results of the switch or of the loop: the same error, or related
states; and related collaborator states. -/
def resultRel {F W : Type} (Rw : W → W → Prop) (C : Prop)
    (r1 r2 : Except Error (optionalFields F) × W) : Prop :=
  Rw r1.2 r2.2 ∧
  match r1.1, r2.1 with
  | .error e1, .error e2 => e1 = e2
  | .ok st1, .ok st2 => optionalFieldsRel C st1 st2
  | _, _ => False

/-- Two results of the loop with the same outcome: both an error, or the same
loop state with collaborator states of the same `view`. -/
def outcomeRel {F W V : Type} (view : W → V)
    (r1 r2 : Except Error (optionalFields F) × W) : Prop :=
  match r1.1, r2.1 with
  | .error _, .error _ => True
  | .ok st1, .ok st2 => st1 = st2 ∧ view r1.2 = view r2.2
  | _, _ => False

/-! ## Inserting an optional field; the indexing of `parseTags` -/

/-- The message with the field `f` put after its first `k` optional fields (the
fields after the first two), or at its end when it has no more than `k`. -/
def insertOptionalField (f : Bytes) (k : Nat) (message : Bytes) : Bytes :=
  [124].intercalate
    ((message.splitOn 124).take (k + 2) ++ f :: (message.splitOn 124).drop (k + 2))

/-- What `parseTags` does with its list, next to what it returns: the writes
`tagsList[i] = ...` in order, each as the index `i` and the length of the list
written to, the number of iterations of the loop that were completed, and
whether the loop was left through `break`. -/
structure tagsTrace where
  writes : List (Nat × Nat)
  iterations : Nat
  broke : Bool
  deriving DecidableEq, Repr

/-- The loop of `parseTags` (lines 119-127) once more, keeping the trace. -/
def parseTagsLoopTrace {F W : Type} (p : parser F W) :
    Nat → List Bytes → Nat → Bytes → W → tagsTrace →
      (List Bytes × Nat × Bytes × W) × tagsTrace
  | 0, tagsList, i, rawTags, w, t => ((tagsList, i, rawTags, w), t)
  | n + 1, tagsList, i, rawTags, w, t =>
    let tagPos := Index rawTags commaSeparator
    if tagPos < 0 then ((tagsList, i, rawTags, w), { t with broke := true })
    else
      let r := p.LoadOrStore (rawTags.take tagPos.toNat) w
      parseTagsLoopTrace p n (tagsList.set i r.1) (i + 1)
        (rawTags.drop (tagPos.toNat + commaSeparator.length)) r.2
        { t with writes := t.writes ++ [(i, tagsList.length)], iterations := t.iterations + 1 }

/-- The method `parser.parseTags` (lines 111-130) once more, keeping the trace. -/
def parseTagsTrace {F W : Type} (p : parser F W) (rawTags : Bytes) (w : W) :
    (List Bytes × W) × tagsTrace :=
  if rawTags.length = 0 then (([], w), { writes := [], iterations := 0, broke := false })
  else
    let tagsCount := Count rawTags commaSeparator
    let tagsList : List Bytes := List.replicate (tagsCount + 1) []
    let ((tagsList, i, rawTags, w), t) :=
      parseTagsLoopTrace p tagsCount tagsList 0 rawTags w
        { writes := [], iterations := 0, broke := false }
    let r := p.LoadOrStore rawTags w
    ((tagsList.set i r.1, r.2), { t with writes := t.writes ++ [(i, tagsList.length)] })

/-! ## Lemmas on the byte functions -/

theorem isPrefixOf_singleton_cons (c d : UInt8) (s : Bytes) :
    List.isPrefixOf [c] (d :: s) = (c == d) := by
  simp [List.isPrefixOf]

theorem IndexFrom_of_not_mem (c : UInt8) (s : Bytes) (i : Nat) (h : c ∉ s) :
    IndexFrom [c] s i = -1 := by
  induction s generalizing i with
  | nil => simp [IndexFrom, List.isPrefixOf]
  | cons d s ih =>
    have hd : c ≠ d := fun e => h (by simp [e])
    have hs : c ∉ s := fun e => h (by simp [e])
    simp [IndexFrom, isPrefixOf_singleton_cons, hd, ih _ hs]

theorem IndexFrom_append_cons (c : UInt8) (a b : Bytes) (i : Nat) (h : c ∉ a) :
    IndexFrom [c] (a ++ c :: b) i = ((i + a.length : Nat) : Int) := by
  induction a generalizing i with
  | nil => simp [IndexFrom, isPrefixOf_singleton_cons]
  | cons d a ih =>
    have hd : c ≠ d := fun e => h (by simp [e])
    have ha : c ∉ a := fun e => h (by simp [e])
    have e : IndexFrom [c] (d :: (a ++ c :: b)) i = IndexFrom [c] (a ++ c :: b) (i + 1) := by
      simp [IndexFrom, isPrefixOf_singleton_cons, hd]
    rw [List.cons_append, e, ih _ ha, List.length_cons]
    congr 1
    omega

theorem Index_of_not_mem (c : UInt8) (s : Bytes) (h : c ∉ s) : Index s [c] = -1 :=
  IndexFrom_of_not_mem c s 0 h

theorem Index_append_cons (c : UInt8) (a b : Bytes) (h : c ∉ a) :
    Index (a ++ c :: b) [c] = (a.length : Int) := by
  simp [Index, IndexFrom_append_cons c a b 0 h]

/-- A list containing `c` is cut at the first `c`. -/
theorem exists_first_split (c : UInt8) (s : Bytes) (h : c ∈ s) :
    ∃ a b, s = a ++ c :: b ∧ c ∉ a := by
  induction s with
  | nil => simp at h
  | cons d s ih =>
    by_cases hd : d = c
    · exact ⟨[], s, by simp [hd], by simp⟩
    · have hs : c ∈ s := by
        rcases List.mem_cons.1 h with e | e
        · exact absurd e.symm hd
        · exact e
      obtain ⟨a, b, hab, ha⟩ := ih hs
      refine ⟨d :: a, b, by simp [hab], ?_⟩
      intro e
      rcases List.mem_cons.1 e with e | e
      · exact hd e.symm
      · exact ha e

theorem Contains_singleton (c : UInt8) (s : Bytes) : Contains s [c] = true ↔ c ∈ s := by
  constructor
  · intro h
    by_contra hc
    simp [Contains, Index_of_not_mem c s hc] at h
  · intro h
    obtain ⟨a, b, hab, ha⟩ := exists_first_split c s h
    subst hab
    simp only [Contains, Index_append_cons c a b ha, bne_iff_ne, ne_eq]
    omega

theorem CountFrom_singleton (c : UInt8) (s : Bytes) : CountFrom [c] s 0 = s.count c := by
  induction s with
  | nil => simp [CountFrom]
  | cons d s ih =>
    by_cases hd : d = c
    · subst hd
      simp [CountFrom, isPrefixOf_singleton_cons, ih, Nat.add_comm]
    · have hd2 : c ≠ d := fun e => hd e.symm
      simp [CountFrom, isPrefixOf_singleton_cons, ih, hd, hd2, List.count_cons]

theorem Count_singleton (c : UInt8) (s : Bytes) : Count s [c] = s.count c :=
  CountFrom_singleton c s

theorem fieldSeparator_eq : fieldSeparator = [124] := by decide

theorem colonSeparator_eq : colonSeparator = [58] := by decide

theorem commaSeparator_eq : commaSeparator = [44] := by decide

theorem nextField_of_not_mem (message : Bytes) (h : (124 : UInt8) ∉ message) :
    nextField message = (message, none) := by
  simp [nextField, fieldSeparator_eq, Index_of_not_mem 124 message h]

theorem nextField_append_cons (a b : Bytes) (h : (124 : UInt8) ∉ a) :
    nextField (a ++ 124 :: b) = (a, some b) := by
  have h1 : ((a.length : Int) = -1) = False := by
    apply eq_false; omega
  simp [nextField, fieldSeparator_eq, Index_append_cons 124 a b h, h1]

/-! ## Lemmas on splitting -/

theorem splitOn_of_not_mem (c : UInt8) (s : Bytes) (h : c ∉ s) : s.splitOn c = [s] := by
  refine List.splitOnP_eq_single _ _ ?_
  intro x hx hxc
  rw [eq_of_beq hxc] at hx
  exact h hx

theorem splitOn_append_cons (c : UInt8) (a b : Bytes) (h : c ∉ a) :
    (a ++ c :: b).splitOn c = a :: b.splitOn c := by
  refine List.splitOnP_first _ _ ?_ c (by simp) b
  intro x hx hxc
  rw [eq_of_beq hxc] at hx
  exact h hx

theorem count_append_cons (c : UInt8) (a b : Bytes) (h : c ∉ a) :
    (a ++ c :: b).count c = b.count c + 1 := by
  simp [List.count_append, List.count_eq_zero_of_not_mem h]

theorem set_length_append (pre : List Bytes) (x y : Bytes) (rest : List Bytes) :
    (pre ++ x :: rest).set pre.length y = pre ++ y :: rest := by
  induction pre with
  | nil => simp
  | cons z pre ih => simp [ih]

/-- The loop of `parseTags`, started on a list whose filled part is `pre`
and on a tail with `n` commas, fills the next `n` slots with the first `n`
pieces of the tail and stops on the last piece. -/
theorem parseTagsLoop_spec {F W : Type} (p : parser F W)
    (hp : ∀ b w, (p.LoadOrStore b w).1 = b) :
    ∀ (n : Nat) (pre : List Bytes) (raw : Bytes) (w : W), raw.count 44 = n →
      ∃ (init : List Bytes) (last : Bytes) (w' : W),
        parseTagsLoop p n (pre ++ List.replicate (n + 1) []) pre.length raw w
          = (pre ++ init ++ [[]], pre.length + n, last, w') ∧
        raw.splitOn 44 = init ++ [last] ∧ init.length = n := by
  intro n
  induction n with
  | zero =>
    intro pre raw w hc
    have hm : (44 : UInt8) ∉ raw := List.count_eq_zero.1 hc
    exact ⟨[], raw, w, by simp [parseTagsLoop], by simp [splitOn_of_not_mem 44 raw hm], rfl⟩
  | succ n ih =>
    intro pre raw w hc
    have hm : (44 : UInt8) ∈ raw := by
      apply List.count_pos_iff.1
      omega
    obtain ⟨a, b, hab, ha⟩ := exists_first_split 44 raw hm
    subst hab
    have hb : b.count 44 = n := by
      rw [count_append_cons 44 a b ha] at hc
      omega
    obtain ⟨init, last, w', h1, h2, h3⟩ := ih (pre ++ [a]) b (p.LoadOrStore a w).2 hb
    refine ⟨a :: init, last, w', ?_, ?_, ?_⟩
    · have hlt : ¬ ((a.length : Int) < 0) := by omega
      have hrep : List.replicate (n + 1 + 1) ([] : Bytes) = [] :: List.replicate (n + 1) [] := rfl
      have hlen : (pre ++ [a]).length = pre.length + 1 := by simp
      rw [hlen] at h1
      simp only [parseTagsLoop, commaSeparator_eq, Index_append_cons 44 a b ha, hlt, if_false,
        Int.toNat_ofNat, List.take_left, hp, hrep, set_length_append, List.length_singleton,
        List.drop_left, List.drop_append_of_le_length, List.append_assoc, List.singleton_append,
        List.cons_append]
      rw [show List.drop (a.length + 1) (a ++ 44 :: b) = b by
        rw [List.drop_append]; simp]
      simp only [List.append_assoc, List.singleton_append, List.cons_append,
        List.nil_append] at h1
      rw [h1, Nat.add_assoc, Nat.add_comm 1 n]
    · rw [splitOn_append_cons 44 a b ha, h2]; rfl
    · simp [h3]

theorem length_splitOn (c : UInt8) (s : Bytes) : (s.splitOn c).length = s.count c + 1 := by
  induction s using List.rec with
  | nil => simp
  | cons d s ih =>
    unfold List.splitOn at ih ⊢
    rw [List.splitOnP_cons]
    by_cases hd : d = c
    · subst hd; simp [ih]
    · have : (d == c) = false := by simp [hd]
      cases hs : List.splitOnP (fun x => x == c) s with
      | nil => exact absurd hs (List.splitOnP_ne_nil _ _)
      | cons x xs =>
        rw [hs] at ih
        simp [this, List.modifyHead, List.count_cons, hd] at ih ⊢
        exact ih

/-! ## Lemmas on `parseFloat64List` -/

theorem nonEmptySegments_nil : nonEmptySegments [] = [] := by
  simp [nonEmptySegments]

theorem nonEmptySegments_of_not_mem (raw : Bytes) (h : (58 : UInt8) ∉ raw) (hne : raw ≠ []) :
    nonEmptySegments raw = [raw] := by
  simp [nonEmptySegments, splitOn_of_not_mem 58 raw h, hne]

theorem nonEmptySegments_cons_colon (b : Bytes) :
    nonEmptySegments (58 :: b) = nonEmptySegments b := by
  have h := splitOn_append_cons 58 [] b (by simp)
  simp only [List.nil_append] at h
  simp [nonEmptySegments, h]

theorem nonEmptySegments_append_cons (a b : Bytes) (h : (58 : UInt8) ∉ a) (hne : a ≠ []) :
    nonEmptySegments (a ++ 58 :: b) = a :: nonEmptySegments b := by
  simp [nonEmptySegments, splitOn_append_cons 58 a b h, hne]

theorem parseFloat64ListLoop_exit {F W : Type} (p : parser F W) (fuel : Nat) (idx : Int)
    (raw : Bytes) (values : List F) (w : W) (h : idx = -1 ∨ raw = []) :
    parseFloat64ListLoop p fuel idx raw values w = some (parseFloat64ListEnd p values w) := by
  unfold parseFloat64ListLoop
  rcases h with h | h <;> simp [h]

theorem parseFloat64ListLoop_step {F W : Type} (p : parser F W) (fuel : Nat) (idx : Int)
    (raw : Bytes) (values : List F) (w : W) (h1 : idx ≠ -1) (h2 : raw ≠ []) :
    parseFloat64ListLoop p (fuel + 1) idx raw values w =
      if Index raw colonSeparator = 0 then
        parseFloat64ListLoop p fuel (Index raw colonSeparator)
          (raw.drop colonSeparator.length) values w
      else if Index raw colonSeparator = -1 then
        match p.parseFloat64 raw with
        | .error err => some (([], some err), p.float64ListPut values w)
        | .ok value =>
          parseFloat64ListLoop p fuel (Index raw colonSeparator) raw (values ++ [value]) w
      else
        match p.parseFloat64 (raw.take (Index raw colonSeparator).toNat) with
        | .error err => some (([], some err), p.float64ListPut values w)
        | .ok value =>
          parseFloat64ListLoop p fuel (Index raw colonSeparator)
            (raw.drop ((Index raw colonSeparator).toNat + colonSeparator.length))
            (values ++ [value]) w := by
  rw [parseFloat64ListLoop]
  simp [h1, h2]

/-- With more iterations allowed than the input has bytes, the loop of
`parseFloat64List` reads the non-empty segments in order. -/
theorem parseFloat64ListLoop_spec {F W : Type} (p : parser F W) :
    ∀ (fuel : Nat) (idx : Int) (raw : Bytes) (values : List F) (w : W),
      idx ≠ -1 → raw.length < fuel →
      parseFloat64ListLoop p fuel idx raw values w =
        some (match parseSegments p.parseFloat64 (nonEmptySegments raw) with
          | (vs, some err) => (([], some err), p.float64ListPut (values ++ vs) w)
          | (vs, none) => parseFloat64ListEnd p (values ++ vs) w) := by
  intro fuel
  induction fuel with
  | zero => intro idx raw values w _ h; omega
  | succ fuel ih =>
    intro idx raw values w hidx hlen
    by_cases hraw : raw = []
    · subst hraw
      rw [parseFloat64ListLoop_exit p _ _ _ _ _ (Or.inr rfl)]
      simp [nonEmptySegments_nil, parseSegments]
    · rw [parseFloat64ListLoop_step p fuel idx raw values w hidx hraw, colonSeparator_eq]
      by_cases hm : (58 : UInt8) ∈ raw
      · obtain ⟨a, b, hab, ha⟩ := exists_first_split 58 raw hm
        subst hab
        rw [Index_append_cons 58 a b ha]
        by_cases hnil : a = []
        · subst hnil
          have hb : b.length < fuel := by simp at hlen; omega
          simp only [List.length_nil, Nat.cast_zero, if_true, List.nil_append,
            List.length_singleton, List.drop_succ_cons, List.drop_zero]
          rw [ih 0 b values w (by omega) hb, nonEmptySegments_cons_colon]
        · have hpos : 0 < a.length := List.length_pos.2 hnil
          have h0 : ¬ ((a.length : Int) = 0) := by omega
          have h1 : ¬ ((a.length : Int) = -1) := by omega
          have hb : b.length < fuel := by simp at hlen; omega
          have hdrop : List.drop (a.length + 1) (a ++ 58 :: b) = b := by
            rw [List.drop_append]; simp
          simp only [h0, h1, if_false, Int.toNat_ofNat, List.take_left, List.length_singleton,
            hdrop]
          rw [nonEmptySegments_append_cons a b ha hnil]
          cases hp : p.parseFloat64 a with
          | error err => simp [parseSegments, hp]
          | ok v =>
            simp only [parseSegments, hp]
            rw [ih (a.length : Int) b (values ++ [v]) w h1 hb]
            rcases parseSegments p.parseFloat64 (nonEmptySegments b) with ⟨vs, _ | e⟩ <;> simp
      · rw [Index_of_not_mem 58 raw hm, nonEmptySegments_of_not_mem raw hm hraw]
        have h0 : ¬ ((-1 : Int) = 0) := by omega
        simp only [h0, if_false, if_true]
        cases hp : p.parseFloat64 raw with
        | error err => simp [parseSegments, hp]
        | ok v =>
          simp only [parseSegments, hp]
          rw [parseFloat64ListLoop_exit p _ _ _ _ _ (Or.inl rfl)]

/-- `parseFloat64List` returns, for every input, the result that the
specification words, and leaves the pool as `specFloat64ListPool` says. -/
theorem parseFloat64List_eq_spec {F W : Type} (p : parser F W) (raw : Bytes) (w : W) :
    parseFloat64List p raw w =
      some (specFloat64List p.parseFloat64 raw, specFloat64ListPool p raw w) := by
  unfold parseFloat64List float64ListBuffer
  rw [parseFloat64ListLoop_spec p _ 0 raw [] _ (by omega) (by omega)]
  unfold specFloat64List specFloat64ListPool
  rcases parseSegments p.parseFloat64 (nonEmptySegments raw) with ⟨_ | ⟨v, vs⟩, _ | e⟩ <;>
    simp [parseFloat64ListEnd]

theorem parseSegments_of_map_eq {F : Type} (parse : Bytes → Except Error F) :
    ∀ (segs : List Bytes) (vals : List F),
      segs.map parse = vals.map Except.ok → parseSegments parse segs = (vals, none) := by
  intro segs
  induction segs with
  | nil =>
    intro vals h
    cases vals with
    | nil => rfl
    | cons v vs => simp at h
  | cons seg segs ih =>
    intro vals h
    cases vals with
    | nil => simp at h
    | cons v vs =>
      simp only [List.map_cons, List.cons.injEq] at h
      simp [parseSegments, h.1, ih vs h.2]

theorem parseSegments_snd_eq_none_iff {F : Type} (parse : Bytes → Except Error F) :
    ∀ (segs : List Bytes),
      (parseSegments parse segs).2 = none ↔ ∀ seg ∈ segs, ∃ v, parse seg = .ok v := by
  intro segs
  induction segs with
  | nil => simp [parseSegments]
  | cons seg segs ih =>
    cases hp : parse seg with
    | error err => simp [parseSegments, hp]
    | ok v => simp [parseSegments, hp, ih]

theorem parseSegments_length {F : Type} (parse : Bytes → Except Error F) :
    ∀ (segs : List Bytes),
      (parseSegments parse segs).2 = none → (parseSegments parse segs).1.length = segs.length := by
  intro segs
  induction segs with
  | nil => simp [parseSegments]
  | cons seg segs ih =>
    cases hp : parse seg with
    | error err => simp [parseSegments, hp]
    | ok v =>
      simp only [parseSegments, hp, List.length_cons]
      intro h
      rw [ih h]

theorem parseSegments_first_error {F : Type} (parse : Bytes → Except Error F) :
    ∀ (pre : List Bytes) (seg : Bytes) (post : List Bytes) (err : Error),
      (∀ s ∈ pre, ∃ v, parse s = .ok v) → parse seg = .error err →
      (parseSegments parse (pre ++ seg :: post)).2 = some err := by
  intro pre
  induction pre with
  | nil =>
    intro seg post err _ h
    simp [parseSegments, h]
  | cons s pre ih =>
    intro seg post err hall h
    obtain ⟨v, hv⟩ := hall s (by simp)
    simp only [List.cons_append, parseSegments, hv]
    exact ih seg post err (fun t ht => hall t (by simp [ht])) h

theorem specFloat64List_of_error {F : Type} (parse : Bytes → Except Error F) (raw : Bytes)
    (err : Error) (h : (parseSegments parse (nonEmptySegments raw)).2 = some err) :
    specFloat64List parse raw = ([], some err) := by
  unfold specFloat64List
  rcases hps : parseSegments parse (nonEmptySegments raw) with ⟨vs, _ | e⟩
  · rw [hps] at h; simp at h
  · rw [hps] at h
    simp only [Option.some.injEq] at h
    simp [h]

theorem specFloat64List_snd_ne_none_iff {F : Type} (parse : Bytes → Except Error F)
    (raw : Bytes) :
    (specFloat64List parse raw).2 ≠ none ↔
      ((∃ seg ∈ nonEmptySegments raw, ∃ err, parse seg = .error err) ∨
        nonEmptySegments raw = []) := by
  have hiff := parseSegments_snd_eq_none_iff parse (nonEmptySegments raw)
  have hlen := parseSegments_length parse (nonEmptySegments raw)
  unfold specFloat64List
  rcases hps : parseSegments parse (nonEmptySegments raw) with ⟨vs, _ | e⟩
  · rw [hps] at hiff hlen
    have hall := hiff.1 rfl
    have hl := hlen rfl
    cases vs with
    | nil =>
      have : nonEmptySegments raw = [] := List.length_eq_zero.1 hl.symm
      simp [this]
    | cons v vs =>
      have hne : nonEmptySegments raw ≠ [] := by
        intro h; rw [h] at hl; simp at hl
      simp only [ne_eq, not_true_eq_false, false_iff, not_or]
      refine ⟨?_, hne⟩
      rintro ⟨seg, hseg, err, herr⟩
      obtain ⟨v', hv'⟩ := hall seg hseg
      rw [hv'] at herr
      cases herr
  · rw [hps] at hiff
    simp only [ne_eq, reduceCtorEq, not_false_eq_true, true_iff]
    left
    by_contra hcon
    have : ∀ seg ∈ nonEmptySegments raw, ∃ v, parse seg = .ok v := by
      intro seg hseg
      cases hp : parse seg with
      | ok v => exact ⟨v, rfl⟩
      | error err => exact absurd ⟨seg, hseg, err, hp⟩ hcon
    have := hiff.2 this
    simp at this

theorem nonEmptySegments_eq_nil_iff (raw : Bytes) :
    nonEmptySegments raw = [] ↔ ∀ c ∈ raw, c = 58 := by
  induction raw with
  | nil => simp [nonEmptySegments_nil]
  | cons d s ih =>
    by_cases hd : d = 58
    · subst hd
      rw [nonEmptySegments_cons_colon, ih]
      simp
    · constructor
      · intro h
        exfalso
        by_cases hm : (58 : UInt8) ∈ d :: s
        · obtain ⟨a, b, hab, ha⟩ := exists_first_split 58 (d :: s) hm
          have hne : a ≠ [] := by
            intro e
            subst e
            simp only [List.nil_append, List.cons.injEq] at hab
            exact hd hab.1
          rw [hab, nonEmptySegments_append_cons a b ha hne] at h
          simp at h
        · rw [nonEmptySegments_of_not_mem (d :: s) hm (by simp)] at h
          simp at h
      · intro h
        exact absurd (h d (by simp)) hd

/-! ## Lemmas on the optional-field loop -/

theorem nextField_cases (message : Bytes) :
    (nextField message = (message, none) ∧ message.splitOn 124 = [message]) ∨
    (∃ a b, nextField message = (a, some b) ∧ message.splitOn 124 = a :: b.splitOn 124 ∧
      b.length < message.length) := by
  by_cases h : (124 : UInt8) ∈ message
  · obtain ⟨a, b, hab, ha⟩ := exists_first_split 124 message h
    subst hab
    exact Or.inr ⟨a, b, nextField_append_cons a b ha, splitOn_append_cons 124 a b ha,
      by simp; omega⟩
  · exact Or.inl ⟨nextField_of_not_mem message h, splitOn_of_not_mem 124 message h⟩

/-- With more iterations allowed than the message has bytes, the
optional-field loop visits the fields of the message in order. -/
theorem parseOptionalFields_eq_fold {F W : Type} (p : parser F W) :
    ∀ (fuel : Nat) (message : Option Bytes) (st : optionalFields F) (w : W),
      (∀ m, message = some m → m.length < fuel) →
      parseOptionalFields p fuel message st w =
        some (foldOptionalFields p (optionalFieldList message) st w) := by
  intro fuel
  induction fuel with
  | zero =>
    intro message st w h
    cases message with
    | none => rfl
    | some m => exact absurd (h m rfl) (by omega)
  | succ fuel ih =>
    intro message st w h
    cases message with
    | none => rfl
    | some m =>
      have hm := h m rfl
      rcases nextField_cases m with ⟨h1, h2⟩ | ⟨a, b, h1, h2, h3⟩
      · simp only [parseOptionalFields, optionalFieldList, h1, h2, foldOptionalFields]
        rcases parseOptionalField p m st w with ⟨_ | st', w'⟩
        · rfl
        · simp [parseOptionalFields, foldOptionalFields]
      · simp only [parseOptionalFields, optionalFieldList, h1, h2, foldOptionalFields]
        rcases parseOptionalField p a st w with ⟨_ | st', w'⟩
        · rfl
        · simp only
          rw [ih (some b) st' w' (by intro m' hm'; cases hm'; omega)]
          rfl

/-- The fields that the optional-field loop of `parseMetricSample` visits are
the fields of the message after the first two. -/
theorem optionalFieldList_message (message : Bytes) :
    optionalFieldList (nextField ((nextField message).2.getD [])).2
      = (message.splitOn 124).drop 2 ∧
    ∀ m, (nextField ((nextField message).2.getD [])).2 = some m →
      m.length < message.length + 1 := by
  rcases nextField_cases message with ⟨h1, h2⟩ | ⟨a, b, h1, h2, h3⟩
  · have : nextField [] = ([], none) := by decide
    simp [h1, h2, this, optionalFieldList]
  · rcases nextField_cases b with ⟨h4, h5⟩ | ⟨c, d, h4, h5, h6⟩
    · simp [h1, h2, h4, h5, optionalFieldList]
    · simp only [h1, h2, h4, h5, optionalFieldList, Option.getD_some, List.drop_succ_cons,
        List.drop_zero, Option.some.injEq, true_and]
      intro m hm
      subst hm
      omega

theorem parseOptionalFields_message {F W : Type} (p : parser F W) (message : Bytes)
    (st : optionalFields F) (w : W) :
    parseOptionalFields p (message.length + 1) (nextField ((nextField message).2.getD [])).2 st w
      = some (foldOptionalFields p ((message.splitOn 124).drop 2) st w) := by
  rw [parseOptionalFields_eq_fold p _ _ st w (optionalFieldList_message message).2,
    (optionalFieldList_message message).1]

theorem HasPrefix_singleton (c : UInt8) (s : Bytes) :
    HasPrefix s [c] = true ↔ s.head? = some c := by
  cases s with
  | nil => simp [HasPrefix, List.isPrefixOf]
  | cons d s =>
    simp only [HasPrefix, isPrefixOf_singleton_cons, beq_iff_eq, List.head?_cons,
      Option.some.injEq]
    exact eq_comm

theorem tagsFieldPrefix_eq : tagsFieldPrefix = [35] := by decide

theorem sampleRateFieldPrefix_eq : sampleRateFieldPrefix = [64] := by decide

theorem timestampFieldPrefix_eq : timestampFieldPrefix = [84] := by decide

/-! ## Lemmas on `parseMetricSample` -/

theorem parseOptionalField_rejected_rate {F W : Type} (p : parser F W) (optionalField : Bytes)
    (st : optionalFields F) (w : W) (err : Error) (h : optionalField.head? = some 64)
    (hr : p.parseMetricSampleSampleRate (optionalField.drop 1) = .error err) :
    parseOptionalField p optionalField st w =
      (.error (Error.errorf "could not parse dogstatsd sample rate %q" [optionalField]), w) := by
  have h1 : HasPrefix optionalField tagsFieldPrefix = false := by
    rw [Bool.eq_false_iff, ne_eq, tagsFieldPrefix_eq, HasPrefix_singleton, h]
    decide
  have h2 : HasPrefix optionalField sampleRateFieldPrefix = true := by
    rw [sampleRateFieldPrefix_eq, HasPrefix_singleton, h]
  rw [List.drop_one] at hr
  simp [parseOptionalField, h1, h2, hr]

theorem parseOptionalField_sampleRate {F W : Type} (p : parser F W) (optionalField : Bytes)
    (st st' : optionalFields F) (w w' : W) (h : optionalField.head? ≠ some 64)
    (hr : parseOptionalField p optionalField st w = (.ok st', w')) :
    st'.sampleRate = st.sampleRate := by
  have h2 : HasPrefix optionalField sampleRateFieldPrefix = false := by
    rw [Bool.eq_false_iff, ne_eq, sampleRateFieldPrefix_eq, HasPrefix_singleton]
    exact h
  unfold parseOptionalField at hr
  simp only [h2] at hr
  split at hr
  · cases hr; rfl
  · simp only [Bool.false_eq_true, if_false] at hr
    split at hr
    · split at hr
      · cases hr; rfl
      · split at hr
        · cases hr
        · split at hr
          · cases hr
          · cases hr; rfl
    · split at hr
      · cases hr; rfl
      · split at hr
        · split at hr
          · cases hr
          · cases hr; rfl
        · cases hr; rfl

theorem parseOptionalField_tags {F W : Type} (p : parser F W) (optionalField : Bytes)
    (st st' : optionalFields F) (w w' : W) (h : optionalField.head? ≠ some 35)
    (hr : parseOptionalField p optionalField st w = (.ok st', w')) :
    st'.tags = st.tags := by
  have h2 : HasPrefix optionalField tagsFieldPrefix = false := by
    rw [Bool.eq_false_iff, ne_eq, tagsFieldPrefix_eq, HasPrefix_singleton]
    exact h
  unfold parseOptionalField at hr
  simp only [h2, Bool.false_eq_true, if_false] at hr
  split at hr
  · split at hr
    · cases hr
    · cases hr; rfl
  · split at hr
    · split at hr
      · cases hr; rfl
      · split at hr
        · cases hr
        · split at hr
          · cases hr
          · cases hr; rfl
    · split at hr
      · cases hr; rfl
      · split at hr
        · split at hr
          · cases hr
          · cases hr; rfl
        · cases hr; rfl

theorem foldOptionalFields_rejected_rate {F W : Type} (p : parser F W) :
    ∀ (fields : List Bytes) (st : optionalFields F) (w : W),
      (∃ f ∈ fields, f.head? = some 64 ∧
        ∃ err, p.parseMetricSampleSampleRate (f.drop 1) = .error err) →
      ∃ err w', foldOptionalFields p fields st w = (.error err, w') := by
  intro fields
  induction fields with
  | nil => intro st w h; simp at h
  | cons f0 rest ih =>
    intro st w h
    obtain ⟨f, hf, hhead, err, herr⟩ := h
    rcases hres : parseOptionalField p f0 st w with ⟨e | st', w'⟩
    · exact ⟨e, w', by simp [foldOptionalFields, hres]⟩
    · rcases List.mem_cons.1 hf with e | hmem
      · subst e
        rw [parseOptionalField_rejected_rate p f st w err hhead herr] at hres
        cases hres
      · obtain ⟨e, w'', he⟩ := ih st' w' ⟨f, hmem, hhead, err, herr⟩
        exact ⟨e, w'', by simp [foldOptionalFields, hres, he]⟩

theorem foldOptionalFields_sampleRate {F W : Type} (p : parser F W) :
    ∀ (fields : List Bytes) (st st' : optionalFields F) (w w' : W),
      (∀ f ∈ fields, f.head? ≠ some 64) →
      foldOptionalFields p fields st w = (.ok st', w') → st'.sampleRate = st.sampleRate := by
  intro fields
  induction fields with
  | nil =>
    intro st st' w w' _ h
    simp only [foldOptionalFields, Prod.mk.injEq, Except.ok.injEq] at h
    rw [h.1]
  | cons f0 rest ih =>
    intro st st' w w' hall h
    rcases hres : parseOptionalField p f0 st w with ⟨e | st1, w1⟩
    · simp [foldOptionalFields, hres] at h
    · simp only [foldOptionalFields, hres] at h
      rw [ih st1 st' w1 w' (fun f hf => hall f (by simp [hf])) h]
      exact parseOptionalField_sampleRate p f0 st st1 w w1 (hall f0 (by simp)) hres

theorem foldOptionalFields_tags {F W : Type} (p : parser F W) :
    ∀ (fields : List Bytes) (st st' : optionalFields F) (w w' : W),
      (∀ f ∈ fields, f.head? ≠ some 35) →
      foldOptionalFields p fields st w = (.ok st', w') → st'.tags = st.tags := by
  intro fields
  induction fields with
  | nil =>
    intro st st' w w' _ h
    simp only [foldOptionalFields, Prod.mk.injEq, Except.ok.injEq] at h
    rw [h.1]
  | cons f0 rest ih =>
    intro st st' w w' hall h
    rcases hres : parseOptionalField p f0 st w with ⟨e | st1, w1⟩
    · simp [foldOptionalFields, hres] at h
    · simp only [foldOptionalFields, hres] at h
      rw [ih st1 st' w1 w' (fun f hf => hall f (by simp [hf])) h]
      exact parseOptionalField_tags p f0 st st1 w w1 (hall f0 (by simp)) hres

/-- The value part of `parseMetricSample` always returns. -/
theorem readMetricValues_eq {F W : Type} [Zero F] (p : parser F W) (mt : metricType)
    (rawValue : Bytes) (w : W) :
    readMetricValues p mt rawValue w = some (
      if mt = .setType then ((rawValue, [], 0, none), w)
      else if (58 : UInt8) ∉ rawValue then
        match p.parseFloat64 rawValue with
        | .error err => (([], [], 0, some err), w)
        | .ok value => (([], [], value, none), w)
      else (([], (specFloat64List p.parseFloat64 rawValue).1, 0,
              (specFloat64List p.parseFloat64 rawValue).2), specFloat64ListPool p rawValue w)) := by
  unfold readMetricValues
  by_cases h1 : mt = .setType
  · simp [h1]
  · by_cases h2 : (58 : UInt8) ∈ rawValue
    · have hc : Contains rawValue colonSeparator = true := by
        rw [colonSeparator_eq, Contains_singleton]; exact h2
      simp [h1, h2, hc, parseFloat64List_eq_spec]
    · have hc : Contains rawValue colonSeparator = false := by
        rw [Bool.eq_false_iff, ne_eq, colonSeparator_eq, Contains_singleton]; exact h2
      simp only [h1, h2, hc, if_false, Bool.not_false, if_true, not_false_eq_true]
      cases p.parseFloat64 rawValue <;> rfl

/-- The body of `parseMetricSample` with the optional-field loop replaced by
the fold over the fields of the message after the first two. -/
theorem parseMetricSample_eq {F W : Type} [Zero F] [One F] (p : parser F W) (message : Bytes)
    (w : W) :
    parseMetricSample p message w =
      if !p.hasMetricSampleFormat message then
        some ((dogstatsdMetricSample.zeroValue F,
          some (Error.errorf "invalid dogstatsd message format" [])), w)
      else
        match p.parseMetricSampleNameAndRawValue (nextField message).1 with
        | .error err => some ((dogstatsdMetricSample.zeroValue F, some err), w)
        | .ok (name, rawValue) =>
          match p.parseMetricSampleMetricType (nextField ((nextField message).2.getD [])).1 with
          | .error err => some ((dogstatsdMetricSample.zeroValue F, some err), w)
          | .ok metricType =>
            match readMetricValues p metricType rawValue w with
            | none => none
            | some ((_, _, _, some err), w) =>
              some ((dogstatsdMetricSample.zeroValue F,
                some (Error.errorfWrap "could not parse dogstatsd metric values: %v" [] err)), w)
            | some ((setValue, values, value, none), w) =>
              match foldOptionalFields p ((message.splitOn 124).drop 2)
                  (optionalFields.init F) w with
              | (.error err, w) => some ((dogstatsdMetricSample.zeroValue F, some err), w)
              | (.ok st, w) =>
                some (({ name := (p.LoadOrStore name w).1, value := value, values := values,
                         setValue := setValue, metricType := metricType,
                         sampleRate := st.sampleRate, tags := st.tags,
                         containerID := st.containerID, externalData := st.externalData,
                         ts := st.timestamp }, none), (p.LoadOrStore name w).2) := by
  unfold parseMetricSample
  simp only [parseOptionalFields_message]
  split
  · rfl
  · split
    · rfl
    · split
      · rfl
      · split
        · rfl
        · rfl
        · rename_i w1 _
          rcases foldOptionalFields p ((message.splitOn 124).drop 2) (optionalFields.init F) w1
            with ⟨_ | _, _⟩ <;> rfl

/-- What a successful `parseMetricSample` went through. -/
theorem parseMetricSample_ok {F W : Type} [Zero F] [One F] (p : parser F W) (message : Bytes)
    (w w' : W) (s : dogstatsdMetricSample F)
    (h : parseMetricSample p message w = some ((s, none), w')) :
    ∃ name rawValue mt setValue values value w1 st w2,
      p.hasMetricSampleFormat message = true ∧
      p.parseMetricSampleNameAndRawValue (nextField message).1 = .ok (name, rawValue) ∧
      p.parseMetricSampleMetricType (nextField ((nextField message).2.getD [])).1 = .ok mt ∧
      readMetricValues p mt rawValue w = some ((setValue, values, value, none), w1) ∧
      foldOptionalFields p ((message.splitOn 124).drop 2) (optionalFields.init F) w1
        = (.ok st, w2) ∧
      s = { name := (p.LoadOrStore name w2).1, value := value, values := values,
            setValue := setValue, metricType := mt, sampleRate := st.sampleRate,
            tags := st.tags, containerID := st.containerID, externalData := st.externalData,
            ts := st.timestamp } ∧
      w' = (p.LoadOrStore name w2).2 := by
  rw [parseMetricSample_eq] at h
  split at h
  · simp at h
  · rename_i hfmt
    split at h
    · simp at h
    · rename_i name rawValue hname
      split at h
      · simp at h
      · rename_i mt htype
        split at h
        · simp at h
        · simp at h
        · rename_i setValue values value w1 hread
          split at h
          · simp at h
          · rename_i st w2 hfold
            simp only [Option.some.injEq, Prod.mk.injEq, and_true] at h
            refine ⟨name, rawValue, mt, setValue, values, value, w1, st, w2, ?_, hname, htype,
              hread, hfold, h.1.symm, h.2.symm⟩
            simpa using hfmt

/-- The iterations that `parseMetricSample` allows its loops always suffice:
it returns on every message. -/
theorem parseMetricSample_returns {F W : Type} [Zero F] [One F] (p : parser F W)
    (message : Bytes) (w : W) : ∃ r, parseMetricSample p message w = some r := by
  rw [parseMetricSample_eq]
  split
  · exact ⟨_, rfl⟩
  · split
    · exact ⟨_, rfl⟩
    · split
      · exact ⟨_, rfl⟩
      · split
        · rename_i hread
          rw [readMetricValues_eq] at hread
          cases hread
        · exact ⟨_, rfl⟩
        · rename_i w1 _
          rcases foldOptionalFields p ((message.splitOn 124).drop 2) (optionalFields.init F) w1
            with ⟨_ | _, _⟩ <;> exact ⟨_, rfl⟩

theorem specFloat64List_ok_ne_nil {F : Type} (parse : Bytes → Except Error F) (raw : Bytes)
    (h : (specFloat64List parse raw).2 = none) : (specFloat64List parse raw).1 ≠ [] := by
  unfold specFloat64List at h ⊢
  rcases hps : parseSegments parse (nonEmptySegments raw) with ⟨_ | ⟨v, vs⟩, _ | e⟩ <;>
    rw [hps] at h <;> simp at h ⊢

/-! ### The number parser is used for the value only -/

theorem parseTagsLoop_parseFloat64 {F W : Type} (p : parser F W) (f : Bytes → Except Error F) :
    ∀ (n : Nat) (l : List Bytes) (i : Nat) (raw : Bytes) (w : W),
      parseTagsLoop { p with parseFloat64 := f } n l i raw w = parseTagsLoop p n l i raw w := by
  intro n
  induction n with
  | zero => intro l i raw w; rfl
  | succ n ih =>
    intro l i raw w
    simp only [parseTagsLoop, ih]

theorem parseTags_parseFloat64 {F W : Type} (p : parser F W) (f : Bytes → Except Error F)
    (raw : Bytes) (w : W) :
    parseTags { p with parseFloat64 := f } raw w = parseTags p raw w := by
  simp only [parseTags, parseTagsLoop_parseFloat64]

theorem resolveContainerIDFromLocalData_parseFloat64 {F W : Type} (p : parser F W)
    (f : Bytes → Except Error F) (raw : Bytes) (w : W) :
    resolveContainerIDFromLocalData { p with parseFloat64 := f } raw w
      = resolveContainerIDFromLocalData p raw w := rfl

theorem parseOptionalField_parseFloat64 {F W : Type} (p : parser F W)
    (f : Bytes → Except Error F) (optionalField : Bytes) (st : optionalFields F) (w : W) :
    parseOptionalField { p with parseFloat64 := f } optionalField st w
      = parseOptionalField p optionalField st w := by
  simp only [parseOptionalField, parseTags_parseFloat64,
    resolveContainerIDFromLocalData_parseFloat64]

theorem foldOptionalFields_parseFloat64 {F W : Type} (p : parser F W)
    (f : Bytes → Except Error F) :
    ∀ (fields : List Bytes) (st : optionalFields F) (w : W),
      foldOptionalFields { p with parseFloat64 := f } fields st w
        = foldOptionalFields p fields st w := by
  intro fields
  induction fields with
  | nil => intro st w; rfl
  | cons f0 rest ih =>
    intro st w
    simp only [foldOptionalFields, parseOptionalField_parseFloat64, ih]

/-- An error of the optional fields is not the error of the metric values. -/
theorem parseOptionalField_error_ne {F W : Type} (p : parser F W) (optionalField : Bytes)
    (st : optionalFields F) (w w' : W) (err cause : Error)
    (hr : parseOptionalField p optionalField st w = (.error err, w')) :
    err ≠ Error.errorfWrap "could not parse dogstatsd metric values: %v" [] cause := by
  have hs1 : "could not parse dogstatsd timestamp %q: %v"
      ≠ "could not parse dogstatsd metric values: %v" := by decide
  have hs2 : "failed to parse OriginInfo.ExternalData %s: %v"
      ≠ "could not parse dogstatsd metric values: %v" := by decide
  unfold parseOptionalField at hr
  split at hr
  · cases hr
  · split at hr
    · split at hr
      · cases hr; intro hc; cases hc
      · cases hr
    · split at hr
      · split at hr
        · cases hr
        · split at hr
          · cases hr; intro hc; exact hs1 (Error.errorfWrap.inj hc).1
          · split at hr
            · cases hr; intro hc; cases hc
            · cases hr
      · split at hr
        · cases hr
        · split at hr
          · dsimp only at hr
            split at hr
            · cases hr; intro hc; exact hs2 (Error.errorfWrap.inj hc).1
            · cases hr
          · cases hr

theorem foldOptionalFields_error_ne {F W : Type} (p : parser F W) :
    ∀ (fields : List Bytes) (st : optionalFields F) (w w' : W) (err cause : Error),
      foldOptionalFields p fields st w = (.error err, w') →
      err ≠ Error.errorfWrap "could not parse dogstatsd metric values: %v" [] cause := by
  intro fields
  induction fields with
  | nil => intro st w w' err cause h; simp [foldOptionalFields] at h
  | cons f0 rest ih =>
    intro st w w' err cause h
    rcases hres : parseOptionalField p f0 st w with ⟨e | st1, w1⟩
    · simp only [foldOptionalFields, hres, Prod.mk.injEq, Except.error.injEq] at h
      rw [← h.1]
      exact parseOptionalField_error_ne p f0 st w w1 e cause hres
    · simp only [foldOptionalFields, hres] at h
      exact ih st1 w1 w' err cause h

/-! ## Lemmas on `ParseExternalData` -/

theorem SplitLoop_singleton (c : UInt8) :
    ∀ (n : Nat) (s : Bytes), s.count c = n → SplitLoop [c] n s = s.splitOn c := by
  intro n
  induction n with
  | zero =>
    intro s hc
    have hm : c ∉ s := List.count_eq_zero.1 hc
    simp [SplitLoop, splitOn_of_not_mem c s hm]
  | succ n ih =>
    intro s hc
    have hm : c ∈ s := by
      apply List.count_pos_iff.1
      omega
    obtain ⟨a, b, hab, ha⟩ := exists_first_split c s hm
    subst hab
    have hb : b.count c = n := by
      rw [count_append_cons c a b ha] at hc
      omega
    have hlt : ¬ ((a.length : Int) < 0) := by omega
    have hdrop : List.drop (a.length + 1) (a ++ c :: b) = b := by
      rw [List.drop_append]; simp
    simp only [SplitLoop, Index_append_cons c a b ha, hlt, if_false, Int.toNat_ofNat,
      List.take_left, List.length_singleton, hdrop, ih b hb, splitOn_append_cons c a b ha]

/-- Go's `Split` with a one-byte separator gives the pieces between the separators. -/
theorem Split_singleton (c : UInt8) (s : Bytes) : Split s [c] = s.splitOn c := by
  unfold Split
  rw [Count_singleton]
  exact SplitLoop_singleton c _ s rfl

/-- No piece of a split contains the separator. -/
theorem not_mem_of_mem_splitOn (c : UInt8) :
    ∀ (n : Nat) (s : Bytes), s.length ≤ n → ∀ l ∈ s.splitOn c, c ∉ l := by
  intro n
  induction n with
  | zero =>
    intro s hs l hl
    have : s = [] := List.length_eq_zero.1 (by omega)
    subst this
    simp at hl
    subst hl
    simp
  | succ n ih =>
    intro s hs l hl
    by_cases hm : c ∈ s
    · obtain ⟨a, b, hab, ha⟩ := exists_first_split c s hm
      subst hab
      rw [splitOn_append_cons c a b ha] at hl
      rcases List.mem_cons.1 hl with e | e
      · subst e; exact ha
      · refine ih b ?_ l e
        simp at hs
        omega
    · rw [splitOn_of_not_mem c s hm] at hl
      simp at hl
      subst hl
      exact hm

theorem ParseExternalDataItem_nil (acc : ExternalData × Option Error) :
    ParseExternalDataItem acc [] = acc := by
  have h1 : HasPrefix [] ExternalDataInitPrefix = false := by decide
  have h2 : HasPrefix [] ExternalDataContainerNamePrefix = false := by decide
  have h3 : HasPrefix [] ExternalDataPodUIDPrefix = false := by decide
  simp [ParseExternalDataItem, h1, h2, h3]

/-- `ParseExternalData` is the fold of its loop body over the pieces of the
input between the commas, for the empty input too. -/
theorem ParseExternalData_eq (s : Bytes) :
    ParseExternalData s = (s.splitOn 44).foldl ParseExternalDataItem ({}, none) := by
  unfold ParseExternalData
  by_cases h : s = []
  · subst h
    simp [ParseExternalDataItem_nil]
  · have hc : B "," = [44] := by decide
    simp only [h, if_false, hc, Split_singleton]

theorem HasPrefix_iff (s pre : Bytes) : HasPrefix s pre = true ↔ pre <+: s := by
  simp [HasPrefix]

theorem ExternalDataInitPrefix_eq : ExternalDataInitPrefix = [105, 116, 45] := by decide

theorem ExternalDataContainerNamePrefix_eq :
    ExternalDataContainerNamePrefix = [99, 110, 45] := by decide

theorem ExternalDataPodUIDPrefix_eq : ExternalDataPodUIDPrefix = [112, 117, 45] := by decide

/-- An item with none of the three prefixes leaves the loop state as it is. -/
theorem ParseExternalDataItem_unrecognized (acc : ExternalData × Option Error) (x : Bytes)
    (h1 : ¬ [105, 116, 45] <+: x) (h2 : ¬ [99, 110, 45] <+: x) (h3 : ¬ [112, 117, 45] <+: x) :
    ParseExternalDataItem acc x = acc := by
  have e1 : HasPrefix x ExternalDataInitPrefix = false := by
    rw [Bool.eq_false_iff, ne_eq, HasPrefix_iff, ExternalDataInitPrefix_eq]; exact h1
  have e2 : HasPrefix x ExternalDataContainerNamePrefix = false := by
    rw [Bool.eq_false_iff, ne_eq, HasPrefix_iff, ExternalDataContainerNamePrefix_eq]; exact h2
  have e3 : HasPrefix x ExternalDataPodUIDPrefix = false := by
    rw [Bool.eq_false_iff, ne_eq, HasPrefix_iff, ExternalDataPodUIDPrefix_eq]; exact h3
  simp [ParseExternalDataItem, e1, e2, e3]

/-- A string that `ParseBool` rejects gives the value `false`. -/
theorem ParseBool_error (str : Bytes) (h : (ParseBool str).2 ≠ none) :
    (ParseBool str).1 = false := by
  unfold ParseBool at h ⊢
  split
  · rename_i hc; simp [hc] at h
  · split
    · rfl
    · rfl

/-- The strings that `ParseBool` accepts contain no comma. -/
theorem ParseBool_ok_no_comma (str : Bytes) (h : (ParseBool str).2 = none) :
    (44 : UInt8) ∉ str := by
  unfold ParseBool at h
  split at h
  · rename_i hc
    rcases hc with e | e | e | e | e | e <;> subst e <;> decide
  · split at h
    · rename_i hc
      rcases hc with e | e | e | e | e | e <;> subst e <;> decide
    · simp at h

/-- When the loop of `ParseExternalData` holds an error, `Init` is false. -/
theorem foldl_ParseExternalDataItem_init :
    ∀ (items : List Bytes) (acc : ExternalData × Option Error),
      (acc.2 ≠ none → acc.1.Init = false) →
      ((items.foldl ParseExternalDataItem acc).2 ≠ none →
        (items.foldl ParseExternalDataItem acc).1.Init = false) := by
  intro items
  induction items with
  | nil => intro acc h; exact h
  | cons item items ih =>
    intro acc h
    rw [List.foldl_cons]
    apply ih
    unfold ParseExternalDataItem
    split
    · exact ParseBool_error _
    · split
      · exact h
      · split
        · exact h
        · exact h

/-- Without `cn-` and `pu-` items the loop of `ParseExternalData` leaves the
container name and the pod UID as they are. -/
theorem foldl_ParseExternalDataItem_names :
    ∀ (items : List Bytes) (acc : ExternalData × Option Error),
      (∀ item ∈ items, ¬ [99, 110, 45] <+: item ∧ ¬ [112, 117, 45] <+: item) →
      (items.foldl ParseExternalDataItem acc).1.ContainerName = acc.1.ContainerName ∧
      (items.foldl ParseExternalDataItem acc).1.PodUID = acc.1.PodUID := by
  intro items
  induction items with
  | nil => intro acc _; exact ⟨rfl, rfl⟩
  | cons item items ih =>
    intro acc h
    rw [List.foldl_cons]
    have hi := h item (by simp)
    have e2 : HasPrefix item ExternalDataContainerNamePrefix = false := by
      rw [Bool.eq_false_iff, ne_eq, HasPrefix_iff, ExternalDataContainerNamePrefix_eq]
      exact hi.1
    have e3 : HasPrefix item ExternalDataPodUIDPrefix = false := by
      rw [Bool.eq_false_iff, ne_eq, HasPrefix_iff, ExternalDataPodUIDPrefix_eq]
      exact hi.2
    have hstep := ih (ParseExternalDataItem acc item) (fun i hi' => h i (by simp [hi']))
    rw [hstep.1, hstep.2]
    unfold ParseExternalDataItem
    simp only [e2, e3, Bool.false_eq_true, if_false]
    split <;> exact ⟨rfl, rfl⟩

/-! ## Lemmas on single optional fields -/

theorem localDataPrefix_eq : localDataPrefix = [99, 58] := by decide

theorem externalDataPrefix_eq : externalDataPrefix = [101, 58] := by decide

/-- A field that the loop rejects whatever its state makes the loop fail. -/
theorem foldOptionalFields_error_of_mem {F W : Type} (p : parser F W) :
    ∀ (fields : List Bytes) (st : optionalFields F) (w : W),
      (∃ f ∈ fields, ∀ st w, ∃ err w', parseOptionalField p f st w = (.error err, w')) →
      ∃ err w', foldOptionalFields p fields st w = (.error err, w') := by
  intro fields
  induction fields with
  | nil => intro st w h; simp at h
  | cons f0 rest ih =>
    intro st w h
    obtain ⟨f, hf, herr⟩ := h
    rcases hres : parseOptionalField p f0 st w with ⟨e | st', w'⟩
    · exact ⟨e, w', by simp [foldOptionalFields, hres]⟩
    · rcases List.mem_cons.1 hf with e | hmem
      · subst e
        obtain ⟨err, w'', he⟩ := herr st w
        rw [he] at hres
        cases hres
      · obtain ⟨e, w'', he⟩ := ih st' w' ⟨f, hmem, herr⟩
        exact ⟨e, w'', by simp [foldOptionalFields, hres, he]⟩

/-- When the optional fields make the loop fail, `parseMetricSample` returns
an error next to the zero sample. -/
theorem parseMetricSample_of_fold_error {F W : Type} [Zero F] [One F] (p : parser F W)
    (message : Bytes) (w : W)
    (h : ∀ st w, ∃ err w',
      foldOptionalFields p ((message.splitOn 124).drop 2) st w = (.error err, w')) :
    ∃ err w', parseMetricSample p message w
      = some ((dogstatsdMetricSample.zeroValue F, some err), w') := by
  rw [parseMetricSample_eq]
  split
  · exact ⟨_, _, rfl⟩
  · split
    · exact ⟨_, _, rfl⟩
    · split
      · exact ⟨_, _, rfl⟩
      · split
        · rename_i hread
          rw [readMetricValues_eq] at hread
          cases hread
        · exact ⟨_, _, rfl⟩
        · rename_i w1 _
          obtain ⟨err, w2, hfold⟩ := h (optionalFields.init F) w1
          rw [hfold]
          exact ⟨_, _, rfl⟩

/-- The switch on a field that starts with `T`. -/
theorem parseOptionalField_timestamp {F W : Type} (p : parser F W) (optionalField : Bytes)
    (st : optionalFields F) (w : W) (h : optionalField.head? = some 84) :
    parseOptionalField p optionalField st w =
      if !p.readTimestamps then (.ok st, w)
      else
        match ParseInt (optionalField.drop 1) with
        | .error err =>
          (.error (Error.errorfWrap "could not parse dogstatsd timestamp %q: %v"
            [optionalField.drop 1] err), w)
        | .ok ts =>
          if ts < 1 then (.error (Error.errorf "dogstatsd timestamp should be > 0" []), w)
          else (.ok { st with timestamp := Time.unix ts 0 }, w) := by
  have h1 : HasPrefix optionalField tagsFieldPrefix = false := by
    rw [Bool.eq_false_iff, ne_eq, tagsFieldPrefix_eq, HasPrefix_singleton, h]
    decide
  have h2 : HasPrefix optionalField sampleRateFieldPrefix = false := by
    rw [Bool.eq_false_iff, ne_eq, sampleRateFieldPrefix_eq, HasPrefix_singleton, h]
    decide
  have h3 : HasPrefix optionalField timestampFieldPrefix = true := by
    rw [timestampFieldPrefix_eq, HasPrefix_singleton, h]
  have h4 : timestampFieldPrefix.length = 1 := by decide
  unfold parseOptionalField
  simp only [h1, h2, h3, h4, Bool.false_eq_true, if_false, if_true]

/-- The switch on a field that starts with `e:` when origin detection is on. -/
theorem parseOptionalField_externalData {F W : Type} (p : parser F W) (optionalField : Bytes)
    (st : optionalFields F) (w : W) (ho : p.dsdOriginEnabled = true)
    (h : [101, 58] <+: optionalField) :
    parseOptionalField p optionalField st w =
      match (ParseExternalData (optionalField.drop 2)).2 with
      | some err =>
        (.error (Error.errorfWrap "failed to parse OriginInfo.ExternalData %s: %v"
          [optionalField.drop 2] err), w)
      | none =>
        (.ok { st with externalData := (ParseExternalData (optionalField.drop 2)).1 }, w) := by
  obtain ⟨t, rfl⟩ := h
  have h1 : HasPrefix ([101, 58] ++ t) tagsFieldPrefix = false := by
    rw [tagsFieldPrefix_eq]; simp [HasPrefix, List.isPrefixOf]
  have h2 : HasPrefix ([101, 58] ++ t) sampleRateFieldPrefix = false := by
    rw [sampleRateFieldPrefix_eq]; simp [HasPrefix, List.isPrefixOf]
  have h3 : HasPrefix ([101, 58] ++ t) timestampFieldPrefix = false := by
    rw [timestampFieldPrefix_eq]; simp [HasPrefix, List.isPrefixOf]
  have h4 : HasPrefix ([101, 58] ++ t) localDataPrefix = false := by
    rw [localDataPrefix_eq]; simp [HasPrefix, List.isPrefixOf]
  have h5 : HasPrefix ([101, 58] ++ t) externalDataPrefix = true := by
    rw [externalDataPrefix_eq]; simp [HasPrefix, List.isPrefixOf]
  have h6 : externalDataPrefix.length = 2 := by decide
  unfold parseOptionalField
  simp only [h1, h2, h3, h4, h5, h6, ho, Bool.false_eq_true, if_false, if_true, Bool.and_true,
    Bool.and_false]

/-! ## Lemmas on messages as lists of fields -/

theorem nextField_fst (message : Bytes) :
    (nextField message).1 = (message.splitOn 124).headD [] := by
  rcases nextField_cases message with ⟨h1, h2⟩ | ⟨a, b, h1, h2, _⟩ <;> simp [h1, h2]

theorem nextField_type (message : Bytes) :
    (nextField ((nextField message).2.getD [])).1
      = ((message.splitOn 124).drop 1).headD [] := by
  rcases nextField_cases message with ⟨h1, h2⟩ | ⟨a, b, h1, h2, _⟩
  · have : nextField [] = ([], none) := by decide
    simp [h1, h2, this]
  · simp only [h1, h2, Option.getD_some, List.drop_succ_cons, List.drop_zero]
    exact nextField_fst b

/-- `parseMetricSample` looks at a message through its format check and its
fields only. -/
theorem parseMetricSample_congr_message {F W : Type} [Zero F] [One F] (p : parser F W)
    (m' m : Bytes) (w : W)
    (hfmt : p.hasMetricSampleFormat m' = p.hasMetricSampleFormat m)
    (h1 : (m'.splitOn 124).headD [] = (m.splitOn 124).headD [])
    (h2 : ((m'.splitOn 124).drop 1).headD [] = ((m.splitOn 124).drop 1).headD [])
    (h3 : ∀ st w, foldOptionalFields p ((m'.splitOn 124).drop 2) st w
      = foldOptionalFields p ((m.splitOn 124).drop 2) st w) :
    parseMetricSample p m' w = parseMetricSample p m w := by
  rw [parseMetricSample_eq, parseMetricSample_eq, nextField_fst, nextField_type, nextField_fst,
    nextField_type]
  simp only [hfmt, h1, h2, h3]

theorem splitOn_removeOptionalFields (skip : Bytes → Bool) (message : Bytes) :
    (removeOptionalFields skip message).splitOn 124 =
      (message.splitOn 124).take 2
        ++ ((message.splitOn 124).drop 2).filter (fun f => !skip f) := by
  unfold removeOptionalFields
  have hmem := not_mem_of_mem_splitOn 124 message.length message (Nat.le_refl _)
  apply List.splitOn_intercalate
  · intro l hl
    rcases List.mem_append.1 hl with e | e
    · exact hmem l (List.mem_of_mem_take e)
    · exact hmem l (List.mem_of_mem_drop (List.mem_of_mem_filter e))
  · have hne : message.splitOn 124 ≠ [] := List.splitOnP_ne_nil _ _
    cases hs : message.splitOn 124 with
    | nil => exact absurd hs hne
    | cons a rest => simp

theorem fields_removeOptionalFields (skip : Bytes → Bool) (message : Bytes) :
    ((removeOptionalFields skip message).splitOn 124).headD [] = (message.splitOn 124).headD [] ∧
    (((removeOptionalFields skip message).splitOn 124).drop 1).headD []
      = ((message.splitOn 124).drop 1).headD [] ∧
    ((removeOptionalFields skip message).splitOn 124).drop 2
      = ((message.splitOn 124).drop 2).filter (fun f => !skip f) := by
  rw [splitOn_removeOptionalFields]
  have hne : message.splitOn 124 ≠ [] := List.splitOnP_ne_nil _ _
  rcases hs : message.splitOn 124 with _ | ⟨a, _ | ⟨b, rest⟩⟩
  · exact absurd hs hne
  · simp
  · simp

/-- Fields on which the switch does nothing can be left out. -/
theorem foldOptionalFields_filter {F W : Type} (p : parser F W) (skip : Bytes → Bool)
    (hskip : ∀ f, skip f = true → ∀ st w, parseOptionalField p f st w = (.ok st, w)) :
    ∀ (fields : List Bytes) (st : optionalFields F) (w : W),
      foldOptionalFields p (fields.filter (fun f => !skip f)) st w
        = foldOptionalFields p fields st w := by
  intro fields
  induction fields with
  | nil => intro st w; rfl
  | cons f rest ih =>
    intro st w
    by_cases hf : skip f = true
    · simp only [List.filter_cons, hf, Bool.not_true, Bool.false_eq_true, if_false,
        foldOptionalFields, hskip f hf st w, ih]
    · have hf' : skip f = false := by simpa using hf
      simp only [List.filter_cons, hf', Bool.not_false, if_true, foldOptionalFields]
      rcases parseOptionalField p f st w with ⟨e | st', w'⟩
      · rfl
      · exact ih st' w'

/-- Leaving out optional fields on which the switch does nothing does not
change the result, when the format check answers alike on both messages. -/
theorem parseMetricSample_removeOptionalFields {F W : Type} [Zero F] [One F] (p : parser F W)
    (skip : Bytes → Bool)
    (hskip : ∀ f, skip f = true → ∀ st w, parseOptionalField p f st w = (.ok st, w))
    (message : Bytes) (w : W)
    (hfmt : p.hasMetricSampleFormat (removeOptionalFields skip message)
      = p.hasMetricSampleFormat message) :
    parseMetricSample p (removeOptionalFields skip message) w = parseMetricSample p message w := by
  obtain ⟨h1, h2, h3⟩ := fields_removeOptionalFields skip message
  refine parseMetricSample_congr_message p _ _ w hfmt h1 h2 ?_
  intro st w'
  rw [h3]
  exact foldOptionalFields_filter p skip hskip _ st w'

/-- A part of the loop state that no field changes is, after the loop, what
it was before. -/
theorem foldOptionalFields_frame {F W α : Type} (p : parser F W) (π : optionalFields F → α)
    (hπ : ∀ f st st' w w', parseOptionalField p f st w = (.ok st', w') → π st' = π st) :
    ∀ (fields : List Bytes) (st st' : optionalFields F) (w w' : W),
      foldOptionalFields p fields st w = (.ok st', w') → π st' = π st := by
  intro fields
  induction fields with
  | nil =>
    intro st st' w w' h
    simp only [foldOptionalFields, Prod.mk.injEq, Except.ok.injEq] at h
    rw [h.1]
  | cons f0 rest ih =>
    intro st st' w w' h
    rcases hres : parseOptionalField p f0 st w with ⟨e | st1, w1⟩
    · simp [foldOptionalFields, hres] at h
    · simp only [foldOptionalFields, hres] at h
      rw [ih st1 st' w1 w' h]
      exact hπ f0 st st1 w w1 hres

/-! ### Timestamp reading off -/

theorem parseOptionalField_timestamp_off {F W : Type} (p : parser F W)
    (hts : p.readTimestamps = false) (f : Bytes) (hf : isTimestampField f = true)
    (st : optionalFields F) (w : W) : parseOptionalField p f st w = (.ok st, w) := by
  have hhead : f.head? = some 84 := by simpa [isTimestampField] using hf
  rw [parseOptionalField_timestamp p f st w hhead]
  simp [hts]

theorem parseOptionalField_timestamp_frame {F W : Type} (p : parser F W)
    (hts : p.readTimestamps = false) (f : Bytes) (st st' : optionalFields F) (w w' : W)
    (hr : parseOptionalField p f st w = (.ok st', w')) : st'.timestamp = st.timestamp := by
  unfold parseOptionalField at hr
  simp only [hts, Bool.not_false, if_true] at hr
  split at hr
  · cases hr; rfl
  · split at hr
    · split at hr
      · cases hr
      · cases hr; rfl
    · split at hr
      · cases hr; rfl
      · split at hr
        · cases hr; rfl
        · split at hr
          · split at hr
            · cases hr
            · cases hr; rfl
          · cases hr; rfl

/-! ### Origin detection off -/

theorem parseOptionalField_origin_off {F W : Type} (p : parser F W)
    (ho : p.dsdOriginEnabled = false) (f : Bytes) (hf : isOriginField f = true)
    (st : optionalFields F) (w : W) : parseOptionalField p f st w = (.ok st, w) := by
  have hcases : (∃ t, f = 99 :: 58 :: t) ∨ (∃ t, f = 101 :: 58 :: t) := by
    simp only [isOriginField, Bool.or_eq_true, List.isPrefixOf_iff_prefix] at hf
    rcases hf with ⟨t, rfl⟩ | ⟨t, rfl⟩
    · exact Or.inl ⟨t, rfl⟩
    · exact Or.inr ⟨t, rfl⟩
  unfold parseOptionalField
  rcases hcases with ⟨t, rfl⟩ | ⟨t, rfl⟩ <;>
    simp [HasPrefix, List.isPrefixOf, tagsFieldPrefix_eq, sampleRateFieldPrefix_eq,
      timestampFieldPrefix_eq, ho]

theorem parseOptionalField_origin_frame {F W : Type} (p : parser F W)
    (ho : p.dsdOriginEnabled = false) (f : Bytes) (st st' : optionalFields F) (w w' : W)
    (hr : parseOptionalField p f st w = (.ok st', w')) :
    st'.containerID = st.containerID ∧ st'.externalData = st.externalData := by
  unfold parseOptionalField at hr
  simp only [ho, Bool.false_and, Bool.false_eq_true, if_false] at hr
  split at hr
  · cases hr; exact ⟨rfl, rfl⟩
  · split at hr
    · split at hr
      · cases hr
      · cases hr; exact ⟨rfl, rfl⟩
    · split at hr
      · split at hr
        · cases hr; exact ⟨rfl, rfl⟩
        · split at hr
          · cases hr
          · split at hr
            · cases hr
            · cases hr; exact ⟨rfl, rfl⟩
      · cases hr; exact ⟨rfl, rfl⟩

theorem parseTagsLoop_congr {F W : Type} (p q : parser F W)
    (h : p.LoadOrStore = q.LoadOrStore) :
    ∀ (n : Nat) (l : List Bytes) (i : Nat) (raw : Bytes) (w : W),
      parseTagsLoop p n l i raw w = parseTagsLoop q n l i raw w := by
  intro n
  induction n with
  | zero => intro l i raw w; rfl
  | succ n ih =>
    intro l i raw w
    simp only [parseTagsLoop, ih, h]

theorem parseTags_congr {F W : Type} (p q : parser F W) (h : p.LoadOrStore = q.LoadOrStore)
    (raw : Bytes) (w : W) : parseTags p raw w = parseTags q raw w := by
  simp only [parseTags, parseTagsLoop_congr p q h, h]

theorem readMetricValues_congr {F W : Type} [Zero F] (p q : parser F W)
    (h1 : p.parseFloat64 = q.parseFloat64) (h2 : p.float64ListGet = q.float64ListGet)
    (h3 : p.float64ListPut = q.float64ListPut) (mt : metricType) (rawValue : Bytes) (w : W) :
    readMetricValues p mt rawValue w = readMetricValues q mt rawValue w := by
  rw [readMetricValues_eq, readMetricValues_eq]
  unfold specFloat64ListPool
  rw [h1, h2, h3]

/-- With origin detection off the switch does not call the provider. -/
theorem parseOptionalField_provider {F W : Type} (p : parser F W)
    (ho : p.dsdOriginEnabled = false) (g : Nat → Nat → W → Except Error Bytes × W)
    (f : Bytes) (st : optionalFields F) (w : W) :
    parseOptionalField { p with GetContainerIDForInode := g } f st w
      = parseOptionalField p f st w := by
  have ht := parseTags_congr { p with GetContainerIDForInode := g } p rfl
  unfold parseOptionalField
  simp only [ht]
  simp only [ho, Bool.false_and, Bool.false_eq_true, if_false]

theorem foldOptionalFields_provider {F W : Type} (p : parser F W)
    (ho : p.dsdOriginEnabled = false) (g : Nat → Nat → W → Except Error Bytes × W) :
    ∀ (fields : List Bytes) (st : optionalFields F) (w : W),
      foldOptionalFields { p with GetContainerIDForInode := g } fields st w
        = foldOptionalFields p fields st w := by
  intro fields
  induction fields with
  | nil => intro st w; rfl
  | cons f0 rest ih =>
    intro st w
    simp only [foldOptionalFields, parseOptionalField_provider p ho g, ih]

/-! ### Timestamp reading on -/

theorem foldOptionalFields_append {F W : Type} (p : parser F W) :
    ∀ (a b : List Bytes) (st : optionalFields F) (w : W),
      foldOptionalFields p (a ++ b) st w =
        match foldOptionalFields p a st w with
        | (.error err, w') => (.error err, w')
        | (.ok st', w') => foldOptionalFields p b st' w' := by
  intro a
  induction a with
  | nil => intro b st w; rfl
  | cons f a ih =>
    intro b st w
    simp only [List.cons_append, foldOptionalFields]
    rcases parseOptionalField p f st w with ⟨e | st', w'⟩
    · rfl
    · exact ih b st' w'

theorem resolveContainerIDFromLocalData_readTimestamps {F W : Type} (p : parser F W) (b : Bool)
    (raw : Bytes) (w : W) :
    resolveContainerIDFromLocalData { p with readTimestamps := b } raw w
      = resolveContainerIDFromLocalData p raw w := rfl

/-- A field that does not start with `T` is treated alike whether timestamps
are read or not. -/
theorem parseOptionalField_readTimestamps {F W : Type} (p : parser F W) (b : Bool) (f : Bytes)
    (hf : f.head? ≠ some 84) (st : optionalFields F) (w : W) :
    parseOptionalField { p with readTimestamps := b } f st w = parseOptionalField p f st w := by
  have ht := parseTags_congr { p with readTimestamps := b } p rfl
  have h3 : HasPrefix f timestampFieldPrefix = false := by
    rw [Bool.eq_false_iff, ne_eq, timestampFieldPrefix_eq, HasPrefix_singleton]
    exact hf
  unfold parseOptionalField
  simp only [ht, h3, resolveContainerIDFromLocalData_readTimestamps, Bool.false_eq_true,
    if_false]

theorem foldOptionalFields_readTimestamps {F W : Type} (p : parser F W) (b : Bool) :
    ∀ (fields : List Bytes), (∀ f ∈ fields, f.head? ≠ some 84) →
      ∀ (st : optionalFields F) (w : W),
        foldOptionalFields { p with readTimestamps := b } fields st w
          = foldOptionalFields p fields st w := by
  intro fields
  induction fields with
  | nil => intro _ st w; rfl
  | cons f0 rest ih =>
    intro hall st w
    simp only [foldOptionalFields, parseOptionalField_readTimestamps p b f0 (hall f0 (by simp))]
    rcases parseOptionalField p f0 st w with ⟨e | st', w'⟩
    · rfl
    · exact ih (fun f hf => hall f (by simp [hf])) st' w'

/-- A field that does not start with `T` does not look at the timestamp. -/
theorem parseOptionalField_with_timestamp {F W : Type} (p : parser F W) (f : Bytes)
    (hf : f.head? ≠ some 84) (t : Time) (st st' : optionalFields F) (w w' : W)
    (hr : parseOptionalField p f st w = (.ok st', w')) :
    parseOptionalField p f { st with timestamp := t } w = (.ok { st' with timestamp := t }, w') := by
  have h3 : HasPrefix f timestampFieldPrefix = false := by
    rw [Bool.eq_false_iff, ne_eq, timestampFieldPrefix_eq, HasPrefix_singleton]
    exact hf
  unfold parseOptionalField at hr ⊢
  simp only [h3, Bool.false_eq_true, if_false] at hr ⊢
  by_cases c1 : HasPrefix f tagsFieldPrefix = true
  · simp only [c1, if_true] at hr ⊢
    cases hr; rfl
  · simp only [c1, if_false] at hr ⊢
    by_cases c2 : HasPrefix f sampleRateFieldPrefix = true
    · simp only [c2, if_true] at hr ⊢
      cases hrate : p.parseMetricSampleSampleRate (f.drop 1) with
      | error e => rw [hrate] at hr; cases hr
      | ok r => rw [hrate] at hr; cases hr; rfl
    · simp only [c2, if_false] at hr ⊢
      by_cases c4 : (p.dsdOriginEnabled && HasPrefix f localDataPrefix) = true
      · simp only [c4, if_true] at hr ⊢
        simp only [Bool.false_eq_true, if_false] at hr ⊢
        cases hr; rfl
      · simp only [c4, if_false] at hr ⊢
        by_cases c5 : (p.dsdOriginEnabled && HasPrefix f externalDataPrefix) = true
        · simp only [c5, if_true] at hr ⊢
          cases he : (ParseExternalData (f.drop externalDataPrefix.length)).2 with
          | some e => rw [he] at hr; cases hr
          | none => rw [he] at hr; cases hr; rfl
        · simp only [c5, if_false] at hr ⊢
          simp only [Bool.false_eq_true, if_false] at hr ⊢
          cases hr; rfl

theorem foldOptionalFields_with_timestamp {F W : Type} (p : parser F W) (t : Time) :
    ∀ (fields : List Bytes), (∀ f ∈ fields, f.head? ≠ some 84) →
      ∀ (st st' : optionalFields F) (w w' : W),
        foldOptionalFields p fields st w = (.ok st', w') →
        foldOptionalFields p fields { st with timestamp := t } w
          = (.ok { st' with timestamp := t }, w') := by
  intro fields
  induction fields with
  | nil =>
    intro _ st st' w w' h
    simp only [foldOptionalFields, Prod.mk.injEq, Except.ok.injEq] at h ⊢
    rw [h.1, h.2]
    exact ⟨rfl, rfl⟩
  | cons f0 rest ih =>
    intro hall st st' w w' h
    rcases hres : parseOptionalField p f0 st w with ⟨e | st1, w1⟩
    · simp [foldOptionalFields, hres] at h
    · simp only [foldOptionalFields, hres] at h
      simp only [foldOptionalFields,
        parseOptionalField_with_timestamp p f0 (hall f0 (by simp)) t st st1 w w1 hres]
      exact ih (fun f hf => hall f (by simp [hf])) st1 st' w1 w' h

/-- One valid `T` field among fields that the loop accepts sets the timestamp
and nothing else. -/
theorem foldOptionalFields_timestamp {F W : Type} (p : parser F W)
    (hts : p.readTimestamps = true) (pre post : List Bytes) (tf : Bytes) (n : Int)
    (hpre : ∀ f ∈ pre, f.head? ≠ some 84) (hpost : ∀ f ∈ post, f.head? ≠ some 84)
    (htf : tf.head? = some 84) (hn : ParseInt (tf.drop 1) = .ok n) (h1 : 1 ≤ n)
    (st st0 : optionalFields F) (w w2 : W)
    (h : foldOptionalFields { p with readTimestamps := false } (pre ++ tf :: post) st w
      = (.ok st0, w2)) :
    foldOptionalFields p (pre ++ tf :: post) st w
      = (.ok { st0 with timestamp := Time.unix n 0 }, w2) := by
  rw [foldOptionalFields_append] at h ⊢
  rw [foldOptionalFields_readTimestamps p false pre hpre] at h
  rcases hp : foldOptionalFields p pre st w with ⟨e | st1, w1⟩
  · rw [hp] at h; cases h
  · rw [hp] at h
    simp only at h ⊢
    have hoff : parseOptionalField { p with readTimestamps := false } tf st1 w1 = (.ok st1, w1) :=
      parseOptionalField_timestamp_off _ rfl tf (by simpa [isTimestampField] using htf) st1 w1
    have hlt : ¬ n < 1 := by omega
    have hon : parseOptionalField p tf st1 w1
        = (.ok { st1 with timestamp := Time.unix n 0 }, w1) := by
      rw [parseOptionalField_timestamp p tf st1 w1 htf]
      simp only [hts, Bool.not_true, Bool.false_eq_true, if_false, hn, hlt]
    simp only [foldOptionalFields, hoff, hon] at h ⊢
    rw [foldOptionalFields_readTimestamps p false post hpost] at h
    exact foldOptionalFields_with_timestamp p (Time.unix n 0) post hpost st1 st0 w1 w2 h

/-! ## Lemmas on `resolveContainerIDFromLocalData` -/

theorem containerIDPrefix_eq : containerIDPrefix = [99, 105, 45] := by decide

theorem inodePrefix_eq : inodePrefix = [105, 110, 45] := by decide

/-- The list form of `resolveContainerIDFromLocalData`. -/
theorem resolveContainerIDFromLocalData_list {F W : Type} (p : parser F W) (raw : Bytes)
    (w : W) (h : (44 : UInt8) ∈ raw.drop 2) :
    resolveContainerIDFromLocalData p raw w =
      (if (((raw.drop 2).splitOn 44).foldl (resolveContainerIDItem p) (none, none, w)).1 = none
        then (((raw.drop 2).splitOn 44).foldl (resolveContainerIDItem p) (none, none, w)).2.1
        else (((raw.drop 2).splitOn 44).foldl (resolveContainerIDItem p) (none, none, w)).1,
       (((raw.drop 2).splitOn 44).foldl (resolveContainerIDItem p) (none, none, w)).2.2) := by
  have hl : localDataPrefix.length = 2 := by decide
  have hc : B "," = [44] := by decide
  have hcont : Contains (raw.drop 2) [44] = true := (Contains_singleton 44 _).2 h
  unfold resolveContainerIDFromLocalData
  simp only [hl, hc, hcont, if_true, Split_singleton]
  rcases ((raw.drop 2).splitOn 44).foldl (resolveContainerIDItem p) (none, none, w)
    with ⟨a, b, c⟩
  by_cases ha : a = none
  · simp [ha]
  · simp [ha]

/-- The single-value form of `resolveContainerIDFromLocalData`. -/
theorem resolveContainerIDFromLocalData_single {F W : Type} (p : parser F W) (raw : Bytes)
    (w : W) (h : (44 : UInt8) ∉ raw.drop 2) :
    resolveContainerIDFromLocalData p raw w =
      if HasPrefix (raw.drop 2) [99, 105, 45] then (some ((raw.drop 2).drop 3), w)
      else if HasPrefix (raw.drop 2) [105, 110, 45] then
        resolveContainerIDFromInode p ((raw.drop 2).drop 3) w
      else (some (raw.drop 2), w) := by
  have hl : localDataPrefix.length = 2 := by decide
  have hl2 : containerIDPrefix.length = 3 := by decide
  have hl3 : inodePrefix.length = 3 := by decide
  have hc : B "," = [44] := by decide
  have hcont : Contains (raw.drop 2) [44] = false := by
    rw [Bool.eq_false_iff, ne_eq, Contains_singleton]; exact h
  unfold resolveContainerIDFromLocalData
  simp only [hl, hl2, hl3, hc, hcont, Bool.false_eq_true, if_false, containerIDPrefix_eq,
    inodePrefix_eq]
  rfl

theorem resolveContainerIDItem_ci {F W : Type} (p : parser F W)
    (acc : Option Bytes × Option Bytes × W) (item : Bytes) (h : [99, 105, 45] <+: item) :
    resolveContainerIDItem p acc item = (some (item.drop 3), acc.2.1, acc.2.2) := by
  have h1 : HasPrefix item containerIDPrefix = true := by
    rw [containerIDPrefix_eq, HasPrefix_iff]; exact h
  have hl2 : containerIDPrefix.length = 3 := by decide
  simp [resolveContainerIDItem, h1, hl2]

theorem resolveContainerIDItem_not_ci {F W : Type} (p : parser F W)
    (acc : Option Bytes × Option Bytes × W) (item : Bytes) (h : ¬ [99, 105, 45] <+: item) :
    (resolveContainerIDItem p acc item).1 = acc.1 := by
  have h1 : HasPrefix item containerIDPrefix = false := by
    rw [Bool.eq_false_iff, ne_eq, containerIDPrefix_eq, HasPrefix_iff]; exact h
  unfold resolveContainerIDItem
  simp only [h1, Bool.false_eq_true, if_false]
  split <;> rfl

theorem foldl_resolveContainerIDItem_no_ci {F W : Type} (p : parser F W) :
    ∀ (items : List Bytes) (acc : Option Bytes × Option Bytes × W),
      (∀ x ∈ items, ¬ [99, 105, 45] <+: x) →
      (items.foldl (resolveContainerIDItem p) acc).1 = acc.1 := by
  intro items
  induction items with
  | nil => intro acc _; rfl
  | cons x items ih =>
    intro acc h
    rw [List.foldl_cons, ih _ (fun y hy => h y (by simp [hy])),
      resolveContainerIDItem_not_ci p acc x (h x (by simp))]

/-- The last `ci-` item of a local-data list decides the direct container ID. -/
theorem foldl_resolveContainerIDItem_ci {F W : Type} (p : parser F W)
    (pre post : List Bytes) (it : Bytes) (acc : Option Bytes × Option Bytes × W)
    (hit : [99, 105, 45] <+: it) (hpost : ∀ x ∈ post, ¬ [99, 105, 45] <+: x) :
    ((pre ++ it :: post).foldl (resolveContainerIDItem p) acc).1 = some (it.drop 3) := by
  rw [List.foldl_append, List.foldl_cons, resolveContainerIDItem_ci p _ it hit,
    foldl_resolveContainerIDItem_no_ci p post _ hpost]

/-- The state after one item of a local-data list: the provider is called for
an `in-` item whose inode `ParseUint` reads, and for no other item. -/
theorem resolveContainerIDItem_state {F W : Type} (p : parser F W)
    (acc : Option Bytes × Option Bytes × W) (item : Bytes) :
    (resolveContainerIDItem p acc item).2.2 =
      (inodeLookups [item]).foldl
        (fun w n => (p.GetContainerIDForInode n 2000000000 w).2) acc.2.2 := by
  have hl3 : inodePrefix.length = 3 := by decide
  have hcv : cacheValidity = 2000000000 := by decide
  by_cases hin : [105, 110, 45] <+: item
  · have h1 : HasPrefix item containerIDPrefix = false := by
      rw [Bool.eq_false_iff, ne_eq, containerIDPrefix_eq, HasPrefix_iff]
      rintro ⟨t, rfl⟩
      obtain ⟨u, hu⟩ := hin
      simp at hu
    have h2 : HasPrefix item inodePrefix = true := by
      rw [inodePrefix_eq, HasPrefix_iff]; exact hin
    have h3 : List.isPrefixOf [105, 110, 45] item = true := by
      rw [List.isPrefixOf_iff_prefix]; exact hin
    unfold resolveContainerIDItem resolveContainerIDFromInode inodeLookups
    simp only [h1, h2, h3, hl3, hcv, Bool.false_eq_true, if_false, if_true,
      List.filterMap_cons, List.filterMap_nil]
    cases hp : ParseUint (item.drop 3) with
    | error e => rfl
    | ok n =>
      simp only [List.foldl_cons, List.foldl_nil]
      rcases p.GetContainerIDForInode n 2000000000 acc.2.2 with ⟨_ | _, _⟩ <;> rfl
  · have h2 : HasPrefix item inodePrefix = false := by
      rw [Bool.eq_false_iff, ne_eq, inodePrefix_eq, HasPrefix_iff]; exact hin
    have h3 : List.isPrefixOf [105, 110, 45] item = false := by
      rw [Bool.eq_false_iff, ne_eq, List.isPrefixOf_iff_prefix]; exact hin
    unfold resolveContainerIDItem inodeLookups
    simp only [h2, h3, Bool.false_eq_true, if_false, List.filterMap_cons, List.filterMap_nil,
      List.foldl_nil]
    split <;> rfl

theorem inodeLookups_cons (item : Bytes) (items : List Bytes) :
    inodeLookups (item :: items) = inodeLookups [item] ++ inodeLookups items := by
  unfold inodeLookups
  rw [← List.filterMap_append]
  rfl

theorem foldl_resolveContainerIDItem_state {F W : Type} (p : parser F W) :
    ∀ (items : List Bytes) (acc : Option Bytes × Option Bytes × W),
      (items.foldl (resolveContainerIDItem p) acc).2.2 =
        (inodeLookups items).foldl
          (fun w n => (p.GetContainerIDForInode n 2000000000 w).2) acc.2.2 := by
  intro items
  induction items with
  | nil => intro acc; rfl
  | cons x items ih =>
    intro acc
    rw [List.foldl_cons, ih, inodeLookups_cons, List.foldl_append,
      resolveContainerIDItem_state p acc x]

/-! ## The last init-flag item -/

/-- Either no element of a list has the property, or there is a last one that has it. -/
theorem exists_last_split (P : Bytes → Prop) :
    ∀ (l : List Bytes), (∀ x ∈ l, ¬ P x) ∨
      ∃ pre it post, l = pre ++ it :: post ∧ P it ∧ ∀ x ∈ post, ¬ P x := by
  intro l
  induction l with
  | nil => left; simp
  | cons a l ih =>
    rcases ih with h | ⟨pre, it, post, hl, hit, hpost⟩
    · by_cases ha : P a
      · exact Or.inr ⟨[], a, l, rfl, ha, h⟩
      · left
        intro x hx
        rcases List.mem_cons.1 hx with e | e
        · subst e; exact ha
        · exact h x e
    · exact Or.inr ⟨a :: pre, it, post, by simp [hl], hit, hpost⟩

theorem ParseExternalDataItem_it (acc : ExternalData × Option Error) (item : Bytes)
    (h : [105, 116, 45] <+: item) :
    ParseExternalDataItem acc item =
      ({ acc.1 with Init := (ParseBool (item.drop 3)).1 }, (ParseBool (item.drop 3)).2) := by
  have h1 : HasPrefix item ExternalDataInitPrefix = true := by
    rw [ExternalDataInitPrefix_eq, HasPrefix_iff]; exact h
  have hl : ExternalDataInitPrefix.length = 3 := by decide
  simp [ParseExternalDataItem, h1, hl]

theorem foldl_ParseExternalDataItem_no_it :
    ∀ (items : List Bytes) (acc : ExternalData × Option Error),
      (∀ x ∈ items, ¬ [105, 116, 45] <+: x) →
      (items.foldl ParseExternalDataItem acc).2 = acc.2 ∧
      (items.foldl ParseExternalDataItem acc).1.Init = acc.1.Init := by
  intro items
  induction items with
  | nil => intro acc _; exact ⟨rfl, rfl⟩
  | cons x items ih =>
    intro acc h
    have h1 : HasPrefix x ExternalDataInitPrefix = false := by
      rw [Bool.eq_false_iff, ne_eq, ExternalDataInitPrefix_eq, HasPrefix_iff]
      exact h x (by simp)
    have hstep := ih (ParseExternalDataItem acc x) (fun y hy => h y (by simp [hy]))
    rw [List.foldl_cons, hstep.1, hstep.2]
    unfold ParseExternalDataItem
    simp only [h1, Bool.false_eq_true, if_false]
    split
    · exact ⟨rfl, rfl⟩
    · split <;> exact ⟨rfl, rfl⟩

/-- The last `it-` item decides the `Init` field and the error. -/
theorem foldl_ParseExternalDataItem_last_it (pre post : List Bytes) (it : Bytes)
    (acc : ExternalData × Option Error) (hit : [105, 116, 45] <+: it)
    (hpost : ∀ x ∈ post, ¬ [105, 116, 45] <+: x) :
    ((pre ++ it :: post).foldl ParseExternalDataItem acc).2 = (ParseBool (it.drop 3)).2 ∧
    ((pre ++ it :: post).foldl ParseExternalDataItem acc).1.Init = (ParseBool (it.drop 3)).1 := by
  rw [List.foldl_append, List.foldl_cons, ParseExternalDataItem_it _ it hit]
  exact foldl_ParseExternalDataItem_no_it post _ hpost

/-! ## Lemmas on the switch as an effect -/

theorem parseOptionalField_eq_apply {F W : Type} (p : parser F W) (f : Bytes)
    (st : optionalFields F) (w : W) :
    parseOptionalField p f st w = applyFieldEffect p (fieldEffectOf p f) st w := by
  unfold parseOptionalField fieldEffectOf
  split
  · rfl
  · split
    · split <;> rfl
    · split
      · split
        · rfl
        · split
          · rfl
          · split <;> rfl
      · split
        · rfl
        · split
          · dsimp only
            split <;> rfl
          · rfl

theorem fieldEffectOf_congr {F W : Type} (p1 p2 : parser F W) (h : sameHelpers p1 p2)
    (f : Bytes) : fieldEffectOf p1 f = fieldEffectOf p2 f := by
  unfold fieldEffectOf
  rw [h.dsdOriginEnabled, h.readTimestamps, h.parseMetricSampleSampleRate]

/-- The tags that `parseTags` returns with an interner that returns its input. -/
theorem parseTags_content {F W : Type} (p : parser F W)
    (hp : ∀ b w, (p.LoadOrStore b w).1 = b) (rawTags : Bytes) (w : W) :
    (parseTags p rawTags w).1 = if rawTags = [] then [] else rawTags.splitOn 44 := by
  by_cases hne : rawTags = []
  · subst hne
    simp [parseTags]
  · obtain ⟨init, last, w', h1, h2, h3⟩ :=
      parseTagsLoop_spec p hp (rawTags.count 44) [] rawTags w rfl
    have hlen : ¬ rawTags.length = 0 := by
      intro h; exact hne (List.length_eq_zero.1 h)
    simp only [List.nil_append, List.length_nil, Nat.zero_add] at h1
    simp only [parseTags, hlen, if_false, commaSeparator_eq, Count_singleton, h1, hp, hne]
    rw [h2, ← h3, set_length_append]

theorem parseTagsLoop_rel {F W : Type} (p1 p2 : parser F W) (Rw : W → W → Prop)
    (hI : ∀ b w1 w2, Rw w1 w2 → Rw (p1.LoadOrStore b w1).2 (p2.LoadOrStore b w2).2) :
    ∀ (n : Nat) (l1 l2 : List Bytes) (i : Nat) (raw : Bytes) (w1 w2 : W), Rw w1 w2 →
      (parseTagsLoop p1 n l1 i raw w1).2.2.1 = (parseTagsLoop p2 n l2 i raw w2).2.2.1 ∧
      Rw (parseTagsLoop p1 n l1 i raw w1).2.2.2 (parseTagsLoop p2 n l2 i raw w2).2.2.2 := by
  intro n
  induction n with
  | zero => intro l1 l2 i raw w1 w2 h; exact ⟨rfl, h⟩
  | succ n ih =>
    intro l1 l2 i raw w1 w2 h
    unfold parseTagsLoop
    by_cases hpos : Index raw commaSeparator < 0
    · simp only [hpos, if_true]
      exact ⟨trivial, h⟩
    · simp only [hpos, if_false]
      exact ih _ _ _ _ _ _ (hI _ _ _ h)

theorem parseTags_snd {F W : Type} (p : parser F W) (raw : Bytes) (w : W) (hne : raw ≠ []) :
    (parseTags p raw w).2 =
      (p.LoadOrStore
        (parseTagsLoop p (Count raw commaSeparator)
          (List.replicate (Count raw commaSeparator + 1) []) 0 raw w).2.2.1
        (parseTagsLoop p (Count raw commaSeparator)
          (List.replicate (Count raw commaSeparator + 1) []) 0 raw w).2.2.2).2 := by
  have hlen : ¬ raw.length = 0 := by
    intro h; exact hne (List.length_eq_zero.1 h)
  unfold parseTags
  simp only [hlen, if_false]

theorem parseTags_state_rel {F W : Type} (p1 p2 : parser F W) (Rw : W → W → Prop)
    (hI : ∀ b w1 w2, Rw w1 w2 → Rw (p1.LoadOrStore b w1).2 (p2.LoadOrStore b w2).2)
    (raw : Bytes) (w1 w2 : W) (h : Rw w1 w2) :
    Rw (parseTags p1 raw w1).2 (parseTags p2 raw w2).2 := by
  by_cases hne : raw = []
  · subst hne
    simpa [parseTags] using h
  · rw [parseTags_snd p1 raw w1 hne, parseTags_snd p2 raw w2 hne]
    have hl := parseTagsLoop_rel p1 p2 Rw hI (Count raw commaSeparator)
      (List.replicate (Count raw commaSeparator + 1) [])
      (List.replicate (Count raw commaSeparator + 1) []) 0 raw w1 w2 h
    rw [hl.1]
    exact hI _ _ _ hl.2

/-! ## Two runs with related collaborators -/

theorem resolveContainerIDFromInode_rel {F W : Type} (p1 p2 : parser F W)
    (Rw : W → W → Prop) (C : Prop) (h : collaboratorsRel p1 p2 Rw C) (inode : Bytes)
    (w1 w2 : W) (hw : Rw w1 w2) :
    Rw (resolveContainerIDFromInode p1 inode w1).2 (resolveContainerIDFromInode p2 inode w2).2 ∧
    (C → (resolveContainerIDFromInode p1 inode w1).1
      = (resolveContainerIDFromInode p2 inode w2).1) := by
  unfold resolveContainerIDFromInode
  cases ParseUint inode with
  | error e => exact ⟨hw, fun _ => rfl⟩
  | ok n =>
    have hp := h.provider n cacheValidity w1 w2 hw
    rcases h1 : p1.GetContainerIDForInode n cacheValidity w1 with ⟨a1, w1'⟩
    rcases h2 : p2.GetContainerIDForInode n cacheValidity w2 with ⟨a2, w2'⟩
    rw [h1, h2] at hp
    obtain ⟨hw', ha⟩ := hp
    simp only [h1, h2]
    refine ⟨?_, ?_⟩
    · cases a1 <;> cases a2 <;> exact hw'
    · intro hc
      have := ha hc
      simp only at this
      subst this
      cases a1 <;> rfl

theorem resolveContainerIDItem_rel {F W : Type} (p1 p2 : parser F W)
    (Rw : W → W → Prop) (C : Prop) (h : collaboratorsRel p1 p2 Rw C) (item : Bytes)
    (acc1 acc2 : Option Bytes × Option Bytes × W)
    (hacc : acc1.1 = acc2.1 ∧ (C → acc1.2.1 = acc2.2.1) ∧ Rw acc1.2.2 acc2.2.2) :
    (resolveContainerIDItem p1 acc1 item).1 = (resolveContainerIDItem p2 acc2 item).1 ∧
    (C → (resolveContainerIDItem p1 acc1 item).2.1 = (resolveContainerIDItem p2 acc2 item).2.1) ∧
    Rw (resolveContainerIDItem p1 acc1 item).2.2 (resolveContainerIDItem p2 acc2 item).2.2 := by
  unfold resolveContainerIDItem
  by_cases c1 : HasPrefix item containerIDPrefix = true
  · simp only [c1, if_true]
    exact ⟨trivial, hacc.2.1, hacc.2.2⟩
  · simp only [c1, if_false]
    by_cases c2 : HasPrefix item inodePrefix = true
    · simp only [c2, if_true]
      have hr := resolveContainerIDFromInode_rel p1 p2 Rw C h
        (item.drop inodePrefix.length) acc1.2.2 acc2.2.2 hacc.2.2
      exact ⟨hacc.1, hr.2, hr.1⟩
    · simp only [c2, if_false]
      exact hacc

theorem foldl_resolveContainerIDItem_rel {F W : Type} (p1 p2 : parser F W)
    (Rw : W → W → Prop) (C : Prop) (h : collaboratorsRel p1 p2 Rw C) :
    ∀ (items : List Bytes) (acc1 acc2 : Option Bytes × Option Bytes × W),
      (acc1.1 = acc2.1 ∧ (C → acc1.2.1 = acc2.2.1) ∧ Rw acc1.2.2 acc2.2.2) →
      (items.foldl (resolveContainerIDItem p1) acc1).1
          = (items.foldl (resolveContainerIDItem p2) acc2).1 ∧
      (C → (items.foldl (resolveContainerIDItem p1) acc1).2.1
          = (items.foldl (resolveContainerIDItem p2) acc2).2.1) ∧
      Rw (items.foldl (resolveContainerIDItem p1) acc1).2.2
        (items.foldl (resolveContainerIDItem p2) acc2).2.2 := by
  intro items
  induction items with
  | nil => intro acc1 acc2 hacc; exact hacc
  | cons x items ih =>
    intro acc1 acc2 hacc
    rw [List.foldl_cons, List.foldl_cons]
    exact ih _ _ (resolveContainerIDItem_rel p1 p2 Rw C h x acc1 acc2 hacc)

theorem resolveContainerIDFromLocalData_rel {F W : Type} (p1 p2 : parser F W)
    (Rw : W → W → Prop) (C : Prop) (h : collaboratorsRel p1 p2 Rw C) (raw : Bytes)
    (w1 w2 : W) (hw : Rw w1 w2) :
    Rw (resolveContainerIDFromLocalData p1 raw w1).2 (resolveContainerIDFromLocalData p2 raw w2).2 ∧
    (C → (resolveContainerIDFromLocalData p1 raw w1).1
      = (resolveContainerIDFromLocalData p2 raw w2).1) := by
  by_cases hl : (44 : UInt8) ∈ raw.drop 2
  · rw [resolveContainerIDFromLocalData_list p1 raw w1 hl,
      resolveContainerIDFromLocalData_list p2 raw w2 hl]
    have hf := foldl_resolveContainerIDItem_rel p1 p2 Rw C h ((raw.drop 2).splitOn 44)
      (none, none, w1) (none, none, w2) ⟨rfl, fun _ => rfl, hw⟩
    refine ⟨hf.2.2, fun hc => ?_⟩
    simp only
    rw [hf.1, hf.2.1 hc]
  · rw [resolveContainerIDFromLocalData_single p1 raw w1 hl,
      resolveContainerIDFromLocalData_single p2 raw w2 hl]
    by_cases c1 : HasPrefix (raw.drop 2) [99, 105, 45] = true
    · rw [if_pos c1, if_pos c1]
      exact ⟨hw, fun _ => rfl⟩
    · rw [if_neg c1, if_neg c1]
      by_cases c2 : HasPrefix (raw.drop 2) [105, 110, 45] = true
      · rw [if_pos c2, if_pos c2]
        exact resolveContainerIDFromInode_rel p1 p2 Rw C h _ w1 w2 hw
      · rw [if_neg c2, if_neg c2]
        exact ⟨hw, fun _ => rfl⟩

theorem applyFieldEffect_rel {F W : Type} (p1 p2 : parser F W) (Rw : W → W → Prop) (C : Prop)
    (h : collaboratorsRel p1 p2 Rw C) (e : fieldEffect F) (st1 st2 : optionalFields F)
    (w1 w2 : W) (hst : optionalFieldsRel C st1 st2) (hw : Rw w1 w2) :
    resultRel Rw C (applyFieldEffect p1 e st1 w1) (applyFieldEffect p2 e st2 w2) := by
  obtain ⟨h1, h2, h3, h4, h5⟩ := hst
  cases e with
  | fail err => exact ⟨hw, rfl⟩
  | skip => exact ⟨hw, h1, h2, h3, h4, h5⟩
  | setTags raw =>
    refine ⟨parseTags_state_rel p1 p2 Rw h.interner raw w1 w2 hw, h1, ?_, h3, h4, h5⟩
    simp only
    rw [parseTags_content p1 h.content1, parseTags_content p2 h.content2]
  | setSampleRate r => exact ⟨hw, rfl, h2, h3, h4, h5⟩
  | setTimestamp t => exact ⟨hw, h1, h2, h3, rfl, h5⟩
  | setContainerID raw =>
    have hr := resolveContainerIDFromLocalData_rel p1 p2 Rw C h raw w1 w2 hw
    exact ⟨hr.1, h1, h2, h3, h4, hr.2⟩
  | setExternalData d => exact ⟨hw, h1, h2, rfl, h4, h5⟩

theorem parseOptionalField_rel {F W : Type} (p1 p2 : parser F W) (Rw : W → W → Prop) (C : Prop)
    (hs : sameHelpers p1 p2) (h : collaboratorsRel p1 p2 Rw C) (f : Bytes)
    (st1 st2 : optionalFields F) (w1 w2 : W) (hst : optionalFieldsRel C st1 st2)
    (hw : Rw w1 w2) :
    resultRel Rw C (parseOptionalField p1 f st1 w1) (parseOptionalField p2 f st2 w2) := by
  rw [parseOptionalField_eq_apply, parseOptionalField_eq_apply, fieldEffectOf_congr p1 p2 hs]
  exact applyFieldEffect_rel p1 p2 Rw C h _ st1 st2 w1 w2 hst hw

theorem foldOptionalFields_rel {F W : Type} (p1 p2 : parser F W) (Rw : W → W → Prop) (C : Prop)
    (hs : sameHelpers p1 p2) (h : collaboratorsRel p1 p2 Rw C) :
    ∀ (fields : List Bytes) (st1 st2 : optionalFields F) (w1 w2 : W),
      optionalFieldsRel C st1 st2 → Rw w1 w2 →
      resultRel Rw C (foldOptionalFields p1 fields st1 w1) (foldOptionalFields p2 fields st2 w2) := by
  intro fields
  induction fields with
  | nil => intro st1 st2 w1 w2 hst hw; exact ⟨hw, hst⟩
  | cons f rest ih =>
    intro st1 st2 w1 w2 hst hw
    have hstep := parseOptionalField_rel p1 p2 Rw C hs h f st1 st2 w1 w2 hst hw
    simp only [foldOptionalFields]
    rcases hr1 : parseOptionalField p1 f st1 w1 with ⟨e1 | s1, v1⟩ <;>
      rcases hr2 : parseOptionalField p2 f st2 w2 with ⟨e2 | s2, v2⟩ <;>
      rw [hr1, hr2] at hstep
    · exact hstep
    · exact absurd hstep.2 (by simp)
    · exact absurd hstep.2 (by simp)
    · exact ih s1 s2 v1 v2 hstep.2 hstep.1

theorem readMetricValues_rel {F W : Type} [Zero F] (p1 p2 : parser F W) (Rw : W → W → Prop)
    (C : Prop) (hs : sameHelpers p1 p2) (h : collaboratorsRel p1 p2 Rw C) (mt : metricType)
    (rawValue : Bytes) (w1 w2 : W) (hw : Rw w1 w2) :
    ∃ x w1' w2', readMetricValues p1 mt rawValue w1 = some (x, w1') ∧
      readMetricValues p2 mt rawValue w2 = some (x, w2') ∧ Rw w1' w2' := by
  rw [readMetricValues_eq, readMetricValues_eq, ← hs.parseFloat64]
  by_cases c1 : mt = .setType
  · simp only [c1, if_true]
    exact ⟨_, _, _, rfl, rfl, hw⟩
  · simp only [c1, if_false]
    by_cases c2 : (58 : UInt8) ∉ rawValue
    · simp only [c2, not_false_eq_true, if_true]
      cases p1.parseFloat64 rawValue <;> exact ⟨_, _, _, rfl, rfl, hw⟩
    · simp only [c2, if_false]
      refine ⟨_, _, _, rfl, rfl, ?_⟩
      unfold specFloat64ListPool
      rw [← hs.parseFloat64]
      rcases parseSegments p1.parseFloat64 (nonEmptySegments rawValue) with ⟨_ | ⟨v, vs⟩, _ | e⟩
      · exact h.put _ _ _ (h.get _ _ hw)
      · exact h.put _ _ _ (h.get _ _ hw)
      · exact h.get _ _ hw
      · exact h.put _ _ _ (h.get _ _ hw)

/-- Two runs of `parseMetricSample` with related collaborators return the
same error and samples that agree in every field, the container ID being
compared only when `C` holds. -/
theorem parseMetricSample_rel {F W : Type} [Zero F] [One F] (p1 p2 : parser F W)
    (Rw : W → W → Prop) (C : Prop) (hs : sameHelpers p1 p2)
    (h : collaboratorsRel p1 p2 Rw C) (message : Bytes) (w1 w2 : W) (hw : Rw w1 w2) :
    ∃ s1 s2 e w1' w2', parseMetricSample p1 message w1 = some ((s1, e), w1') ∧
      parseMetricSample p2 message w2 = some ((s2, e), w2') ∧ Rw w1' w2' ∧
      ({ s1 with containerID := none } : dogstatsdMetricSample F)
        = { s2 with containerID := none } ∧
      (C → s1.containerID = s2.containerID) := by
  rw [parseMetricSample_eq, parseMetricSample_eq, ← hs.hasMetricSampleFormat,
    ← hs.parseMetricSampleNameAndRawValue, ← hs.parseMetricSampleMetricType]
  by_cases hfmt : p1.hasMetricSampleFormat message = true
  · simp only [hfmt, Bool.not_true, Bool.false_eq_true, if_false]
    cases hname : p1.parseMetricSampleNameAndRawValue (nextField message).1 with
    | error e => exact ⟨_, _, _, _, _, rfl, rfl, hw, rfl, fun _ => rfl⟩
    | ok nr =>
      obtain ⟨name, rawValue⟩ := nr
      simp only
      cases htype : p1.parseMetricSampleMetricType (nextField ((nextField message).2.getD [])).1
        with
      | error e => exact ⟨_, _, _, _, _, rfl, rfl, hw, rfl, fun _ => rfl⟩
      | ok mt =>
        simp only
        obtain ⟨x, v1, v2, hr1, hr2, hv⟩ :=
          readMetricValues_rel p1 p2 Rw C hs h mt rawValue w1 w2 hw
        rw [hr1, hr2]
        obtain ⟨sv, vs, v, oe⟩ := x
        cases oe with
        | some err => exact ⟨_, _, _, _, _, rfl, rfl, hv, rfl, fun _ => rfl⟩
        | none =>
          simp only
          have hf := foldOptionalFields_rel p1 p2 Rw C hs h ((message.splitOn 124).drop 2)
            (optionalFields.init F) (optionalFields.init F) v1 v2
            ⟨rfl, rfl, rfl, rfl, fun _ => rfl⟩ hv
          rcases hf1 : foldOptionalFields p1 ((message.splitOn 124).drop 2)
            (optionalFields.init F) v1 with ⟨e1 | st1, u1⟩ <;>
          rcases hf2 : foldOptionalFields p2 ((message.splitOn 124).drop 2)
            (optionalFields.init F) v2 with ⟨e2 | st2, u2⟩ <;>
          rw [hf1, hf2] at hf
          · obtain ⟨hu, he⟩ := hf
            simp only at he
            subst he
            exact ⟨_, _, _, _, _, rfl, rfl, hu, rfl, fun _ => rfl⟩
          · exact absurd hf.2 (by simp)
          · exact absurd hf.2 (by simp)
          · obtain ⟨hu, hr, ht, hx, hts, hc⟩ := hf
            simp only at hu hr ht hx hts hc
            refine ⟨_, _, _, _, _, rfl, rfl, h.interner _ _ _ hu, ?_, hc⟩
            simp only [h.content1, h.content2, hr, ht, hx, hts]
  · have hfmt' : p1.hasMetricSampleFormat message = false := by simpa using hfmt
    simp only [hfmt', Bool.not_false, if_true]
    exact ⟨_, _, _, _, _, rfl, rfl, hw, rfl, fun _ => rfl⟩

/-! ## Which field assigns which variable -/

/-- The effect of a field assigns the variable of the kind of the field. -/
theorem fieldEffectOf_kind {F W : Type} (p : parser F W) (f : Bytes) :
    (∀ r, fieldEffectOf p f = .setTags r → f.head? = some 35 ∧ r = f.drop 1) ∧
    (∀ r, fieldEffectOf p f = .setSampleRate r →
      f.head? = some 64 ∧ p.parseMetricSampleSampleRate (f.drop 1) = .ok r) ∧
    (∀ t, fieldEffectOf p f = .setTimestamp t →
      f.head? = some 84 ∧ ∃ n, ParseInt (f.drop 1) = .ok n ∧ 1 ≤ n ∧ t = Time.unix n 0) ∧
    (∀ r, fieldEffectOf p f = .setContainerID r → [99, 58] <+: f ∧ r = f) ∧
    (∀ d, fieldEffectOf p f = .setExternalData d →
      [101, 58] <+: f ∧ d = (ParseExternalData (f.drop 2)).1) := by
  have hl1 : timestampFieldPrefix.length = 1 := by decide
  have hl2 : externalDataPrefix.length = 2 := by decide
  unfold fieldEffectOf
  by_cases c1 : HasPrefix f tagsFieldPrefix = true
  · have k1 : f.head? = some 35 := by
      rw [tagsFieldPrefix_eq, HasPrefix_singleton] at c1; exact c1
    simp only [c1, if_true]
    refine ⟨?_, ?_, ?_, ?_, ?_⟩ <;> intro r hr <;> cases hr
    exact ⟨k1, rfl⟩
  · simp only [c1, if_false]
    by_cases c2 : HasPrefix f sampleRateFieldPrefix = true
    · have k2 : f.head? = some 64 := by
        rw [sampleRateFieldPrefix_eq, HasPrefix_singleton] at c2; exact c2
      simp only [c2, if_true]
      cases hrate : p.parseMetricSampleSampleRate (f.drop 1) with
      | error e => refine ⟨?_, ?_, ?_, ?_, ?_⟩ <;> intro r hr <;> cases hr
      | ok r0 =>
        refine ⟨?_, ?_, ?_, ?_, ?_⟩ <;> intro r hr <;> cases hr
        exact ⟨k2, rfl⟩
    · simp only [c2, if_false]
      by_cases c3 : HasPrefix f timestampFieldPrefix = true
      · have k3 : f.head? = some 84 := by
          rw [timestampFieldPrefix_eq, HasPrefix_singleton] at c3; exact c3
        simp only [c3, if_true, hl1]
        by_cases c3a : (!p.readTimestamps) = true
        · simp only [c3a, if_true]
          refine ⟨?_, ?_, ?_, ?_, ?_⟩ <;> intro r hr <;> cases hr
        · simp only [c3a, if_false]
          cases hint : ParseInt (f.drop 1) with
          | error e => refine ⟨?_, ?_, ?_, ?_, ?_⟩ <;> intro r hr <;> cases hr
          | ok n =>
            simp only
            by_cases c3b : n < 1
            · simp only [c3b, if_true]
              refine ⟨?_, ?_, ?_, ?_, ?_⟩ <;> intro r hr <;> cases hr
            · simp only [c3b, if_false]
              refine ⟨?_, ?_, ?_, ?_, ?_⟩ <;> intro r hr <;> cases hr
              exact ⟨k3, n, rfl, by omega, rfl⟩
      · simp only [c3, if_false]
        by_cases c4 : (p.dsdOriginEnabled && HasPrefix f localDataPrefix) = true
        · have k4 : [99, 58] <+: f := by
            simp only [Bool.and_eq_true] at c4
            rw [← HasPrefix_iff, ← localDataPrefix_eq]; exact c4.2
          simp only [c4, if_true]
          refine ⟨?_, ?_, ?_, ?_, ?_⟩ <;> intro r hr <;> cases hr
          exact ⟨k4, rfl⟩
        · simp only [c4, if_false]
          by_cases c5 : (p.dsdOriginEnabled && HasPrefix f externalDataPrefix) = true
          · have k5 : [101, 58] <+: f := by
              simp only [Bool.and_eq_true] at c5
              rw [← HasPrefix_iff, ← externalDataPrefix_eq]; exact c5.2
            simp only [c5, if_true, hl2]
            cases hext : (ParseExternalData (f.drop 2)).2 with
            | some e => refine ⟨?_, ?_, ?_, ?_, ?_⟩ <;> intro r hr <;> cases hr
            | none =>
              refine ⟨?_, ?_, ?_, ?_, ?_⟩ <;> intro r hr <;> cases hr
              exact ⟨k5, rfl⟩
          · simp only [c5, if_false]
            refine ⟨?_, ?_, ?_, ?_, ?_⟩ <;> intro r hr <;> cases hr

theorem parseOptionalField_tags_field {F W : Type} (p : parser F W) (f : Bytes)
    (st : optionalFields F) (w : W) (h : f.head? = some 35) :
    parseOptionalField p f st w =
      (.ok { st with tags := (parseTags p (f.drop 1) w).1 }, (parseTags p (f.drop 1) w).2) := by
  have h1 : HasPrefix f tagsFieldPrefix = true := by
    rw [tagsFieldPrefix_eq, HasPrefix_singleton, h]
  unfold parseOptionalField
  simp only [h1, if_true]

theorem parseOptionalField_rate_field {F W : Type} (p : parser F W) (f : Bytes)
    (st st' : optionalFields F) (w w' : W) (h : f.head? = some 64)
    (hr : parseOptionalField p f st w = (.ok st', w')) :
    p.parseMetricSampleSampleRate (f.drop 1) = .ok st'.sampleRate := by
  have h1 : HasPrefix f tagsFieldPrefix = false := by
    rw [Bool.eq_false_iff, ne_eq, tagsFieldPrefix_eq, HasPrefix_singleton, h]
    decide
  have h2 : HasPrefix f sampleRateFieldPrefix = true := by
    rw [sampleRateFieldPrefix_eq, HasPrefix_singleton, h]
  unfold parseOptionalField at hr
  simp only [h1, h2, Bool.false_eq_true, if_false, if_true] at hr
  cases hrate : p.parseMetricSampleSampleRate (f.drop 1) with
  | error e => rw [hrate] at hr; cases hr
  | ok r => rw [hrate] at hr; cases hr; rfl

theorem parseOptionalField_localData {F W : Type} (p : parser F W) (f : Bytes)
    (st : optionalFields F) (w : W) (ho : p.dsdOriginEnabled = true) (h : [99, 58] <+: f) :
    parseOptionalField p f st w =
      (.ok { st with containerID := (resolveContainerIDFromLocalData p f w).1 },
        (resolveContainerIDFromLocalData p f w).2) := by
  obtain ⟨t, rfl⟩ := h
  have h1 : HasPrefix ([99, 58] ++ t) tagsFieldPrefix = false := by
    rw [tagsFieldPrefix_eq]; simp [HasPrefix, List.isPrefixOf]
  have h2 : HasPrefix ([99, 58] ++ t) sampleRateFieldPrefix = false := by
    rw [sampleRateFieldPrefix_eq]; simp [HasPrefix, List.isPrefixOf]
  have h3 : HasPrefix ([99, 58] ++ t) timestampFieldPrefix = false := by
    rw [timestampFieldPrefix_eq]; simp [HasPrefix, List.isPrefixOf]
  have h4 : HasPrefix ([99, 58] ++ t) localDataPrefix = true := by
    rw [localDataPrefix_eq]; simp [HasPrefix, List.isPrefixOf]
  unfold parseOptionalField
  simp only [h1, h2, h3, h4, ho, Bool.false_eq_true, if_false, if_true, Bool.and_true]

/-- A field changes a variable only when it is of the kind of the variable. -/
theorem parseOptionalField_frames {F W : Type} (p : parser F W) (f : Bytes)
    (st st' : optionalFields F) (w w' : W)
    (hr : parseOptionalField p f st w = (.ok st', w')) :
    (f.head? ≠ some 84 → st'.timestamp = st.timestamp) ∧
    (¬ [99, 58] <+: f → st'.containerID = st.containerID) ∧
    (¬ [101, 58] <+: f → st'.externalData = st.externalData) := by
  obtain ⟨-, -, k3, k4, k5⟩ := fieldEffectOf_kind p f
  rw [parseOptionalField_eq_apply] at hr
  cases he : fieldEffectOf p f with
  | fail err => rw [he] at hr; cases hr
  | skip => rw [he] at hr; cases hr; exact ⟨fun _ => rfl, fun _ => rfl, fun _ => rfl⟩
  | setTags r => rw [he] at hr; cases hr; exact ⟨fun _ => rfl, fun _ => rfl, fun _ => rfl⟩
  | setSampleRate r => rw [he] at hr; cases hr; exact ⟨fun _ => rfl, fun _ => rfl, fun _ => rfl⟩
  | setTimestamp t =>
    rw [he] at hr; cases hr
    exact ⟨fun hn => absurd (k3 t he).1 hn, fun _ => rfl, fun _ => rfl⟩
  | setContainerID r =>
    rw [he] at hr; cases hr
    exact ⟨fun _ => rfl, fun hn => absurd (k4 r he).1 hn, fun _ => rfl⟩
  | setExternalData d =>
    rw [he] at hr; cases hr
    exact ⟨fun _ => rfl, fun _ => rfl, fun hn => absurd (k5 d he).1 hn⟩

/-- A part of the loop state that the fields of a list do not change is,
after the loop, what it was before. -/
theorem foldOptionalFields_frame_on {F W α : Type} (p : parser F W) (π : optionalFields F → α)
    (P : Bytes → Prop)
    (hπ : ∀ f, P f → ∀ st st' w w', parseOptionalField p f st w = (.ok st', w') → π st' = π st) :
    ∀ (fields : List Bytes), (∀ f ∈ fields, P f) → ∀ (st st' : optionalFields F) (w w' : W),
      foldOptionalFields p fields st w = (.ok st', w') → π st' = π st := by
  intro fields
  induction fields with
  | nil =>
    intro _ st st' w w' h
    simp only [foldOptionalFields, Prod.mk.injEq, Except.ok.injEq] at h
    rw [h.1]
  | cons f0 rest ih =>
    intro hall st st' w w' h
    rcases hres : parseOptionalField p f0 st w with ⟨e | st1, w1⟩
    · simp [foldOptionalFields, hres] at h
    · simp only [foldOptionalFields, hres] at h
      rw [ih (fun f hf => hall f (by simp [hf])) st1 st' w1 w' h]
      exact hπ f0 (hall f0 (by simp)) st st1 w w1 hres

/-- A loop that succeeds has gone through each of its fields. -/
theorem foldOptionalFields_split {F W : Type} (p : parser F W) (pre post : List Bytes)
    (f : Bytes) (st0 st : optionalFields F) (w0 w : W)
    (h : foldOptionalFields p (pre ++ f :: post) st0 w0 = (.ok st, w)) :
    ∃ st1 wa st2 wb, foldOptionalFields p pre st0 w0 = (.ok st1, wa) ∧
      parseOptionalField p f st1 wa = (.ok st2, wb) ∧
      foldOptionalFields p post st2 wb = (.ok st, w) := by
  rw [foldOptionalFields_append] at h
  rcases hp : foldOptionalFields p pre st0 w0 with ⟨e | st1, wa⟩
  · rw [hp] at h; cases h
  · rw [hp] at h
    simp only [foldOptionalFields] at h
    rcases hf : parseOptionalField p f st1 wa with ⟨e | st2, wb⟩
    · rw [hf] at h; cases h
    · rw [hf] at h
      exact ⟨st1, wa, st2, wb, rfl, hf, h⟩

/-- A loop over fields that the switch accepts in every state succeeds. -/
theorem foldOptionalFields_ok_of_all_ok {F W : Type} (p : parser F W) :
    ∀ (fields : List Bytes),
      (∀ f ∈ fields, ∀ st w, ∃ st' w', parseOptionalField p f st w = (.ok st', w')) →
      ∀ (st : optionalFields F) (w : W),
        ∃ st' w', foldOptionalFields p fields st w = (.ok st', w') := by
  intro fields
  induction fields with
  | nil => intro _ st w; exact ⟨st, w, rfl⟩
  | cons f rest ih =>
    intro hall st w
    obtain ⟨st1, w1, h1⟩ := hall f (by simp) st w
    obtain ⟨st2, w2, h2⟩ := ih (fun g hg => hall g (by simp [hg])) st1 w1
    exact ⟨st2, w2, by simp only [foldOptionalFields, h1, h2]⟩

/-- The single-value local data `in-x`. -/
theorem resolveContainerIDFromLocalData_inode {F W : Type} (p : parser F W) (x : Bytes)
    (w : W) (hx : (44 : UInt8) ∉ x) :
    resolveContainerIDFromLocalData p (B "c:in-" ++ x) w = resolveContainerIDFromInode p x w := by
  have hb : B "c:in-" = [99, 58, 105, 110, 45] := by decide
  have hraw : (B "c:in-" ++ x).drop 2 = [105, 110, 45] ++ x := by rw [hb]; rfl
  have hm : (44 : UInt8) ∉ (B "c:in-" ++ x).drop 2 := by
    rw [hraw]
    simp only [List.mem_append, not_or]
    exact ⟨by decide, hx⟩
  rw [resolveContainerIDFromLocalData_single p _ w hm, hraw]
  simp [HasPrefix, List.isPrefixOf]

/-- A field that does not start with `c:` does not call the provider. -/
theorem parseOptionalField_provider_other {F W : Type} (p : parser F W)
    (g : Nat → Nat → W → Except Error Bytes × W) (f : Bytes) (hf : ¬ [99, 58] <+: f)
    (st : optionalFields F) (w : W) :
    parseOptionalField { p with GetContainerIDForInode := g } f st w
      = parseOptionalField p f st w := by
  have hs : sameHelpers { p with GetContainerIDForInode := g } p :=
    ⟨rfl, rfl, rfl, rfl, rfl, rfl, rfl⟩
  have k4 := (fieldEffectOf_kind p f).2.2.2.1
  rw [parseOptionalField_eq_apply, parseOptionalField_eq_apply, fieldEffectOf_congr _ p hs]
  cases he : fieldEffectOf p f with
  | setContainerID r => exact absurd (k4 r he).1 hf
  | setTags r =>
    simp only [applyFieldEffect, parseTags_congr { p with GetContainerIDForInode := g } p rfl]
  | fail err => rfl
  | skip => rfl
  | setSampleRate r => rfl
  | setTimestamp t => rfl
  | setExternalData d => rfl

theorem foldOptionalFields_provider_other {F W : Type} (p : parser F W)
    (g : Nat → Nat → W → Except Error Bytes × W) :
    ∀ (fields : List Bytes),
      (∀ f ∈ fields, ¬ [99, 58] <+: f ∨
        ∀ w, resolveContainerIDFromLocalData { p with GetContainerIDForInode := g } f w
          = resolveContainerIDFromLocalData p f w) →
      ∀ (st : optionalFields F) (w : W),
        foldOptionalFields { p with GetContainerIDForInode := g } fields st w
          = foldOptionalFields p fields st w := by
  intro fields
  induction fields with
  | nil => intro _ st w; rfl
  | cons f rest ih =>
    intro hall st w
    have hstep : parseOptionalField { p with GetContainerIDForInode := g } f st w
        = parseOptionalField p f st w := by
      rcases hall f (by simp) with hf | hf
      · exact parseOptionalField_provider_other p g f hf st w
      · by_cases hc : [99, 58] <+: f
        · by_cases ho : p.dsdOriginEnabled = true
          · rw [parseOptionalField_localData { p with GetContainerIDForInode := g } f st w ho hc,
              parseOptionalField_localData p f st w ho hc, hf]
          · have ho' : p.dsdOriginEnabled = false := by simpa using ho
            exact parseOptionalField_provider p ho' g f st w
        · exact parseOptionalField_provider_other p g f hc st w
    simp only [foldOptionalFields, hstep]
    rcases parseOptionalField p f st w with ⟨e | st', w'⟩
    · rfl
    · exact ih (fun g' hg => hall g' (by simp [hg])) st' w'

/-! ### Exchanging optional fields of different kinds -/

theorem fieldKindOf_of_prefix (f : Bytes) :
    (f.head? = some 35 → fieldKindOf f = .tags) ∧
    (f.head? = some 64 → fieldKindOf f = .sampleRate) ∧
    (f.head? = some 84 → fieldKindOf f = .timestamp) ∧
    ([99, 58] <+: f → fieldKindOf f = .localData) ∧
    ([101, 58] <+: f → fieldKindOf f = .externalData) := by
  have e1 : tagsFieldPrefix = [35] := by decide
  have e2 : sampleRateFieldPrefix = [64] := by decide
  have e3 : timestampFieldPrefix = [84] := by decide
  have e4 : localDataPrefix = [99, 58] := by decide
  have e5 : externalDataPrefix = [101, 58] := by decide
  unfold fieldKindOf
  rw [e1, e2, e3, e4, e5]
  simp only [HasPrefix_singleton]
  refine ⟨?_, ?_, ?_, ?_, ?_⟩
  · intro h; simp [h]
  · intro h; simp [h]
  · intro h; simp [h]
  · rintro ⟨t, rfl⟩
    have h1 : HasPrefix (99 :: 58 :: t) [99, 58] = true := (HasPrefix_iff _ _).2 ⟨t, rfl⟩
    simp [h1]
  · rintro ⟨t, rfl⟩
    have h1 : HasPrefix (101 :: 58 :: t) [101, 58] = true := (HasPrefix_iff _ _).2 ⟨t, rfl⟩
    have h2 : HasPrefix (101 :: 58 :: t) [99, 58] = false := by
      simp [HasPrefix, List.isPrefixOf]
    simp [h1, h2]



theorem outcomeRel_trans {F W V : Type} (view : W → V)
    (r1 r2 r3 : Except Error (optionalFields F) × W)
    (h12 : outcomeRel view r1 r2) (h23 : outcomeRel view r2 r3) : outcomeRel view r1 r3 := by
  rcases r1 with ⟨_ | _, _⟩ <;> rcases r2 with ⟨_ | _, _⟩ <;> rcases r3 with ⟨_ | _, _⟩ <;>
    simp only [outcomeRel] at h12 h23 ⊢
  exact ⟨h12.1.trans h23.1, h12.2.trans h23.2⟩

theorem outcomeRel_of_resultRel {F W V : Type} (view : W → V)
    (r1 r2 : Except Error (optionalFields F) × W)
    (h : resultRel (fun a b => view a = view b) True r1 r2) : outcomeRel view r1 r2 := by
  rcases r1 with ⟨_ | st1, _⟩ <;> rcases r2 with ⟨_ | st2, _⟩ <;>
    simp only [outcomeRel, resultRel, optionalFieldsRel] at h ⊢
  · exact h.2
  · exact h.2
  · obtain ⟨hw, h1, h2, h3, h4, h5⟩ := h
    refine ⟨?_, hw⟩
    cases st1; cases st2
    simp only [optionalFields.mk.injEq] at h1 h2 h3 h4 h5 ⊢
    exact ⟨h1, h2, h5 trivial, h3, h4⟩

theorem collaboratorsRel_view {F W V : Type} (p : parser F W)
    (hp : ∀ b w, (p.LoadOrStore b w).1 = b) (view : W → V)
    (hinterner : ∀ b w, view (p.LoadOrStore b w).2 = view w)
    (hget : ∀ w, view (p.float64ListGet w) = view w)
    (hput : ∀ l w, view (p.float64ListPut l w) = view w)
    (hprovider : ∀ n d w1 w2, view w1 = view w2 →
      (p.GetContainerIDForInode n d w1).1 = (p.GetContainerIDForInode n d w2).1 ∧
      view (p.GetContainerIDForInode n d w1).2 = view (p.GetContainerIDForInode n d w2).2) :
    collaboratorsRel p p (fun a b => view a = view b) True :=
  ⟨hp, hp, fun b a c h => by rw [hinterner, hinterner]; exact h,
    fun a c h => by rw [hget, hget]; exact h,
    fun l a c h => by rw [hput, hput]; exact h,
    fun n d a c h => ⟨(hprovider n d a c h).2, fun _ => (hprovider n d a c h).1⟩⟩

/-- Two adjacent optional fields of different kinds can be exchanged. -/
theorem foldOptionalFields_swap {F W V : Type} (p : parser F W)
    (hp : ∀ b w, (p.LoadOrStore b w).1 = b) (view : W → V)
    (hinterner : ∀ b w, view (p.LoadOrStore b w).2 = view w)
    (hc : collaboratorsRel p p (fun a b => view a = view b) True)
    (a b : Bytes) (hk : fieldKindOf a ≠ fieldKindOf b) (st : optionalFields F) (w1 w2 : W)
    (hw : view w1 = view w2) :
    outcomeRel view (foldOptionalFields p [a, b] st w1) (foldOptionalFields p [b, a] st w2) := by
  have htags : ∀ raw w, view (parseTags p raw w).2 = view w := fun raw w =>
    parseTags_state_rel p p (fun x _ => view x = view w)
      (fun b x _ h => (hinterner b x).trans h) raw w w rfl
  have hres : ∀ raw x y, view x = view y →
      (resolveContainerIDFromLocalData p raw x).1 = (resolveContainerIDFromLocalData p raw y).1 ∧
      view (resolveContainerIDFromLocalData p raw x).2
        = view (resolveContainerIDFromLocalData p raw y).2 := fun raw x y h =>
    ⟨(resolveContainerIDFromLocalData_rel p p _ True hc raw x y h).2 trivial,
      (resolveContainerIDFromLocalData_rel p p _ True hc raw x y h).1⟩
  have hcontent := parseTags_content p hp
  obtain ⟨a1, a2, a3, a4, a5⟩ := fieldEffectOf_kind p a
  obtain ⟨b1, b2, b3, b4, b5⟩ := fieldEffectOf_kind p b
  obtain ⟨ka1, ka2, ka3, ka4, ka5⟩ := fieldKindOf_of_prefix a
  obtain ⟨kb1, kb2, kb3, kb4, kb5⟩ := fieldKindOf_of_prefix b
  simp only [foldOptionalFields, parseOptionalField_eq_apply]
  cases ha : fieldEffectOf p a <;> cases hb : fieldEffectOf p b
  all_goals simp only [applyFieldEffect, outcomeRel]
  all_goals first
    | exact ⟨trivial, hw⟩
    | exact absurd ((ka1 (a1 _ ha).1).trans (kb1 (b1 _ hb).1).symm) hk
    | exact absurd ((ka2 (a2 _ ha).1).trans (kb2 (b2 _ hb).1).symm) hk
    | exact absurd ((ka3 (a3 _ ha).1).trans (kb3 (b3 _ hb).1).symm) hk
    | exact absurd ((ka4 (a4 _ ha).1).trans (kb4 (b4 _ hb).1).symm) hk
    | exact absurd ((ka5 (a5 _ ha).1).trans (kb5 (b5 _ hb).1).symm) hk
    | (simp only [hcontent, htags]; exact ⟨trivial, hw⟩)
    | exact ⟨by rw [(hres _ _ _ hw).1], (hres _ _ _ hw).2⟩
    | (simp only [hcontent, htags]
       exact ⟨by rw [(hres _ _ _ ((htags _ _).trans hw)).1],
         (hres _ _ _ ((htags _ _).trans hw)).2⟩)
    | (simp only [hcontent, htags]
       exact ⟨by rw [(hres _ _ _ (hw.trans (htags _ _).symm)).1],
         (hres _ _ _ (hw.trans (htags _ _).symm)).2⟩)



/-- The loop over a permutation of fields of pairwise different kinds has the
same outcome. -/
theorem foldOptionalFields_perm {F W V : Type} (p : parser F W)
    (hp : ∀ b w, (p.LoadOrStore b w).1 = b) (view : W → V)
    (hinterner : ∀ b w, view (p.LoadOrStore b w).2 = view w)
    (hc : collaboratorsRel p p (fun a b => view a = view b) True)
    (l1 l2 : List Bytes) (hperm : l1.Perm l2) :
    l1.Pairwise (fun a b => fieldKindOf a ≠ fieldKindOf b) →
    ∀ (st : optionalFields F) (w1 w2 : W), view w1 = view w2 →
      outcomeRel view (foldOptionalFields p l1 st w1) (foldOptionalFields p l2 st w2) := by
  have hs : sameHelpers p p := ⟨rfl, rfl, rfl, rfl, rfl, rfl, rfl⟩
  have hrefl : ∀ st : optionalFields F, optionalFieldsRel True st st :=
    fun st => ⟨rfl, rfl, rfl, rfl, fun _ => rfl⟩
  have hsame : ∀ (l : List Bytes) (st : optionalFields F) (w1 w2 : W), view w1 = view w2 →
      outcomeRel view (foldOptionalFields p l st w1) (foldOptionalFields p l st w2) :=
    fun l st w1 w2 hw => outcomeRel_of_resultRel view _ _
      (foldOptionalFields_rel p p _ True hs hc l st st w1 w2 (hrefl st) hw)
  induction hperm with
  | nil =>
    intro _ st w1 w2 hw
    exact hsame [] st w1 w2 hw
  | cons x _ ih =>
    intro hpw st w1 w2 hw
    have hstep := outcomeRel_of_resultRel view _ _
      (parseOptionalField_rel p p _ True hs hc x st st w1 w2 (hrefl st) hw)
    simp only [foldOptionalFields]
    rcases h1 : parseOptionalField p x st w1 with ⟨_ | st1, wa⟩ <;>
      rcases h2 : parseOptionalField p x st w2 with ⟨_ | st2, wb⟩ <;>
      rw [h1, h2] at hstep <;> simp only [outcomeRel] at hstep ⊢
    obtain ⟨rfl, hv⟩ := hstep
    exact ih (List.Pairwise.of_cons hpw) st1 wa wb hv
  | swap x y l =>
    intro hpw st w1 w2 hw
    have hk : fieldKindOf y ≠ fieldKindOf x :=
      (List.pairwise_cons.1 hpw).1 x (List.mem_cons_self _ _)
    have hsw := foldOptionalFields_swap p hp view hinterner hc y x hk st w1 w2 hw
    have e1 : y :: x :: l = [y, x] ++ l := rfl
    have e2 : x :: y :: l = [x, y] ++ l := rfl
    rw [e1, e2, foldOptionalFields_append, foldOptionalFields_append]
    rcases h1 : foldOptionalFields p [y, x] st w1 with ⟨_ | st1, wa⟩ <;>
      rcases h2 : foldOptionalFields p [x, y] st w2 with ⟨_ | st2, wb⟩ <;>
      rw [h1, h2] at hsw <;> simp only [outcomeRel] at hsw ⊢
    obtain ⟨rfl, hv⟩ := hsw
    exact hsame l st1 wa wb hv
  | trans h12 _ ih1 ih2 =>
    intro hpw st w1 w2 hw
    have hpw2 := (h12.pairwise_iff (fun {a b} (h : fieldKindOf a ≠ fieldKindOf b) => h.symm)).1 hpw
    exact outcomeRel_trans view _ _ _ (ih1 hpw st w1 w2 hw) (ih2 hpw2 st w2 w2 rfl)

theorem headD_take_two {α : Type} (l : List α) (d : α) :
    l.headD d = (l.take 2).headD d ∧ (l.drop 1).headD d = ((l.take 2).drop 1).headD d := by
  rcases l with _ | ⟨a, _ | ⟨b, t⟩⟩ <;> simp

/-! ### Optional fields that the switch does not recognize -/

theorem parseOptionalField_other {F W : Type} (p : parser F W) (f : Bytes)
    (hkind : fieldKindOf f = .other) (st : optionalFields F) (w : W) :
    parseOptionalField p f st w = (.ok st, w) := by
  unfold fieldKindOf at hkind
  by_cases h1 : HasPrefix f tagsFieldPrefix = true
  · simp [h1] at hkind
  by_cases h2 : HasPrefix f sampleRateFieldPrefix = true
  · simp [h1, h2] at hkind
  by_cases h3 : HasPrefix f timestampFieldPrefix = true
  · simp [h1, h2, h3] at hkind
  by_cases h4 : HasPrefix f localDataPrefix = true
  · simp [h1, h2, h3, h4] at hkind
  by_cases h5 : HasPrefix f externalDataPrefix = true
  · simp [h1, h2, h3, h4, h5] at hkind
  unfold parseOptionalField
  simp only [h1, h2, h3, h4, h5, Bool.and_false, Bool.false_eq_true, if_false]

theorem foldOptionalFields_insert {F W : Type} (p : parser F W) (f : Bytes)
    (hf : ∀ st w, parseOptionalField p f st w = (.ok st, w)) (pre post : List Bytes)
    (st : optionalFields F) (w : W) :
    foldOptionalFields p (pre ++ f :: post) st w = foldOptionalFields p (pre ++ post) st w := by
  rw [foldOptionalFields_append, foldOptionalFields_append]
  rcases foldOptionalFields p pre st w with ⟨_ | st1, w1⟩
  · rfl
  · simp only [foldOptionalFields, hf]

theorem intercalate_append_singleton (c : UInt8) (f : Bytes) :
    ∀ (l : List Bytes), l ≠ [] → [c].intercalate (l ++ [f]) = [c].intercalate l ++ c :: f := by
  intro l
  induction l with
  | nil => intro h; exact absurd rfl h
  | cons x t ih =>
    intro _
    cases t with
    | nil => simp [List.intercalate]
    | cons y t =>
      have := ih (by simp)
      simp only [List.intercalate, List.cons_append, List.intersperse_cons_cons,
        List.flatten_cons, List.append_assoc] at this ⊢
      rw [this]

theorem two_le_length_splitOn (message : Bytes) (h : (124 : UInt8) ∈ message) :
    ∃ a b rest, message.splitOn 124 = a :: b :: rest := by
  obtain ⟨a, b, hab, ha⟩ := exists_first_split 124 message h
  subst hab
  rw [splitOn_append_cons 124 a b ha]
  have hne : b.splitOn 124 ≠ [] := List.splitOnP_ne_nil _ _
  cases hs : b.splitOn 124 with
  | nil => exact absurd hs hne
  | cons x rest => exact ⟨a, x, rest, rfl⟩

theorem splitOn_insertOptionalField (f : Bytes) (k : Nat) (message : Bytes)
    (hf : (124 : UInt8) ∉ f) :
    (insertOptionalField f k message).splitOn 124 =
      (message.splitOn 124).take (k + 2) ++ f :: (message.splitOn 124).drop (k + 2) := by
  unfold insertOptionalField
  have hmem := not_mem_of_mem_splitOn 124 message.length message (Nat.le_refl _)
  apply List.splitOn_intercalate
  · intro l hl
    rcases List.mem_append.1 hl with e | e
    · exact hmem l (List.mem_of_mem_take e)
    · rcases List.mem_cons.1 e with e | e
      · subst e; exact hf
      · exact hmem l (List.mem_of_mem_drop e)
  · simp

theorem fields_insertOptionalField (f : Bytes) (k : Nat) (message : Bytes)
    (hf : (124 : UInt8) ∉ f) (htype : (124 : UInt8) ∈ message) :
    ((insertOptionalField f k message).splitOn 124).headD [] = (message.splitOn 124).headD [] ∧
    (((insertOptionalField f k message).splitOn 124).drop 1).headD []
      = ((message.splitOn 124).drop 1).headD [] ∧
    ((insertOptionalField f k message).splitOn 124).drop 2
      = ((message.splitOn 124).drop 2).take k ++ f :: ((message.splitOn 124).drop 2).drop k := by
  rw [splitOn_insertOptionalField f k message hf]
  obtain ⟨a, b, rest, hs⟩ := two_le_length_splitOn message htype
  rw [hs]
  simp

theorem insertOptionalField_end (f : Bytes) (k : Nat) (message : Bytes)
    (hk : (message.splitOn 124).length ≤ k + 2) :
    insertOptionalField f k message = message ++ 124 :: f := by
  unfold insertOptionalField
  have hne : message.splitOn 124 ≠ [] := List.splitOnP_ne_nil _ _
  rw [List.take_of_length_le hk, List.drop_of_length_le hk,
    intercalate_append_singleton 124 f _ hne, List.intercalate_splitOn]

/-! ### Local-data lists without a `ci-` item -/

theorem resolveContainerIDItem_not_in {F W : Type} (p : parser F W)
    (acc : Option Bytes × Option Bytes × W) (item : Bytes) (h : ¬ [105, 110, 45] <+: item) :
    (resolveContainerIDItem p acc item).2 = acc.2 := by
  have h2 : HasPrefix item inodePrefix = false := by
    rw [Bool.eq_false_iff, ne_eq, inodePrefix_eq, HasPrefix_iff]; exact h
  unfold resolveContainerIDItem
  by_cases h1 : HasPrefix item containerIDPrefix = true
  · simp only [h1, if_true]
  · simp only [h1, h2, Bool.false_eq_true, if_false]

theorem foldl_resolveContainerIDItem_no_in {F W : Type} (p : parser F W) :
    ∀ (items : List Bytes) (acc : Option Bytes × Option Bytes × W),
      (∀ x ∈ items, ¬ [105, 110, 45] <+: x) →
      (items.foldl (resolveContainerIDItem p) acc).2 = acc.2 := by
  intro items
  induction items with
  | nil => intro acc _; rfl
  | cons x items ih =>
    intro acc h
    rw [List.foldl_cons, ih _ (fun y hy => h y (by simp [hy])),
      resolveContainerIDItem_not_in p acc x (h x (by simp))]

theorem resolveContainerIDItem_in {F W : Type} (p : parser F W)
    (acc : Option Bytes × Option Bytes × W) (item : Bytes) (h : [105, 110, 45] <+: item) :
    (resolveContainerIDItem p acc item).2.1
      = (resolveContainerIDFromInode p (item.drop 3) acc.2.2).1 := by
  have hl3 : inodePrefix.length = 3 := by decide
  have h1 : HasPrefix item containerIDPrefix = false := by
    rw [Bool.eq_false_iff, ne_eq, containerIDPrefix_eq, HasPrefix_iff]
    rintro ⟨t, rfl⟩
    obtain ⟨u, hu⟩ := h
    simp at hu
  have h2 : HasPrefix item inodePrefix = true := by
    rw [inodePrefix_eq, HasPrefix_iff]; exact h
  unfold resolveContainerIDItem
  simp only [h1, h2, hl3, Bool.false_eq_true, if_false, if_true]

/-- The last `in-` item of a local-data list decides the container ID from
the inode; the provider is asked in the state that the earlier items left. -/
theorem foldl_resolveContainerIDItem_in {F W : Type} (p : parser F W)
    (pre post : List Bytes) (it : Bytes) (acc : Option Bytes × Option Bytes × W)
    (hit : [105, 110, 45] <+: it) (hpost : ∀ x ∈ post, ¬ [105, 110, 45] <+: x) :
    ((pre ++ it :: post).foldl (resolveContainerIDItem p) acc).2.1
      = (resolveContainerIDFromInode p (it.drop 3)
          ((inodeLookups pre).foldl
            (fun w n => (p.GetContainerIDForInode n 2000000000 w).2) acc.2.2)).1 := by
  rw [List.foldl_append, List.foldl_cons, foldl_resolveContainerIDItem_no_in p post _ hpost,
    resolveContainerIDItem_in p _ it hit, foldl_resolveContainerIDItem_state]

theorem resolveContainerIDFromInode_fst {F W : Type} (p : parser F W) (inode : Bytes) (w : W) :
    (resolveContainerIDFromInode p inode w).1 =
      match ParseUint inode with
      | .error _ => none
      | .ok n =>
        match (p.GetContainerIDForInode n 2000000000 w).1 with
        | .error _ => none
        | .ok containerID => some containerID := by
  have hcv : cacheValidity = 2000000000 := by decide
  unfold resolveContainerIDFromInode
  rw [hcv]
  cases ParseUint inode with
  | error e => rfl
  | ok n =>
    simp only
    rcases p.GetContainerIDForInode n 2000000000 w with ⟨_ | _, _⟩ <;> rfl

/-! ### The number of iterations of the loop of `parseFloat64List` -/

/-- One iteration of the loop of `parseFloat64List`, taken when the loop
condition holds: either the loop goes on with an input that is shorter and has
one colon less, or the iteration is the last one, and what the function
returns does not depend on the iterations still allowed. -/
theorem parseFloat64ListLoop_progress {F W : Type} (p : parser F W) (idx : Int)
    (raw : Bytes) (values : List F) (w : W) (hidx : idx ≠ -1) (hraw : raw ≠ []) :
    (∃ idx' raw' values', idx' ≠ -1 ∧ raw'.length < raw.length ∧
        raw'.count 58 + 1 = raw.count 58 ∧
        ∀ fuel, parseFloat64ListLoop p (fuel + 1) idx raw values w
          = parseFloat64ListLoop p fuel idx' raw' values' w) ∨
    (∃ r, ∀ fuel, parseFloat64ListLoop p (fuel + 1) idx raw values w = some r) := by
  by_cases hm : (58 : UInt8) ∈ raw
  · obtain ⟨a, b, hab, ha⟩ := exists_first_split 58 raw hm
    subst hab
    have hcount : b.count 58 + 1 = (a ++ 58 :: b).count 58 := (count_append_cons 58 a b ha).symm
    have hlen : b.length < (a ++ 58 :: b).length := by simp; omega
    by_cases hnil : a = []
    · subst hnil
      left
      refine ⟨0, b, values, by omega, hlen, hcount, fun fuel => ?_⟩
      rw [parseFloat64ListLoop_step p fuel idx _ values w hidx hraw, colonSeparator_eq,
        Index_append_cons 58 [] b ha]
      simp
    · have hpos : 0 < a.length := List.length_pos.2 hnil
      have h0 : ¬ ((a.length : Int) = 0) := by omega
      have h1 : ¬ ((a.length : Int) = -1) := by omega
      have hdrop : List.drop (a.length + 1) (a ++ 58 :: b) = b := by
        rw [List.drop_append]; simp
      have hstep : ∀ fuel, parseFloat64ListLoop p (fuel + 1) idx (a ++ 58 :: b) values w =
          match p.parseFloat64 a with
          | .error err => some (([], some err), p.float64ListPut values w)
          | .ok value => parseFloat64ListLoop p fuel (a.length : Int) b (values ++ [value]) w := by
        intro fuel
        rw [parseFloat64ListLoop_step p fuel idx _ values w hidx hraw, colonSeparator_eq,
          Index_append_cons 58 a b ha]
        simp only [h0, h1, if_false, Int.toNat_ofNat, List.take_left, List.length_singleton,
          hdrop]
      cases hp : p.parseFloat64 a with
      | error err =>
        right
        exact ⟨_, fun fuel => by rw [hstep, hp]⟩
      | ok v =>
        left
        exact ⟨(a.length : Int), b, values ++ [v], h1, hlen, hcount,
          fun fuel => by rw [hstep, hp]⟩
  · right
    have h0 : ¬ ((-1 : Int) = 0) := by omega
    cases hp : p.parseFloat64 raw with
    | error err =>
      refine ⟨(([], some err), p.float64ListPut values w), fun fuel => ?_⟩
      rw [parseFloat64ListLoop_step p fuel idx _ values w hidx hraw, colonSeparator_eq,
        Index_of_not_mem 58 raw hm]
      simp only [h0, if_false, if_true, hp]
    | ok v =>
      refine ⟨parseFloat64ListEnd p (values ++ [v]) w, fun fuel => ?_⟩
      rw [parseFloat64ListLoop_step p fuel idx _ values w hidx hraw, colonSeparator_eq,
        Index_of_not_mem 58 raw hm]
      simp only [h0, if_false, if_true, hp]
      exact parseFloat64ListLoop_exit p _ _ _ _ _ (Or.inl rfl)

/-- With more iterations allowed than the input has colons, the loop of
`parseFloat64List` returns, and it returns the same with any larger
allowance. -/
theorem parseFloat64ListLoop_returns {F W : Type} (p : parser F W) :
    ∀ (fuel : Nat) (idx : Int) (raw : Bytes) (values : List F) (w : W),
      idx ≠ -1 → raw.count 58 < fuel →
      ∃ r, ∀ more, parseFloat64ListLoop p (fuel + more) idx raw values w = some r := by
  intro fuel
  induction fuel with
  | zero => intro idx raw values w _ h; omega
  | succ fuel ih =>
    intro idx raw values w hidx hcount
    by_cases hraw : raw = []
    · exact ⟨_, fun more => parseFloat64ListLoop_exit p _ _ _ _ _ (Or.inr hraw)⟩
    · rcases parseFloat64ListLoop_progress p idx raw values w hidx hraw with
        ⟨idx', raw', values', hidx', -, hc, hstep⟩ | ⟨r, hr⟩
      · obtain ⟨r, hr⟩ := ih idx' raw' values' w hidx' (by omega)
        exact ⟨r, fun more => by
          rw [show fuel + 1 + more = fuel + more + 1 by omega, hstep]
          exact hr more⟩
      · exact ⟨r, fun more => by
          rw [show fuel + 1 + more = fuel + more + 1 by omega]
          exact hr (fuel + more)⟩

/-! ### The indexing of `parseTags` -/

theorem parseTagsLoop_length {F W : Type} (p : parser F W) :
    ∀ (n : Nat) (tagsList : List Bytes) (i : Nat) (raw : Bytes) (w : W),
      (parseTagsLoop p n tagsList i raw w).1.length = tagsList.length ∧
      (raw.count 44 = n → (parseTagsLoop p n tagsList i raw w).2.1 = i + n) := by
  intro n
  induction n with
  | zero => intro tagsList i raw w; exact ⟨rfl, fun _ => rfl⟩
  | succ n ih =>
    intro tagsList i raw w
    unfold parseTagsLoop
    rw [commaSeparator_eq]
    by_cases hm : (44 : UInt8) ∈ raw
    · obtain ⟨a, b, hab, ha⟩ := exists_first_split 44 raw hm
      subst hab
      have hpos : ¬ ((a.length : Int) < 0) := by omega
      rw [Index_append_cons 44 a b ha]
      simp only [hpos, if_false]
      refine ⟨by rw [(ih _ _ _ _).1, List.length_set], fun hc => ?_⟩
      have hdrop : List.drop (a.length + 1) (a ++ 44 :: b) = b := by
        rw [List.drop_append]; simp
      simp only [Int.toNat_ofNat, List.length_singleton, hdrop]
      rw [(ih _ _ b _).2 (by rw [count_append_cons 44 a b ha] at hc; omega)]
      omega
    · rw [Index_of_not_mem 44 raw hm]
      simp only [show ((-1 : Int) < 0) by omega, if_true]
      refine ⟨trivial, fun hc => ?_⟩
      rw [List.count_eq_zero_of_not_mem hm] at hc
      omega

/-- The loop of `parseTags` with the trace is the loop of `parseTags`, and when
it is allowed as many iterations as its input has commas it makes them all,
writing to the indices from `i` on, and does not leave through `break`. -/
theorem parseTagsLoopTrace_spec {F W : Type} (p : parser F W) :
    ∀ (n : Nat) (tagsList : List Bytes) (i : Nat) (raw : Bytes) (w : W) (t : tagsTrace),
      raw.count 44 = n →
      parseTagsLoopTrace p n tagsList i raw w t =
        (parseTagsLoop p n tagsList i raw w,
          { t with
            writes := t.writes ++ (List.range' i n).map (fun j => (j, tagsList.length))
            iterations := t.iterations + n }) := by
  intro n
  induction n with
  | zero => intro tagsList i raw w t _; simp [parseTagsLoopTrace, parseTagsLoop]
  | succ n ih =>
    intro tagsList i raw w t hc
    have hm : (44 : UInt8) ∈ raw := by
      by_contra hm
      rw [List.count_eq_zero_of_not_mem hm] at hc
      omega
    obtain ⟨a, b, hab, ha⟩ := exists_first_split 44 raw hm
    subst hab
    have hpos : ¬ ((a.length : Int) < 0) := by omega
    have hb : b.count 44 = n := by rw [count_append_cons 44 a b ha] at hc; omega
    have hdrop : List.drop (a.length + 1) (a ++ 44 :: b) = b := by
      rw [List.drop_append]; simp
    unfold parseTagsLoopTrace parseTagsLoop
    rw [commaSeparator_eq, Index_append_cons 44 a b ha]
    simp only [hpos, if_false, Int.toNat_ofNat, List.length_singleton, hdrop]
    rw [ih _ _ b _ _ hb]
    simp [List.range'_succ, Nat.add_assoc, Nat.add_comm 1 n]

/-! ## The last container-name and pod-UID items -/

theorem ParseExternalDataItem_cn (acc : ExternalData × Option Error) (item : Bytes)
    (h : [99, 110, 45] <+: item) :
    ParseExternalDataItem acc item = ({ acc.1 with ContainerName := item.drop 3 }, acc.2) := by
  have h1 : HasPrefix item ExternalDataInitPrefix = false := by
    rw [Bool.eq_false_iff, ne_eq, ExternalDataInitPrefix_eq, HasPrefix_iff]
    rintro ⟨t, rfl⟩
    obtain ⟨u, hu⟩ := h
    simp at hu
  have h2 : HasPrefix item ExternalDataContainerNamePrefix = true := by
    rw [ExternalDataContainerNamePrefix_eq, HasPrefix_iff]; exact h
  have hl : ExternalDataContainerNamePrefix.length = 3 := by decide
  simp [ParseExternalDataItem, h1, h2, hl]

theorem ParseExternalDataItem_pu (acc : ExternalData × Option Error) (item : Bytes)
    (h : [112, 117, 45] <+: item) :
    ParseExternalDataItem acc item = ({ acc.1 with PodUID := item.drop 3 }, acc.2) := by
  have h1 : HasPrefix item ExternalDataInitPrefix = false := by
    rw [Bool.eq_false_iff, ne_eq, ExternalDataInitPrefix_eq, HasPrefix_iff]
    rintro ⟨t, rfl⟩
    obtain ⟨u, hu⟩ := h
    simp at hu
  have h2 : HasPrefix item ExternalDataContainerNamePrefix = false := by
    rw [Bool.eq_false_iff, ne_eq, ExternalDataContainerNamePrefix_eq, HasPrefix_iff]
    rintro ⟨t, rfl⟩
    obtain ⟨u, hu⟩ := h
    simp at hu
  have h3 : HasPrefix item ExternalDataPodUIDPrefix = true := by
    rw [ExternalDataPodUIDPrefix_eq, HasPrefix_iff]; exact h
  have hl : ExternalDataPodUIDPrefix.length = 3 := by decide
  simp [ParseExternalDataItem, h1, h2, h3, hl]

theorem foldl_ParseExternalDataItem_no_cn :
    ∀ (items : List Bytes) (acc : ExternalData × Option Error),
      (∀ x ∈ items, ¬ [99, 110, 45] <+: x) →
      (items.foldl ParseExternalDataItem acc).1.ContainerName = acc.1.ContainerName := by
  intro items
  induction items with
  | nil => intro acc _; rfl
  | cons x items ih =>
    intro acc h
    have h2 : HasPrefix x ExternalDataContainerNamePrefix = false := by
      rw [Bool.eq_false_iff, ne_eq, ExternalDataContainerNamePrefix_eq, HasPrefix_iff]
      exact h x (by simp)
    rw [List.foldl_cons, ih (ParseExternalDataItem acc x) (fun y hy => h y (by simp [hy]))]
    unfold ParseExternalDataItem
    simp only [h2, Bool.false_eq_true, if_false]
    split
    · rfl
    · split <;> rfl

theorem foldl_ParseExternalDataItem_no_pu :
    ∀ (items : List Bytes) (acc : ExternalData × Option Error),
      (∀ x ∈ items, ¬ [112, 117, 45] <+: x) →
      (items.foldl ParseExternalDataItem acc).1.PodUID = acc.1.PodUID := by
  intro items
  induction items with
  | nil => intro acc _; rfl
  | cons x items ih =>
    intro acc h
    have h3 : HasPrefix x ExternalDataPodUIDPrefix = false := by
      rw [Bool.eq_false_iff, ne_eq, ExternalDataPodUIDPrefix_eq, HasPrefix_iff]
      exact h x (by simp)
    rw [List.foldl_cons, ih (ParseExternalDataItem acc x) (fun y hy => h y (by simp [hy]))]
    unfold ParseExternalDataItem
    simp only [h3, Bool.false_eq_true, if_false]
    split
    · rfl
    · split <;> rfl

/-- The last `cn-` item decides the container name. -/
theorem foldl_ParseExternalDataItem_last_cn (pre post : List Bytes) (it : Bytes)
    (acc : ExternalData × Option Error) (hit : [99, 110, 45] <+: it)
    (hpost : ∀ x ∈ post, ¬ [99, 110, 45] <+: x) :
    ((pre ++ it :: post).foldl ParseExternalDataItem acc).1.ContainerName = it.drop 3 := by
  rw [List.foldl_append, List.foldl_cons, ParseExternalDataItem_cn _ it hit,
    foldl_ParseExternalDataItem_no_cn post _ hpost]

/-- The last `pu-` item decides the pod UID. -/
theorem foldl_ParseExternalDataItem_last_pu (pre post : List Bytes) (it : Bytes)
    (acc : ExternalData × Option Error) (hit : [112, 117, 45] <+: it)
    (hpost : ∀ x ∈ post, ¬ [112, 117, 45] <+: x) :
    ((pre ++ it :: post).foldl ParseExternalDataItem acc).1.PodUID = it.drop 3 := by
  rw [List.foldl_append, List.foldl_cons, ParseExternalDataItem_pu _ it hit,
    foldl_ParseExternalDataItem_no_pu post _ hpost]

/-! ## Theorems -/

/-- C1. `findMessageType` classifies by literal prefix only: the event kind
exactly when the message starts with the bytes of `_e` and an opening brace,
the service-check kind exactly when it starts with `_sc`, and the
metric-sample kind for every other message. -/
theorem findMessageType_spec (message : Bytes) :
    (findMessageType message = .eventType ↔ [95, 101, 123] <+: message) ∧
    (findMessageType message = .serviceCheckType ↔ [95, 115, 99] <+: message) ∧
    (findMessageType message = .metricSampleType ↔
      ¬ [95, 101, 123] <+: message ∧ ¬ [95, 115, 99] <+: message) := by
  have he : eventPrefix = [95, 101, 123] := by decide
  have hs : serviceCheckPrefix = [95, 115, 99] := by decide
  have hne : [95, 101, 123] <+: message → ¬ [95, 115, 99] <+: message := by
    rintro ⟨t, rfl⟩ ⟨u, hu⟩
    simp at hu
  unfold findMessageType HasPrefix
  rw [he, hs]
  by_cases h1 : [95, 101, 123] <+: message
  · have h2 := hne h1
    simp [h1, h2]
  · by_cases h2 : [95, 115, 99] <+: message
    · simp [h1, h2]
    · simp [h1, h2]

/-- C2. `nextField` splits at the first `|`: a message containing `|` gives
a field free of `|` and a remainder with `field ++ "|" ++ rest = message`
(so the remainder is strictly shorter than the message); a message without
`|` gives the whole message as the field and a nil remainder. -/
theorem nextField_spec (message : Bytes) :
    ((124 : UInt8) ∈ message →
      ∃ field rest, nextField message = (field, some rest) ∧ (124 : UInt8) ∉ field ∧
        field ++ [124] ++ rest = message ∧ rest.length < message.length) ∧
    ((124 : UInt8) ∉ message → nextField message = (message, none)) := by
  refine ⟨fun h => ?_, nextField_of_not_mem message⟩
  obtain ⟨a, b, hab, ha⟩ := exists_first_split 124 message h
  subst hab
  exact ⟨a, b, nextField_append_cons a b ha, ha, by simp, by simp; omega⟩

theorem nextField_spec_witness :
    ((124 : UInt8) ∈ B "foo:1|c|#a" →
      ∃ field rest, nextField (B "foo:1|c|#a") = (field, some rest) ∧ (124 : UInt8) ∉ field ∧
        field ++ [124] ++ rest = B "foo:1|c|#a" ∧ rest.length < (B "foo:1|c|#a").length) ∧
    ((124 : UInt8) ∉ B "foo:1|c|#a" → nextField (B "foo:1|c|#a") = (B "foo:1|c|#a", none)) :=
  nextField_spec (B "foo:1|c|#a")

/-- C3. For a non-empty raw tag string and an interner that returns its
input, `parseTags` returns the pieces of the input between the commas:
`number of commas + 1` entries in wire order, duplicates and empty pieces
kept, so that joining them with `,` gives back the input. -/
theorem parseTags_eq_splitOn {F W : Type} (p : parser F W)
    (hp : ∀ b w, (p.LoadOrStore b w).1 = b) (rawTags : Bytes) (w : W) (hne : rawTags ≠ []) :
    (parseTags p rawTags w).1 = rawTags.splitOn 44 ∧
    (parseTags p rawTags w).1.length = rawTags.count 44 + 1 ∧
    [44].intercalate (parseTags p rawTags w).1 = rawTags := by
  have key : (parseTags p rawTags w).1 = rawTags.splitOn 44 := by
    obtain ⟨init, last, w', h1, h2, h3⟩ :=
      parseTagsLoop_spec p hp (rawTags.count 44) [] rawTags w rfl
    have hlen : ¬ rawTags.length = 0 := by
      intro h; exact hne (List.length_eq_zero.1 h)
    simp only [List.nil_append, List.length_nil, Nat.zero_add] at h1
    simp only [parseTags, hlen, if_false, commaSeparator_eq, Count_singleton, h1, hp]
    rw [h2, ← h3, set_length_append]
  refine ⟨key, ?_, ?_⟩
  · rw [key, length_splitOn]
  · rw [key, List.intercalate_splitOn]

theorem parseTags_eq_splitOn_witness :
    B "a,,b,a," ≠ [] ∧
    ((parseTags (exampleParser false false) (B "a,,b,a,") 0).1 = (B "a,,b,a,").splitOn 44 ∧
     (parseTags (exampleParser false false) (B "a,,b,a,") 0).1.length
        = (B "a,,b,a,").count 44 + 1 ∧
     [44].intercalate (parseTags (exampleParser false false) (B "a,,b,a,") 0).1 = B "a,,b,a,") :=
  ⟨by decide,
    parseTags_eq_splitOn (exampleParser false false) (fun _ _ => rfl) (B "a,,b,a,") 0 (by decide)⟩

/-- C4. When every non-empty segment between the colons is a number and
there is at least one such segment, `parseFloat64List` succeeds and returns
the numbers of the non-empty segments in submitted order, with nothing in
the place of an empty segment. -/
theorem parseFloat64List_values {F W : Type} (p : parser F W) (rawFloats : Bytes) (w : W)
    (vals : List F)
    (hall : (nonEmptySegments rawFloats).map p.parseFloat64 = vals.map Except.ok)
    (hne : nonEmptySegments rawFloats ≠ []) :
    parseFloat64List p rawFloats w = some ((vals, none), p.float64ListGet w) := by
  have hps := parseSegments_of_map_eq p.parseFloat64 _ _ hall
  rw [parseFloat64List_eq_spec]
  unfold specFloat64List specFloat64ListPool
  rw [hps]
  cases vals with
  | nil =>
    simp only [List.map_nil, List.map_eq_nil_iff] at hall
    exact absurd hall hne
  | cons v vs => rfl

theorem parseFloat64List_values_witness :
    ((nonEmptySegments (B "10::20")).map (exampleParser false false).parseFloat64
        = [(⟨10, 0⟩ : Decimal), ⟨20, 0⟩].map Except.ok ∧
      nonEmptySegments (B "10::20") ≠ []) ∧
    parseFloat64List (exampleParser false false) (B "10::20") 0
      = some (([⟨10, 0⟩, ⟨20, 0⟩], none), (exampleParser false false).float64ListGet 0) :=
  ⟨⟨by decide, by decide⟩,
    parseFloat64List_values (exampleParser false false) (B "10::20") 0 [⟨10, 0⟩, ⟨20, 0⟩]
      (by decide) (by decide)⟩

/-- C5. A raw value with no non-empty segment between the colons (the empty
string, or colons only) makes `parseFloat64List` fail with "no value found"
and return no list. -/
theorem parseFloat64List_no_value {F W : Type} (p : parser F W) (rawFloats : Bytes) (w : W) :
    (nonEmptySegments rawFloats = [] ↔ ∀ c ∈ rawFloats, c = 58) ∧
    (nonEmptySegments rawFloats = [] →
      parseFloat64List p rawFloats w =
        some (([], some (Error.errorf "no value found" [])),
          p.float64ListPut [] (p.float64ListGet w))) := by
  refine ⟨nonEmptySegments_eq_nil_iff rawFloats, fun h => ?_⟩
  rw [parseFloat64List_eq_spec]
  unfold specFloat64List specFloat64ListPool
  rw [h]
  rfl

theorem parseFloat64List_no_value_witness :
    nonEmptySegments (B ":::") = [] ∧
    parseFloat64List (exampleParser false false) (B ":::") 0 =
      some (([], some (Error.errorf "no value found" [])),
        (exampleParser false false).float64ListPut [] ((exampleParser false false).float64ListGet 0)) :=
  ⟨by decide, (parseFloat64List_no_value (exampleParser false false) (B ":::") 0).2 (by decide)⟩

/-- The partial list is dropped: `"10:x:20"` gives no list and the error of the
number parser for `x`, and the buffer goes back to the pool. -/
theorem parseFloat64List_bad_segment_example :
    parseFloat64List (exampleParser false false) (B "10:x:20") 0
      = some (([], some (Error.numError "ParseFloat" (B "x") "invalid syntax")), 2) := by
  decide

/-- C6. `parseFloat64List` always returns; it fails exactly when a non-empty
segment is not a number or there is no non-empty segment; and when a segment
is not a number it returns the nil list with the error the number parser gave
for the first such segment. -/
theorem parseFloat64List_fails_iff {F W : Type} (p : parser F W) (rawFloats : Bytes) (w : W) :
    ∃ r w', parseFloat64List p rawFloats w = some (r, w') ∧
      (r.2 ≠ none ↔
        ((∃ seg ∈ nonEmptySegments rawFloats, ∃ err, p.parseFloat64 seg = .error err) ∨
          nonEmptySegments rawFloats = [])) ∧
      (∀ pre seg post err, nonEmptySegments rawFloats = pre ++ seg :: post →
        (∀ s ∈ pre, ∃ v, p.parseFloat64 s = .ok v) → p.parseFloat64 seg = .error err →
        r = ([], some err)) := by
  refine ⟨_, _, parseFloat64List_eq_spec p rawFloats w,
    specFloat64List_snd_ne_none_iff p.parseFloat64 rawFloats, ?_⟩
  intro pre seg post err hsplit hpre hseg
  apply specFloat64List_of_error
  rw [hsplit]
  exact parseSegments_first_error p.parseFloat64 pre seg post err hpre hseg

/-- C7. For a message whose metric type is the set type, `parseMetricSample`
does not parse the value as a number: its result is the same whatever the
number parser is, a returned sample carries the raw value bytes as its
set-value (with scalar `0` and no list), and the error of the metric values
is never returned. -/
theorem parseMetricSample_set {F W : Type} [Zero F] [One F] (p : parser F W) (message : Bytes)
    (w : W) (name rawValue : Bytes)
    (hfmt : p.hasMetricSampleFormat message = true)
    (hname : p.parseMetricSampleNameAndRawValue (nextField message).1 = .ok (name, rawValue))
    (htype : p.parseMetricSampleMetricType (nextField ((nextField message).2.getD [])).1
      = .ok .setType) :
    (∀ f, parseMetricSample { p with parseFloat64 := f } message w
        = parseMetricSample p message w) ∧
    (∀ s w', parseMetricSample p message w = some ((s, none), w') →
        s.setValue = rawValue ∧ s.value = 0 ∧ s.values = []) ∧
    (∀ s cause w', parseMetricSample p message w ≠
        some ((s, some (Error.errorfWrap "could not parse dogstatsd metric values: %v" []
          cause)), w')) := by
  have hread : ∀ q : parser F W, readMetricValues q .setType rawValue w
      = some ((rawValue, [], 0, none), w) := by
    intro q; simp [readMetricValues]
  refine ⟨?_, ?_, ?_⟩
  · intro f
    rw [parseMetricSample_eq, parseMetricSample_eq]
    simp only [hfmt, hname, htype, hread, foldOptionalFields_parseFloat64]
  · intro s w' h
    obtain ⟨name', rawValue', mt, setValue, values, value, w1, st, w2, -, hname', htype', hrd,
      -, hs, -⟩ := parseMetricSample_ok p message w w' s h
    rw [hname] at hname'
    rw [htype] at htype'
    cases hname'
    cases htype'
    rw [hread p] at hrd
    cases hrd
    subst hs
    exact ⟨rfl, rfl, rfl⟩
  · intro s cause w' h
    rw [parseMetricSample_eq] at h
    simp only [hfmt, hname, htype, hread, Bool.not_true, Bool.false_eq_true, if_false] at h
    rcases hfold : foldOptionalFields p ((message.splitOn 124).drop 2) (optionalFields.init F) w
      with ⟨e | st, w2⟩
    · rw [hfold] at h
      simp only [Option.some.injEq, Prod.mk.injEq] at h
      exact foldOptionalFields_error_ne p _ _ w w2 e cause hfold h.1.2
    · rw [hfold] at h
      simp at h

theorem parseMetricSample_set_witness :
    ((exampleParser false false).hasMetricSampleFormat (B "my.set:he:llo|s|#a") = true ∧
     (exampleParser false false).parseMetricSampleNameAndRawValue
        (nextField (B "my.set:he:llo|s|#a")).1 = .ok (B "my.set", B "he:llo") ∧
     (exampleParser false false).parseMetricSampleMetricType
        (nextField ((nextField (B "my.set:he:llo|s|#a")).2.getD [])).1 = .ok .setType) ∧
    ((∀ f, parseMetricSample { exampleParser false false with parseFloat64 := f }
          (B "my.set:he:llo|s|#a") 0
        = parseMetricSample (exampleParser false false) (B "my.set:he:llo|s|#a") 0) ∧
     (∀ s w', parseMetricSample (exampleParser false false) (B "my.set:he:llo|s|#a") 0
          = some ((s, none), w') →
        s.setValue = B "he:llo" ∧ s.value = 0 ∧ s.values = []) ∧
     (∀ s cause w', parseMetricSample (exampleParser false false) (B "my.set:he:llo|s|#a") 0 ≠
        some ((s, some (Error.errorfWrap "could not parse dogstatsd metric values: %v" []
          cause)), w'))) :=
  ⟨⟨by decide, by decide, by decide⟩,
    parseMetricSample_set (exampleParser false false) (B "my.set:he:llo|s|#a") 0
      (B "my.set") (B "he:llo") (by decide) (by decide) (by decide)⟩

/-- C8. A sample that `parseMetricSample` returns without error carries at
most one of scalar, list and set-value: for the set type the scalar is `0`
and the list is empty; for another type whose raw value has no `:` the list
and the set-value are empty; for another type whose raw value has a `:` the
list is not empty, the scalar is `0` and the set-value is empty. -/
theorem parseMetricSample_one_of {F W : Type} [Zero F] [One F] (p : parser F W)
    (message : Bytes) (w w' : W) (s : dogstatsdMetricSample F)
    (h : parseMetricSample p message w = some ((s, none), w')) :
    ∃ name rawValue,
      p.parseMetricSampleNameAndRawValue (nextField message).1 = .ok (name, rawValue) ∧
      p.parseMetricSampleMetricType (nextField ((nextField message).2.getD [])).1
        = .ok s.metricType ∧
      (s.metricType = .setType → s.value = 0 ∧ s.values = [] ∧ s.setValue = rawValue) ∧
      (s.metricType ≠ .setType → (58 : UInt8) ∉ rawValue → s.values = [] ∧ s.setValue = []) ∧
      (s.metricType ≠ .setType → (58 : UInt8) ∈ rawValue →
        s.values ≠ [] ∧ s.value = 0 ∧ s.setValue = []) := by
  obtain ⟨name, rawValue, mt, setValue, values, value, w1, st, w2, -, hname, htype, hrd,
    -, hs, -⟩ := parseMetricSample_ok p message w w' s h
  subst hs
  refine ⟨name, rawValue, hname, htype, ?_, ?_, ?_⟩
  · intro hmt
    simp only at hmt
    rw [readMetricValues_eq] at hrd
    simp only [hmt, if_true, Option.some.injEq, Prod.mk.injEq] at hrd
    obtain ⟨⟨h1, h2, h3, -⟩, -⟩ := hrd
    exact ⟨h3.symm, h2.symm, h1.symm⟩
  · intro hmt hcolon
    simp only at hmt
    rw [readMetricValues_eq] at hrd
    simp only [hmt, if_false, hcolon, not_false_eq_true, if_true, Option.some.injEq] at hrd
    cases hp : p.parseFloat64 rawValue with
    | error err => rw [hp] at hrd; simp at hrd
    | ok v =>
      rw [hp] at hrd
      simp only [Prod.mk.injEq] at hrd
      obtain ⟨⟨h1, h2, -, -⟩, -⟩ := hrd
      exact ⟨h2.symm, h1.symm⟩
  · intro hmt hcolon
    simp only at hmt
    rw [readMetricValues_eq] at hrd
    simp only [hmt, if_false, hcolon, not_true_eq_false, Option.some.injEq,
      Prod.mk.injEq] at hrd
    obtain ⟨⟨h1, h2, h3, h4⟩, -⟩ := hrd
    refine ⟨?_, h3.symm, h1.symm⟩
    simp only
    rw [← h2]
    exact specFloat64List_ok_ne_nil p.parseFloat64 rawValue h4

theorem parseMetricSample_one_of_witness :
    parseMetricSample (exampleParser false false) (B "my.histogram:10:20:30|h|@0.5|#env:prod") 0
      = some (({ name := B "my.histogram", value := 0, values := [⟨10, 0⟩, ⟨20, 0⟩, ⟨30, 0⟩],
                 setValue := [], metricType := .histogramType, sampleRate := ⟨5, 1⟩,
                 tags := [B "env:prod"], containerID := none, externalData := {},
                 ts := .zero }, none), 3) ∧
    ∃ name rawValue,
      (exampleParser false false).parseMetricSampleNameAndRawValue
        (nextField (B "my.histogram:10:20:30|h|@0.5|#env:prod")).1 = .ok (name, rawValue) ∧
      (exampleParser false false).parseMetricSampleMetricType
        (nextField ((nextField (B "my.histogram:10:20:30|h|@0.5|#env:prod")).2.getD [])).1
        = .ok metricType.histogramType ∧
      (metricType.histogramType = .setType →
        (0 : Decimal) = 0 ∧ [(⟨10, 0⟩ : Decimal), ⟨20, 0⟩, ⟨30, 0⟩] = [] ∧
          ([] : Bytes) = rawValue) ∧
      (metricType.histogramType ≠ .setType → (58 : UInt8) ∉ rawValue →
        [(⟨10, 0⟩ : Decimal), ⟨20, 0⟩, ⟨30, 0⟩] = [] ∧ ([] : Bytes) = []) ∧
      (metricType.histogramType ≠ .setType → (58 : UInt8) ∈ rawValue →
        [(⟨10, 0⟩ : Decimal), ⟨20, 0⟩, ⟨30, 0⟩] ≠ [] ∧ (0 : Decimal) = 0 ∧ ([] : Bytes) = []) :=
  ⟨by decide,
    parseMetricSample_one_of (exampleParser false false)
      (B "my.histogram:10:20:30|h|@0.5|#env:prod") 0 3
      { name := B "my.histogram", value := 0, values := [⟨10, 0⟩, ⟨20, 0⟩, ⟨30, 0⟩],
        setValue := [], metricType := .histogramType, sampleRate := ⟨5, 1⟩,
        tags := [B "env:prod"], containerID := none, externalData := {}, ts := .zero }
      (by decide)⟩

/-- C9. When one of the optional fields of the message starts with `@` and
the sample-rate parser rejects what follows the `@`, `parseMetricSample`
returns an error next to the zero sample, wherever the field stands among
the optional fields: the rate is not replaced by the default. -/
theorem parseMetricSample_rejected_rate {F W : Type} [Zero F] [One F] (p : parser F W)
    (message : Bytes) (w : W)
    (h : ∃ f ∈ (message.splitOn 124).drop 2, f.head? = some 64 ∧
      ∃ err, p.parseMetricSampleSampleRate (f.drop 1) = .error err) :
    ∃ err w', parseMetricSample p message w
      = some ((dogstatsdMetricSample.zeroValue F, some err), w') := by
  rw [parseMetricSample_eq]
  split
  · exact ⟨_, _, rfl⟩
  · split
    · exact ⟨_, _, rfl⟩
    · split
      · exact ⟨_, _, rfl⟩
      · split
        · rename_i hread
          rw [readMetricValues_eq] at hread
          cases hread
        · exact ⟨_, _, rfl⟩
        · rename_i w1 _
          obtain ⟨err, w2, hfold⟩ :=
            foldOptionalFields_rejected_rate p _ (optionalFields.init F) w1 h
          rw [hfold]
          exact ⟨_, _, rfl⟩

theorem parseMetricSample_rejected_rate_witness :
    (∃ f ∈ ((B "foo:1|c|#a|@1.5|T5").splitOn 124).drop 2, f.head? = some 64 ∧
      ∃ err, (exampleParser false false).parseMetricSampleSampleRate (f.drop 1) = .error err) ∧
    ∃ err w', parseMetricSample (exampleParser false false) (B "foo:1|c|#a|@1.5|T5") 0
      = some ((dogstatsdMetricSample.zeroValue Decimal, some err), w') :=
  have hyp : ∃ f ∈ ((B "foo:1|c|#a|@1.5|T5").splitOn 124).drop 2, f.head? = some 64 ∧
      ∃ err, (exampleParser false false).parseMetricSampleSampleRate (f.drop 1) = .error err :=
    ⟨B "@1.5", by decide, by decide, Error.errorf "invalid sample rate: %q" [B "1.5"], by decide⟩
  ⟨hyp, parseMetricSample_rejected_rate (exampleParser false false) (B "foo:1|c|#a|@1.5|T5") 0 hyp⟩

/-- C10. When `parseMetricSample` succeeds on a message none of whose
optional fields starts with `@`, the sample rate of the sample is `1`; and
when none of its optional fields starts with `#`, the sample has no tags. -/
theorem parseMetricSample_defaults {F W : Type} [Zero F] [One F] (p : parser F W)
    (message : Bytes) (w w' : W) (s : dogstatsdMetricSample F)
    (h : parseMetricSample p message w = some ((s, none), w')) :
    ((∀ f ∈ (message.splitOn 124).drop 2, f.head? ≠ some 64) → s.sampleRate = 1) ∧
    ((∀ f ∈ (message.splitOn 124).drop 2, f.head? ≠ some 35) → s.tags = []) := by
  obtain ⟨name, rawValue, mt, setValue, values, value, w1, st, w2, -, -, -, -, hfold, hs, -⟩ :=
    parseMetricSample_ok p message w w' s h
  subst hs
  constructor
  · intro hall
    exact foldOptionalFields_sampleRate p _ _ st w1 w2 hall hfold
  · intro hall
    exact foldOptionalFields_tags p _ _ st w1 w2 hall hfold

theorem parseMetricSample_defaults_witness :
    parseMetricSample (exampleParser false false) (B "page.views:1|c") 0
      = some (({ name := B "page.views", value := ⟨1, 0⟩, values := [], setValue := [],
                 metricType := .countType, sampleRate := 1, tags := [], containerID := none,
                 externalData := {}, ts := .zero }, none), 1) ∧
    (((∀ f ∈ ((B "page.views:1|c").splitOn 124).drop 2, f.head? ≠ some 64) →
        (1 : Decimal) = 1) ∧
     ((∀ f ∈ ((B "page.views:1|c").splitOn 124).drop 2, f.head? ≠ some 35) →
        ([] : List Bytes) = [])) :=
  ⟨by decide,
    parseMetricSample_defaults (exampleParser false false) (B "page.views:1|c") 0 1
      { name := B "page.views", value := ⟨1, 0⟩, values := [], setValue := [],
        metricType := .countType, sampleRate := 1, tags := [], containerID := none,
        externalData := {}, ts := .zero } (by decide)⟩

/-- C15. `ParseExternalData` on the empty string returns the all-default
`ExternalData` (`Init` false, `ContainerName` empty, `PodUID` empty) and no
error. -/
theorem ParseExternalData_empty :
    ParseExternalData [] = ({ Init := false, ContainerName := [], PodUID := [] }, none) := by
  decide

/-- C16. For a boolean literal `b` that `ParseBool` accepts and strings `n`
and `p` without a comma, `ParseExternalData` on `it-b,cn-n,pu-p` returns no
error and the value of `b`, `n` and `p`. -/
theorem ParseExternalData_three_items (b n p : Bytes) (hb : (ParseBool b).2 = none)
    (hn : (44 : UInt8) ∉ n) (hp : (44 : UInt8) ∉ p) :
    ParseExternalData (B "it-" ++ b ++ B ",cn-" ++ n ++ B ",pu-" ++ p)
      = ({ Init := (ParseBool b).1, ContainerName := n, PodUID := p }, none) := by
  have hbc := ParseBool_ok_no_comma b hb
  have h1 : B "it-" = [105, 116, 45] := by decide
  have h2 : B ",cn-" = [44, 99, 110, 45] := by decide
  have h3 : B ",pu-" = [44, 112, 117, 45] := by decide
  have hs : B "it-" ++ b ++ B ",cn-" ++ n ++ B ",pu-" ++ p
      = ([105, 116, 45] ++ b) ++ 44 :: (([99, 110, 45] ++ n) ++ 44 :: ([112, 117, 45] ++ p)) := by
    rw [h1, h2, h3]; simp
  have m1 : (44 : UInt8) ∉ [105, 116, 45] ++ b := by
    simp only [List.mem_append, not_or]; exact ⟨by decide, hbc⟩
  have m2 : (44 : UInt8) ∉ [99, 110, 45] ++ n := by
    simp only [List.mem_append, not_or]; exact ⟨by decide, hn⟩
  have m3 : (44 : UInt8) ∉ [112, 117, 45] ++ p := by
    simp only [List.mem_append, not_or]; exact ⟨by decide, hp⟩
  rw [ParseExternalData_eq, hs, splitOn_append_cons 44 _ _ m1, splitOn_append_cons 44 _ _ m2,
    splitOn_of_not_mem 44 _ m3]
  simp only [List.foldl_cons, List.foldl_nil, ParseExternalDataItem, HasPrefix,
    ExternalDataInitPrefix_eq, ExternalDataContainerNamePrefix_eq, ExternalDataPodUIDPrefix_eq]
  simp [List.isPrefixOf, hb]

theorem ParseExternalData_three_items_witness :
    ((ParseBool (B "true")).2 = none ∧ (44 : UInt8) ∉ B "nginx" ∧ (44 : UInt8) ∉ B "pod-123") ∧
    ParseExternalData (B "it-" ++ B "true" ++ B ",cn-" ++ B "nginx" ++ B ",pu-" ++ B "pod-123")
      = ({ Init := (ParseBool (B "true")).1, ContainerName := B "nginx",
           PodUID := B "pod-123" }, none) :=
  ⟨⟨by decide, by decide, by decide⟩,
    ParseExternalData_three_items (B "true") (B "nginx") (B "pod-123") (by decide) (by decide)
      (by decide)⟩

/-- C17. The input `it-notabool,it-true` holds an init-flag item whose payload
`ParseBool` rejects, and `ParseExternalData` returns no error on it: the
error of the first item is overwritten by the result of the second. -/
theorem ParseExternalData_invalid_then_valid :
    (B "it-notabool,it-true").splitOn 44 = [B "it-notabool", B "it-true"] ∧
    (ParseBool (B "notabool")).2 ≠ none ∧
    ParseExternalData (B "it-notabool,it-true")
      = ({ Init := true, ContainerName := [], PodUID := [] }, none) := by
  decide

/-- C18. An item that starts with none of `it-`, `cn-`, `pu-` (the empty
item included), put at any position of a non-empty list of comma-free items,
changes neither the `ExternalData` nor the error that `ParseExternalData`
returns for the list joined with commas. -/
theorem ParseExternalData_ignores_unrecognized (pre post : List Bytes) (x : Bytes)
    (hne : pre ++ post ≠ []) (hitems : ∀ i ∈ pre ++ post, (44 : UInt8) ∉ i)
    (hx : (44 : UInt8) ∉ x)
    (h1 : ¬ [105, 116, 45] <+: x) (h2 : ¬ [99, 110, 45] <+: x) (h3 : ¬ [112, 117, 45] <+: x) :
    ParseExternalData ([44].intercalate (pre ++ x :: post))
      = ParseExternalData ([44].intercalate (pre ++ post)) := by
  have hitems' : ∀ i ∈ pre ++ x :: post, (44 : UInt8) ∉ i := by
    intro i hi
    rcases List.mem_append.1 hi with e | e
    · exact hitems i (List.mem_append.2 (Or.inl e))
    · rcases List.mem_cons.1 e with e | e
      · subst e; exact hx
      · exact hitems i (List.mem_append.2 (Or.inr e))
  rw [ParseExternalData_eq, ParseExternalData_eq,
    List.splitOn_intercalate _ 44 hitems' (by simp),
    List.splitOn_intercalate _ 44 hitems hne]
  simp only [List.foldl_append, List.foldl_cons,
    ParseExternalDataItem_unrecognized _ x h1 h2 h3]

theorem ParseExternalData_ignores_unrecognized_witness :
    ([B "it-true"] ++ [B "pu-p"] ≠ [] ∧ (∀ i ∈ [B "it-true"] ++ [B "pu-p"], (44 : UInt8) ∉ i) ∧
      (44 : UInt8) ∉ B "zz-top" ∧ ¬ [105, 116, 45] <+: B "zz-top" ∧
      ¬ [99, 110, 45] <+: B "zz-top" ∧ ¬ [112, 117, 45] <+: B "zz-top") ∧
    ParseExternalData ([44].intercalate ([B "it-true"] ++ B "zz-top" :: [B "pu-p"]))
      = ParseExternalData ([44].intercalate ([B "it-true"] ++ [B "pu-p"])) :=
  ⟨⟨by decide, by decide, by decide, by decide, by decide, by decide⟩,
    ParseExternalData_ignores_unrecognized [B "it-true"] [B "pu-p"] (B "zz-top") (by decide)
      (by decide) (by decide) (by decide) (by decide) (by decide)⟩

/-- C19 as stated fails: on `cn-nginx,it-notabool` `ParseExternalData` returns
an error next to an `ExternalData` that holds the container name. -/
theorem ParseExternalData_error_not_default :
    (ParseExternalData (B "cn-nginx,it-notabool")).2 ≠ none ∧
    (ParseExternalData (B "cn-nginx,it-notabool")).1
      = { Init := false, ContainerName := B "nginx", PodUID := [] } ∧
    (ParseExternalData (B "cn-nginx,it-notabool")).1
      ≠ { Init := false, ContainerName := [], PodUID := [] } := by
  decide

/-- C19, amended. Whenever `ParseExternalData` returns an error, the
`ExternalData` it returns has `Init` false, `ContainerName` the payload of the
last comma-separated item of the input that starts with `cn-` (empty when no
item does) and `PodUID` the payload of the last item that starts with `pu-`
(empty when no item does); so it is the all-default value exactly when these
two payloads are empty, and in particular when no item starts with `cn-` or
`pu-`. -/
theorem ParseExternalData_error_init (s : Bytes) (h : (ParseExternalData s).2 ≠ none) :
    (ParseExternalData s).1.Init = false ∧
    ((∀ item ∈ s.splitOn 44, ¬ [99, 110, 45] <+: item ∧ ¬ [112, 117, 45] <+: item) →
      (ParseExternalData s).1 = { Init := false, ContainerName := [], PodUID := [] }) ∧
    (∀ pre it post, s.splitOn 44 = pre ++ it :: post → [99, 110, 45] <+: it →
      (∀ x ∈ post, ¬ [99, 110, 45] <+: x) →
      (ParseExternalData s).1.ContainerName = it.drop 3) ∧
    ((∀ x ∈ s.splitOn 44, ¬ [99, 110, 45] <+: x) → (ParseExternalData s).1.ContainerName = []) ∧
    (∀ pre it post, s.splitOn 44 = pre ++ it :: post → [112, 117, 45] <+: it →
      (∀ x ∈ post, ¬ [112, 117, 45] <+: x) →
      (ParseExternalData s).1.PodUID = it.drop 3) ∧
    ((∀ x ∈ s.splitOn 44, ¬ [112, 117, 45] <+: x) → (ParseExternalData s).1.PodUID = []) ∧
    ((ParseExternalData s).1 = { Init := false, ContainerName := [], PodUID := [] } ↔
      (ParseExternalData s).1.ContainerName = [] ∧ (ParseExternalData s).1.PodUID = []) := by
  rw [ParseExternalData_eq] at h ⊢
  have hinit := foldl_ParseExternalDataItem_init (s.splitOn 44) ({}, none) (by simp) h
  refine ⟨hinit, fun hall => ?_, ?_, ?_, ?_, ?_, ?_⟩
  · have hnames := foldl_ParseExternalDataItem_names (s.splitOn 44) ({}, none) hall
    rcases hr : (s.splitOn 44).foldl ParseExternalDataItem ({}, none) with ⟨⟨i, c, u⟩, e⟩
    rw [hr] at hinit hnames
    simp only at hinit hnames
    rw [hinit, hnames.1, hnames.2]
  · intro pre it post hitems hit hpost
    rw [hitems]
    exact foldl_ParseExternalDataItem_last_cn pre post it _ hit hpost
  · intro hno
    exact foldl_ParseExternalDataItem_no_cn (s.splitOn 44) ({}, none) hno
  · intro pre it post hitems hit hpost
    rw [hitems]
    exact foldl_ParseExternalDataItem_last_pu pre post it _ hit hpost
  · intro hno
    exact foldl_ParseExternalDataItem_no_pu (s.splitOn 44) ({}, none) hno
  · rcases hr : (s.splitOn 44).foldl ParseExternalDataItem ({}, none) with ⟨⟨i, c, u⟩, e⟩
    rw [hr] at hinit
    simp only at hinit
    subst hinit
    simp

theorem ParseExternalData_error_init_witness :
    (ParseExternalData (B "cn-nginx,pu-1,cn-apache,it-notabool,pu-")).2 ≠ none ∧
    (ParseExternalData (B "cn-nginx,pu-1,cn-apache,it-notabool,pu-")).1.Init = false ∧
    (ParseExternalData (B "cn-nginx,pu-1,cn-apache,it-notabool,pu-")).1.ContainerName
      = B "apache" ∧
    (ParseExternalData (B "cn-nginx,pu-1,cn-apache,it-notabool,pu-")).1.PodUID = [] ∧
    (ParseExternalData (B "it-notabool")).1
      = { Init := false, ContainerName := [], PodUID := [] } :=
  ⟨by decide,
    (ParseExternalData_error_init (B "cn-nginx,pu-1,cn-apache,it-notabool,pu-") (by decide)).1,
    (ParseExternalData_error_init (B "cn-nginx,pu-1,cn-apache,it-notabool,pu-")
      (by decide)).2.2.1 [B "cn-nginx", B "pu-1"] (B "cn-apache") [B "it-notabool", B "pu-"]
      (by decide) (by decide) (by decide),
    (ParseExternalData_error_init (B "cn-nginx,pu-1,cn-apache,it-notabool,pu-")
      (by decide)).2.2.2.2.1 [B "cn-nginx", B "pu-1", B "cn-apache", B "it-notabool"] (B "pu-") []
      (by decide) (by decide) (by decide),
    (ParseExternalData_error_init (B "it-notabool") (by decide)).2.1 (by decide)⟩

/-- C11. With timestamp reading on, a message with an optional field that
starts with `T` and whose payload `ParseInt` rejects, or reads as an integer
that is `0` or less, makes `parseMetricSample` return an error (next to the
zero sample), whatever its other fields are. -/
theorem parseMetricSample_bad_timestamp {F W : Type} [Zero F] [One F] (p : parser F W)
    (hts : p.readTimestamps = true) (message : Bytes) (w : W)
    (h : ∃ f ∈ (message.splitOn 124).drop 2, f.head? = some 84 ∧
      ((∃ err, ParseInt (f.drop 1) = .error err) ∨
        (∃ n, ParseInt (f.drop 1) = .ok n ∧ n ≤ 0))) :
    ∃ err w', parseMetricSample p message w
      = some ((dogstatsdMetricSample.zeroValue F, some err), w') := by
  apply parseMetricSample_of_fold_error
  intro st0 w0
  apply foldOptionalFields_error_of_mem
  obtain ⟨f, hf, hhead, hbad⟩ := h
  refine ⟨f, hf, fun st w1 => ?_⟩
  rw [parseOptionalField_timestamp p f st w1 hhead]
  simp only [hts, Bool.not_true, Bool.false_eq_true, if_false]
  rcases hbad with ⟨err, he⟩ | ⟨n, hn, hle⟩
  · rw [he]
    exact ⟨_, _, rfl⟩
  · rw [hn]
    have : n < 1 := by omega
    simp only [this, if_true]
    exact ⟨_, _, rfl⟩

theorem parseMetricSample_bad_timestamp_witness :
    ((exampleParser false true).readTimestamps = true ∧
      ∃ f ∈ ((B "foo:1|c|T0").splitOn 124).drop 2, f.head? = some 84 ∧
        ((∃ err, ParseInt (f.drop 1) = .error err) ∨
          (∃ n, ParseInt (f.drop 1) = .ok n ∧ n ≤ 0))) ∧
    ∃ err w', parseMetricSample (exampleParser false true) (B "foo:1|c|T0") 0
      = some ((dogstatsdMetricSample.zeroValue Decimal, some err), w') :=
  have hyp : ∃ f ∈ ((B "foo:1|c|T0").splitOn 124).drop 2, f.head? = some 84 ∧
      ((∃ err, ParseInt (f.drop 1) = .error err) ∨
        (∃ n, ParseInt (f.drop 1) = .ok n ∧ n ≤ 0)) :=
    ⟨B "T0", by decide, by decide, Or.inr ⟨0, by decide, by decide⟩⟩
  ⟨⟨rfl, hyp⟩,
    parseMetricSample_bad_timestamp (exampleParser false true) rfl (B "foo:1|c|T0") 0 hyp⟩

/-- C20. With origin detection on, a message with an optional field that
starts with `e:` and on whose payload `ParseExternalData` returns an error
makes `parseMetricSample` return an error next to the zero sample, whatever
its other fields are. -/
theorem parseMetricSample_bad_externalData {F W : Type} [Zero F] [One F] (p : parser F W)
    (ho : p.dsdOriginEnabled = true) (message : Bytes) (w : W)
    (h : ∃ f ∈ (message.splitOn 124).drop 2, [101, 58] <+: f ∧
      (ParseExternalData (f.drop 2)).2 ≠ none) :
    ∃ err w', parseMetricSample p message w
      = some ((dogstatsdMetricSample.zeroValue F, some err), w') := by
  apply parseMetricSample_of_fold_error
  intro st0 w0
  apply foldOptionalFields_error_of_mem
  obtain ⟨f, hf, hpre, hbad⟩ := h
  refine ⟨f, hf, fun st w1 => ?_⟩
  rw [parseOptionalField_externalData p f st w1 ho hpre]
  cases he : (ParseExternalData (f.drop 2)).2 with
  | none => exact absurd he hbad
  | some err => exact ⟨_, _, rfl⟩

theorem parseMetricSample_bad_externalData_witness :
    ((exampleParser true false).dsdOriginEnabled = true ∧
      ∃ f ∈ ((B "foo:1|c|#a|e:it-notabool|@0.5").splitOn 124).drop 2, [101, 58] <+: f ∧
        (ParseExternalData (f.drop 2)).2 ≠ none) ∧
    ∃ err w', parseMetricSample (exampleParser true false) (B "foo:1|c|#a|e:it-notabool|@0.5") 0
      = some ((dogstatsdMetricSample.zeroValue Decimal, some err), w') :=
  have hyp : ∃ f ∈ ((B "foo:1|c|#a|e:it-notabool|@0.5").splitOn 124).drop 2, [101, 58] <+: f ∧
      (ParseExternalData (f.drop 2)).2 ≠ none :=
    ⟨B "e:it-notabool", by decide, by decide, by decide⟩
  ⟨⟨rfl, hyp⟩,
    parseMetricSample_bad_externalData (exampleParser true false) rfl
      (B "foo:1|c|#a|e:it-notabool|@0.5") 0 hyp⟩

/-- C12. With timestamp reading on, take a message that has exactly one
optional field starting with `T`, whose payload `ParseInt` reads as an integer
`n` with `1 ≤ n`, and that is otherwise valid (it parses to a sample when
timestamps are not read).  Then `parseMetricSample` succeeds with that sample
and the timestamp `time.Unix(n, 0)`. -/
theorem parseMetricSample_timestamp {F W : Type} [Zero F] [One F] (p : parser F W)
    (hts : p.readTimestamps = true) (message : Bytes) (w w' : W)
    (pre post : List Bytes) (tf : Bytes) (n : Int)
    (hfields : (message.splitOn 124).drop 2 = pre ++ tf :: post)
    (hpre : ∀ f ∈ pre, f.head? ≠ some 84) (hpost : ∀ f ∈ post, f.head? ≠ some 84)
    (htf : tf.head? = some 84) (hn : ParseInt (tf.drop 1) = .ok n) (h1 : 1 ≤ n)
    (s0 : dogstatsdMetricSample F)
    (hvalid : parseMetricSample { p with readTimestamps := false } message w
      = some ((s0, none), w')) :
    parseMetricSample p message w = some (({ s0 with ts := Time.unix n 0 }, none), w') := by
  obtain ⟨name, rawValue, mt, setValue, values, value, w1, st, w2, hfmt, hname, htype, hread,
    hfold, hs, hw⟩ := parseMetricSample_ok _ message w w' s0 hvalid
  have hfmt' : p.hasMetricSampleFormat message = true := hfmt
  have hname' : p.parseMetricSampleNameAndRawValue (nextField message).1
      = .ok (name, rawValue) := hname
  have htype' : p.parseMetricSampleMetricType (nextField ((nextField message).2.getD [])).1
      = .ok mt := htype
  have hread' : readMetricValues p mt rawValue w = some ((setValue, values, value, none), w1) := by
    rw [readMetricValues_congr p { p with readTimestamps := false } rfl rfl rfl]
    exact hread
  rw [hfields] at hfold
  have hfold' := foldOptionalFields_timestamp p hts pre post tf n hpre hpost htf hn h1 _ st w1 w2
    hfold
  rw [parseMetricSample_eq]
  simp only [hfmt', hname', htype', hread', hfields, hfold', Bool.not_true, Bool.false_eq_true,
    if_false]
  subst hs hw
  rfl

theorem parseMetricSample_timestamp_witness :
    parseMetricSample (exampleParser false true) (B "foo:1|c|#a|T1690000000|@0.5") 0
      = some (({ name := B "foo", value := ⟨1, 0⟩, values := [], setValue := [],
                 metricType := .countType, sampleRate := ⟨5, 1⟩, tags := [B "a"],
                 containerID := none, externalData := {}, ts := Time.unix 1690000000 0 },
               none), 2) :=
  parseMetricSample_timestamp (exampleParser false true) rfl (B "foo:1|c|#a|T1690000000|@0.5") 0 2
    [B "#a"] [B "@0.5"] (B "T1690000000") 1690000000 (by decide) (by decide) (by decide)
    (by decide) (by decide) (by decide)
    { name := B "foo", value := ⟨1, 0⟩, values := [], setValue := [],
      metricType := .countType, sampleRate := ⟨5, 1⟩, tags := [B "a"],
      containerID := none, externalData := {}, ts := Time.zero }
    (by decide)

/-- C13. With timestamp reading off, the optional fields that start with `T`
are not consulted: the result for a message is the result for the message
without these fields (the format check, which is not among the sources,
answering alike on both), a returned sample has the zero timestamp, and the
switch leaves its state as it is on such a field, whatever its payload. -/
theorem parseMetricSample_timestamps_off {F W : Type} [Zero F] [One F] (p : parser F W)
    (hts : p.readTimestamps = false) (message : Bytes) (w : W) :
    (p.hasMetricSampleFormat (removeOptionalFields isTimestampField message)
        = p.hasMetricSampleFormat message →
      parseMetricSample p (removeOptionalFields isTimestampField message) w
        = parseMetricSample p message w) ∧
    (∀ s w', parseMetricSample p message w = some ((s, none), w') → s.ts = Time.zero) ∧
    (∀ f st w1, f.head? = some 84 → parseOptionalField p f st w1 = (.ok st, w1)) := by
  refine ⟨?_, ?_, ?_⟩
  · intro hfmt
    exact parseMetricSample_removeOptionalFields p isTimestampField
      (parseOptionalField_timestamp_off p hts) message w hfmt
  · intro s w' h
    obtain ⟨name, rawValue, mt, setValue, values, value, w1, st, w2, -, -, -, -, hfold, hs, -⟩ :=
      parseMetricSample_ok p message w w' s h
    subst hs
    exact foldOptionalFields_frame p (fun st => st.timestamp)
      (parseOptionalField_timestamp_frame p hts) _ _ st w1 w2 hfold
  · intro f st w1 hf
    exact parseOptionalField_timestamp_off p hts f (by simpa [isTimestampField] using hf) st w1

theorem parseMetricSample_timestamps_off_witness :
    (exampleParser false false).readTimestamps = false ∧
    removeOptionalFields isTimestampField (B "foo:1|c|T0|#a|Tx") = B "foo:1|c|#a" ∧
    parseMetricSample (exampleParser false false) (B "foo:1|c|#a") 0
      = parseMetricSample (exampleParser false false) (B "foo:1|c|T0|#a|Tx") 0 ∧
    (∀ s w', parseMetricSample (exampleParser false false) (B "foo:1|c|T0|#a|Tx") 0
        = some ((s, none), w') → s.ts = Time.zero) :=
  ⟨rfl, by decide,
    (parseMetricSample_timestamps_off (exampleParser false false) rfl
      (B "foo:1|c|T0|#a|Tx") 0).1 (by decide),
    (parseMetricSample_timestamps_off (exampleParser false false) rfl
      (B "foo:1|c|T0|#a|Tx") 0).2.1⟩

/-- C14. With origin detection off, the optional fields that start with `c:`
or `e:` are not consulted: a returned sample has no container ID and the
all-default `ExternalData`, the result does not depend on the metadata
provider (it is not called), and the result for a message is the result for
the message without these fields (the format check, which is not among the
sources, answering alike on both), so that a malformed `e:` payload does not
make the parse fail. -/
theorem parseMetricSample_origin_off {F W : Type} [Zero F] [One F] (p : parser F W)
    (ho : p.dsdOriginEnabled = false) (message : Bytes) (w : W) :
    (∀ s w', parseMetricSample p message w = some ((s, none), w') →
      s.containerID = none ∧
        s.externalData = { Init := false, ContainerName := [], PodUID := [] }) ∧
    (∀ g, parseMetricSample { p with GetContainerIDForInode := g } message w
      = parseMetricSample p message w) ∧
    (p.hasMetricSampleFormat (removeOptionalFields isOriginField message)
        = p.hasMetricSampleFormat message →
      parseMetricSample p (removeOptionalFields isOriginField message) w
        = parseMetricSample p message w) := by
  refine ⟨?_, ?_, ?_⟩
  · intro s w' h
    obtain ⟨name, rawValue, mt, setValue, values, value, w1, st, w2, -, -, -, -, hfold, hs, -⟩ :=
      parseMetricSample_ok p message w w' s h
    subst hs
    have h1 := foldOptionalFields_frame p (fun st => st.containerID)
      (fun f st st' w w' hr => (parseOptionalField_origin_frame p ho f st st' w w' hr).1)
      _ _ st w1 w2 hfold
    have h2 := foldOptionalFields_frame p (fun st => st.externalData)
      (fun f st st' w w' hr => (parseOptionalField_origin_frame p ho f st st' w w' hr).2)
      _ _ st w1 w2 hfold
    exact ⟨h1, h2⟩
  · intro g
    rw [parseMetricSample_eq, parseMetricSample_eq]
    simp only [foldOptionalFields_provider p ho g,
      readMetricValues_congr { p with GetContainerIDForInode := g } p rfl rfl rfl]
  · intro hfmt
    exact parseMetricSample_removeOptionalFields p isOriginField
      (parseOptionalField_origin_off p ho) message w hfmt

theorem parseMetricSample_origin_off_witness :
    (exampleParser false false).dsdOriginEnabled = false ∧
    parseMetricSample (exampleParser false false) (B "foo:1|c|e:it-notabool|c:in-456") 0
      = some (({ name := B "foo", value := ⟨1, 0⟩, values := [], setValue := [],
                 metricType := .countType, sampleRate := 1, tags := [], containerID := none,
                 externalData := {}, ts := Time.zero }, none), 1) ∧
    (∀ s w', parseMetricSample (exampleParser false false) (B "foo:1|c|e:it-notabool|c:in-456") 0
        = some ((s, none), w') →
      s.containerID = none ∧
        s.externalData = { Init := false, ContainerName := [], PodUID := [] }) :=
  ⟨rfl, by decide,
    (parseMetricSample_origin_off (exampleParser false false) rfl
      (B "foo:1|c|e:it-notabool|c:in-456") 0).1⟩

/-- C21. For a local-data list (payload with a comma) with an item that
starts with `ci-`, `resolveContainerIDFromLocalData` returns what follows
`ci-` in the last such item, wherever the `in-` items stand and whatever the
metadata provider answers. -/
theorem resolveContainerIDFromLocalData_list_ci {F W : Type} (p : parser F W)
    (localData : Bytes) (w : W) (pre post : List Bytes) (it : Bytes)
    (hlist : (44 : UInt8) ∈ localData)
    (hitems : localData.splitOn 44 = pre ++ it :: post)
    (hit : [99, 105, 45] <+: it) (hpost : ∀ x ∈ post, ¬ [99, 105, 45] <+: x) :
    (resolveContainerIDFromLocalData p (B "c:" ++ localData) w).1 = some (it.drop 3) := by
  have hraw : (B "c:" ++ localData).drop 2 = localData := by
    have : B "c:" = [99, 58] := by decide
    rw [this]; rfl
  rw [resolveContainerIDFromLocalData_list p _ w (by rw [hraw]; exact hlist), hraw, hitems]
  have hci := foldl_resolveContainerIDItem_ci p pre post it (none, none, w) hit hpost
  simp only [hci, reduceCtorEq, if_false]

theorem resolveContainerIDFromLocalData_list_ci_witness :
    (resolveContainerIDFromLocalData (exampleParser true false) (B "c:" ++ B "in-456,ci-abc123")
        0).1 = some ((B "ci-abc123").drop 3) ∧
    resolveContainerIDFromLocalData (exampleParser true false) (B "c:in-456,ci-abc123") 0
      = (some (B "abc123"), 1) ∧
    resolveContainerIDFromLocalData (exampleParser true false) (B "c:ci-abc123,in-456") 0
      = (some (B "abc123"), 1) :=
  ⟨resolveContainerIDFromLocalData_list_ci (exampleParser true false) (B "in-456,ci-abc123") 0
      [B "in-456"] [] (B "ci-abc123") (by decide) (by decide) (by decide) (by decide),
    by decide, by decide⟩

/-- C22. For a single-value local data (payload without a comma):
a payload that starts with `ci-` gives what follows `ci-`; otherwise a payload
that starts with `in-` gives the provider's container ID for the inode that
follows (none when `ParseUint` rejects the inode or the provider fails);
otherwise the payload itself is the container ID. -/
theorem resolveContainerIDFromLocalData_single_value {F W : Type} (p : parser F W)
    (localData : Bytes) (w : W) (hsingle : (44 : UInt8) ∉ localData) :
    ([99, 105, 45] <+: localData →
      resolveContainerIDFromLocalData p (B "c:" ++ localData) w
        = (some (localData.drop 3), w)) ∧
    (¬ [99, 105, 45] <+: localData → [105, 110, 45] <+: localData →
      (∀ n, ParseUint (localData.drop 3) = .ok n →
        resolveContainerIDFromLocalData p (B "c:" ++ localData) w =
          match p.GetContainerIDForInode n 2000000000 w with
          | (.ok containerID, w') => (some containerID, w')
          | (.error _, w') => (none, w')) ∧
      (∀ err, ParseUint (localData.drop 3) = .error err →
        resolveContainerIDFromLocalData p (B "c:" ++ localData) w = (none, w))) ∧
    (¬ [99, 105, 45] <+: localData → ¬ [105, 110, 45] <+: localData →
      resolveContainerIDFromLocalData p (B "c:" ++ localData) w = (some localData, w)) := by
  have hraw : (B "c:" ++ localData).drop 2 = localData := by
    have : B "c:" = [99, 58] := by decide
    rw [this]; rfl
  have hcv : cacheValidity = 2000000000 := by decide
  rw [resolveContainerIDFromLocalData_single p _ w (by rw [hraw]; exact hsingle), hraw]
  refine ⟨?_, ?_, ?_⟩
  · intro hci
    simp [(HasPrefix_iff _ _).2 hci]
  · intro hci hin
    have h1 : HasPrefix localData [99, 105, 45] = false := by
      rw [Bool.eq_false_iff, ne_eq, HasPrefix_iff]; exact hci
    simp only [h1, (HasPrefix_iff _ _).2 hin, Bool.false_eq_true, if_false, if_true]
    constructor
    · intro n hn
      unfold resolveContainerIDFromInode
      simp only [hn, hcv]
      rcases p.GetContainerIDForInode n 2000000000 w with ⟨_ | _, _⟩ <;> rfl
    · intro err he
      unfold resolveContainerIDFromInode
      simp only [he]
  · intro hci hin
    have h1 : HasPrefix localData [99, 105, 45] = false := by
      rw [Bool.eq_false_iff, ne_eq, HasPrefix_iff]; exact hci
    have h2 : HasPrefix localData [105, 110, 45] = false := by
      rw [Bool.eq_false_iff, ne_eq, HasPrefix_iff]; exact hin
    simp only [h1, h2, Bool.false_eq_true, if_false]

theorem resolveContainerIDFromLocalData_single_value_witness :
    (44 : UInt8) ∉ B "in-456" ∧
    resolveContainerIDFromLocalData (exampleParser true false) (B "c:" ++ B "in-456") 0
      = (some (B "from-inode"), 1) ∧
    resolveContainerIDFromLocalData (exampleParser true false) (B "c:" ++ B "ci-abc") 0
      = (some (B "abc"), 0) ∧
    resolveContainerIDFromLocalData (exampleParser true false) (B "c:" ++ B "abc") 0
      = (some (B "abc"), 0) :=
  ⟨by decide,
    ((resolveContainerIDFromLocalData_single_value (exampleParser true false) (B "in-456") 0
      (by decide)).2.1 (by decide) (by decide)).1 456 (by decide),
    by decide, by decide⟩

/-- C27. On the single-value local data `cid-abc`, the form that the comment
on `localDataPrefix` documents for a container ID,
`resolveContainerIDFromLocalData` does not return `abc`: `cid-` is not one of
the prefixes it tests, and the payload is returned whole. -/
theorem resolveContainerIDFromLocalData_cid :
    (44 : UInt8) ∉ B "cid-abc" ∧
    resolveContainerIDFromLocalData (exampleParser true false) (B "c:" ++ (B "cid-" ++ B "abc")) 0
      = (some (B "cid-abc"), 0) ∧
    B "cid-abc" ≠ B "abc" := by
  decide

/-- C28. For a local-data list, the state in which
`resolveContainerIDFromLocalData` leaves the provider is the state after one
call, in list order and with the cache validity of two seconds, for each item
`in-<n>` whose `<n>` `ParseUint` reads, whether or not a `ci-` item stands
before or after it: these calls are made and no other. -/
theorem resolveContainerIDFromLocalData_list_calls {F W : Type} (p : parser F W)
    (localData : Bytes) (w : W) (hlist : (44 : UInt8) ∈ localData) :
    (resolveContainerIDFromLocalData p (B "c:" ++ localData) w).2 =
      (inodeLookups (localData.splitOn 44)).foldl
        (fun w n => (p.GetContainerIDForInode n 2000000000 w).2) w := by
  have hraw : (B "c:" ++ localData).drop 2 = localData := by
    have : B "c:" = [99, 58] := by decide
    rw [this]; rfl
  rw [resolveContainerIDFromLocalData_list p _ w (by rw [hraw]; exact hlist), hraw]
  exact foldl_resolveContainerIDItem_state p _ (none, none, w)

theorem resolveContainerIDFromLocalData_list_calls_witness :
    (44 : UInt8) ∈ B "in-456,ci-abc,in-x,in-7" ∧
    inodeLookups ((B "in-456,ci-abc,in-x,in-7").splitOn 44) = [456, 7] ∧
    (resolveContainerIDFromLocalData (loggingParser true false)
        (B "c:" ++ B "in-456,ci-abc,in-x,in-7") []).2 =
      (inodeLookups ((B "in-456,ci-abc,in-x,in-7").splitOn 44)).foldl
        (fun w n => ((loggingParser true false).GetContainerIDForInode n 2000000000 w).2) [] ∧
    resolveContainerIDFromLocalData (loggingParser true false) (B "c:in-456,ci-abc,in-x,in-7") []
      = (some (B "abc"), [(456, 2000000000), (7, 2000000000)]) :=
  ⟨by decide, by decide,
    resolveContainerIDFromLocalData_list_calls (loggingParser true false)
      (B "in-456,ci-abc,in-x,in-7") [] (by decide),
    by decide⟩

/-- C30. `ParseExternalData` returns an error exactly when the last
comma-separated item that starts with `it-` has a payload that `ParseBool`
rejects; and whenever there is an item that starts with `it-`, the `Init`
field and the error are those that `ParseBool` gives for the last one, so that
an invalid init flag followed by a valid one gives no error. -/
theorem ParseExternalData_error_iff (s : Bytes) :
    ((ParseExternalData s).2 ≠ none ↔
      ∃ pre it post, s.splitOn 44 = pre ++ it :: post ∧ [105, 116, 45] <+: it ∧
        (∀ x ∈ post, ¬ [105, 116, 45] <+: x) ∧ (ParseBool (it.drop 3)).2 ≠ none) ∧
    (∀ pre it post, s.splitOn 44 = pre ++ it :: post → [105, 116, 45] <+: it →
      (∀ x ∈ post, ¬ [105, 116, 45] <+: x) →
      (ParseExternalData s).1.Init = (ParseBool (it.drop 3)).1 ∧
      (ParseExternalData s).2 = (ParseBool (it.drop 3)).2) := by
  rw [ParseExternalData_eq]
  have hlast : ∀ pre it post, s.splitOn 44 = pre ++ it :: post → [105, 116, 45] <+: it →
      (∀ x ∈ post, ¬ [105, 116, 45] <+: x) →
      ((s.splitOn 44).foldl ParseExternalDataItem ({}, none)).1.Init = (ParseBool (it.drop 3)).1 ∧
      ((s.splitOn 44).foldl ParseExternalDataItem ({}, none)).2 = (ParseBool (it.drop 3)).2 := by
    intro pre it post hs hit hpost
    rw [hs]
    have h := foldl_ParseExternalDataItem_last_it pre post it ({}, none) hit hpost
    exact ⟨h.2, h.1⟩
  refine ⟨⟨fun herr => ?_, ?_⟩, hlast⟩
  · rcases exists_last_split (fun x => [105, 116, 45] <+: x) (s.splitOn 44) with
      hno | ⟨pre, it, post, hs, hit, hpost⟩
    · have h := (foldl_ParseExternalDataItem_no_it (s.splitOn 44) ({}, none) hno).1
      exact absurd h herr
    · refine ⟨pre, it, post, hs, hit, hpost, ?_⟩
      rw [← (hlast pre it post hs hit hpost).2]
      exact herr
  · rintro ⟨pre, it, post, hs, hit, hpost, hbad⟩
    rw [(hlast pre it post hs hit hpost).2]
    exact hbad

/-- An instance of C30: an invalid init flag after a valid one gives an error,
and `Init` is false. -/
theorem ParseExternalData_valid_then_invalid_example :
    ParseExternalData (B "it-true,cn-x,it-notabool")
      = ({ Init := false, ContainerName := B "x", PodUID := [] },
         some (Error.numError "ParseBool" (B "notabool") "invalid syntax")) := by
  decide

/-- C24. The metadata provider bears on the container ID only: with an
interner that returns its input, two runs of `parseMetricSample` on the same
message that differ in the provider alone return the same error (so one
succeeds exactly when the other does) and samples that are equal once the
container ID is left out. -/
theorem parseMetricSample_provider_only {F W : Type} [Zero F] [One F] (p : parser F W)
    (hp : ∀ b w, (p.LoadOrStore b w).1 = b)
    (g1 g2 : Nat → Nat → W → Except Error Bytes × W) (message : Bytes) (w : W) :
    ∃ s1 s2 e w1 w2,
      parseMetricSample { p with GetContainerIDForInode := g1 } message w = some ((s1, e), w1) ∧
      parseMetricSample { p with GetContainerIDForInode := g2 } message w = some ((s2, e), w2) ∧
      ({ s1 with containerID := none } : dogstatsdMetricSample F)
        = { s2 with containerID := none } := by
  have hs : sameHelpers { p with GetContainerIDForInode := g1 }
      { p with GetContainerIDForInode := g2 } := ⟨rfl, rfl, rfl, rfl, rfl, rfl, rfl⟩
  have hc : collaboratorsRel { p with GetContainerIDForInode := g1 }
      { p with GetContainerIDForInode := g2 } (fun _ _ => True) False :=
    ⟨hp, hp, fun _ _ _ _ => trivial, fun _ _ _ => trivial, fun _ _ _ _ => trivial,
      fun _ _ _ _ _ => ⟨trivial, False.elim⟩⟩
  obtain ⟨s1, s2, e, w1, w2, h1, h2, -, h3, -⟩ :=
    parseMetricSample_rel _ _ (fun _ _ => True) False hs hc message w w trivial
  exact ⟨s1, s2, e, w1, w2, h1, h2, h3⟩

theorem parseMetricSample_provider_only_witness :
    (∀ b w, ((exampleParser true false).LoadOrStore b w).1 = b) ∧
    ∃ s1 s2 e w1 w2,
      parseMetricSample { exampleParser true false with
          GetContainerIDForInode := fun _ _ w => (.ok (B "one"), w) }
        (B "foo:1|c|#a|c:in-456") 0 = some ((s1, e), w1) ∧
      parseMetricSample { exampleParser true false with
          GetContainerIDForInode := fun _ _ w => (.error (Error.other 7), w + 3) }
        (B "foo:1|c|#a|c:in-456") 0 = some ((s2, e), w2) ∧
      ({ s1 with containerID := none } : dogstatsdMetricSample Decimal)
        = { s2 with containerID := none } :=
  ⟨fun _ _ => rfl,
    parseMetricSample_provider_only (exampleParser true false) (fun _ _ => rfl)
      (fun _ _ w => (.ok (B "one"), w)) (fun _ _ w => (.error (Error.other 7), w + 3))
      (B "foo:1|c|#a|c:in-456") 0⟩

/-- C25. Let the interner return its input, and let `view` be the part of the
collaborator state that the provider reads and writes: the interner and the
pool leave it alone, and the provider's answer and its effect on it depend on
it only.  Then two runs of `parseMetricSample` on the same message, started in
states with the same `view` (any two states of the interner and of the pool),
return the same error and the same sample, and end in states with the same
`view`. -/
theorem parseMetricSample_state_independent {F W V : Type} [Zero F] [One F] (p : parser F W)
    (hp : ∀ b w, (p.LoadOrStore b w).1 = b) (view : W → V)
    (hinterner : ∀ b w, view (p.LoadOrStore b w).2 = view w)
    (hget : ∀ w, view (p.float64ListGet w) = view w)
    (hput : ∀ l w, view (p.float64ListPut l w) = view w)
    (hprovider : ∀ n d w1 w2, view w1 = view w2 →
      (p.GetContainerIDForInode n d w1).1 = (p.GetContainerIDForInode n d w2).1 ∧
      view (p.GetContainerIDForInode n d w1).2 = view (p.GetContainerIDForInode n d w2).2)
    (message : Bytes) (w1 w2 : W) (hw : view w1 = view w2) :
    ∃ s e w1' w2', parseMetricSample p message w1 = some ((s, e), w1') ∧
      parseMetricSample p message w2 = some ((s, e), w2') ∧ view w1' = view w2' := by
  have hs : sameHelpers p p := ⟨rfl, rfl, rfl, rfl, rfl, rfl, rfl⟩
  have hc : collaboratorsRel p p (fun a b => view a = view b) True :=
    ⟨hp, hp, fun b a c h => by rw [hinterner, hinterner]; exact h,
      fun a c h => by rw [hget, hget]; exact h,
      fun l a c h => by rw [hput, hput]; exact h,
      fun n d a c h => ⟨(hprovider n d a c h).2, fun _ => (hprovider n d a c h).1⟩⟩
  obtain ⟨s1, s2, e, w1', w2', h1, h2, hv, h3, h4⟩ :=
    parseMetricSample_rel p p (fun a b => view a = view b) True hs hc message w1 w2 hw
  have hcid := h4 trivial
  have heq : s1 = s2 := by
    cases s1; cases s2
    simp only [dogstatsdMetricSample.mk.injEq] at h3 hcid ⊢
    exact ⟨h3.1, h3.2.1, h3.2.2.1, h3.2.2.2.1, h3.2.2.2.2.1, h3.2.2.2.2.2.1, h3.2.2.2.2.2.2.1,
      hcid, h3.2.2.2.2.2.2.2.2⟩
  subst heq
  exact ⟨s1, e, w1', w2', h1, h2, hv⟩

theorem parseMetricSample_state_independent_witness :
    ∃ s e w1' w2',
      parseMetricSample (exampleParser true false) (B "foo:1:2|h|#a,b|c:in-456") 0
        = some ((s, e), w1') ∧
      parseMetricSample (exampleParser true false) (B "foo:1:2|h|#a,b|c:in-456") 41
        = some ((s, e), w2') ∧ (fun _ : Nat => ()) w1' = (fun _ : Nat => ()) w2' :=
  parseMetricSample_state_independent (exampleParser true false) (fun _ _ => rfl)
    (fun _ => ()) (fun _ _ => rfl) (fun _ => rfl) (fun _ _ => rfl)
    (fun n d w1 w2 _ => by
      constructor
      · show (if n = 456 then _ else _ : Except Error Bytes × Nat).1
          = (if n = 456 then _ else _ : Except Error Bytes × Nat).1
        by_cases hn : n = 456 <;> simp [hn]
      · rfl)
    (B "foo:1:2|h|#a,b|c:in-456") 0 41 rfl

/-- C23. With origin detection on, take a message whose only optional field
starting with `c:` is the single value `c:in-x`, every other part of which is
valid (format, name, type and value are accepted, and the switch accepts
every other optional field), and such that `ParseUint` rejects `x` or the
provider fails on the inode.  Then `parseMetricSample` succeeds and the
sample has no container ID; and when `ParseUint` rejects `x` the result does
not depend on the provider, which is not called. -/
theorem parseMetricSample_inode_unresolved {F W : Type} [Zero F] [One F] (p : parser F W)
    (ho : p.dsdOriginEnabled = true) (message : Bytes) (w w1 : W) (pre post : List Bytes)
    (x name rawValue setValue : Bytes) (mt : metricType) (values : List F) (value : F)
    (hfields : (message.splitOn 124).drop 2 = pre ++ (B "c:in-" ++ x) :: post)
    (hx : (44 : UInt8) ∉ x)
    (honly : ∀ f ∈ pre ++ post, ¬ [99, 58] <+: f)
    (hfmt : p.hasMetricSampleFormat message = true)
    (hname : p.parseMetricSampleNameAndRawValue (nextField message).1 = .ok (name, rawValue))
    (htype : p.parseMetricSampleMetricType (nextField ((nextField message).2.getD [])).1 = .ok mt)
    (hvalue : readMetricValues p mt rawValue w = some ((setValue, values, value, none), w1))
    (hothers : ∀ f ∈ pre ++ post, ∀ st w0, ∃ st' w0', parseOptionalField p f st w0 = (.ok st', w0'))
    (hbad : (∃ err, ParseUint x = .error err) ∨
      (∃ n, ParseUint x = .ok n ∧
        ∀ w0, ∃ err w0', p.GetContainerIDForInode n 2000000000 w0 = (.error err, w0'))) :
    (∃ s w', parseMetricSample p message w = some ((s, none), w') ∧ s.containerID = none) ∧
    ((∃ err, ParseUint x = .error err) →
      ∀ g, parseMetricSample { p with GetContainerIDForInode := g } message w
        = parseMetricSample p message w) := by
  have hcv : cacheValidity = 2000000000 := by decide
  have hpre : [99, 58] <+: B "c:in-" ++ x := ⟨[105, 110, 45] ++ x, by
    have : B "c:in-" = [99, 58, 105, 110, 45] := by decide
    rw [this]; rfl⟩
  -- the local-data field resolves to no container ID, in every state
  have hnone : ∀ w0, (resolveContainerIDFromLocalData p (B "c:in-" ++ x) w0).1 = none := by
    intro w0
    rw [resolveContainerIDFromLocalData_inode p x w0 hx]
    unfold resolveContainerIDFromInode
    rcases hbad with ⟨err, he⟩ | ⟨n, hn, hprov⟩
    · simp only [he]
    · obtain ⟨err, w0', hg⟩ := hprov w0
      simp only [hn, hcv, hg]
  have hcf : ∀ st w0, ∃ st' w0', parseOptionalField p (B "c:in-" ++ x) st w0 = (.ok st', w0') := by
    intro st w0
    exact ⟨_, _, parseOptionalField_localData p _ st w0 ho hpre⟩
  have hall : ∀ f ∈ pre ++ (B "c:in-" ++ x) :: post,
      ∀ st w0, ∃ st' w0', parseOptionalField p f st w0 = (.ok st', w0') := by
    intro f hf
    rcases List.mem_append.1 hf with e | e
    · exact hothers f (List.mem_append.2 (Or.inl e))
    · rcases List.mem_cons.1 e with e | e
      · subst e; exact hcf
      · exact hothers f (List.mem_append.2 (Or.inr e))
  refine ⟨?_, ?_⟩
  · obtain ⟨st, w2, hfold⟩ := foldOptionalFields_ok_of_all_ok p _ hall (optionalFields.init F) w1
    obtain ⟨st1, wa, st2, wb, -, hstep, hpost⟩ :=
      foldOptionalFields_split p pre post _ _ st w1 w2 hfold
    rw [parseOptionalField_localData p _ st1 wa ho hpre] at hstep
    have hst2 : st2.containerID = none := by
      cases hstep
      exact hnone wa
    have hframe := foldOptionalFields_frame_on p (fun st => st.containerID)
      (fun f => ¬ [99, 58] <+: f)
      (fun f hf st st' w w' hr => (parseOptionalField_frames p f st st' w w' hr).2.1 hf)
      post (fun f hf => honly f (List.mem_append.2 (Or.inr hf))) st2 st wb w2 hpost
    have hres : parseMetricSample p message w
        = some (({ name := (p.LoadOrStore name w2).1, value := value, values := values,
                   setValue := setValue, metricType := mt,
                   sampleRate := st.sampleRate, tags := st.tags,
                   containerID := st.containerID, externalData := st.externalData,
                   ts := st.timestamp }, none), (p.LoadOrStore name w2).2) := by
      rw [parseMetricSample_eq]
      simp only [hfmt, hname, htype, hvalue, hfields, hfold, Bool.not_true, Bool.false_eq_true,
        if_false]
    refine ⟨_, _, hres, ?_⟩
    simp only at hframe ⊢
    rw [hframe, hst2]
  · rintro ⟨err, he⟩ g
    rw [parseMetricSample_eq, parseMetricSample_eq]
    have hfoldeq : ∀ st w0,
        foldOptionalFields { p with GetContainerIDForInode := g }
          ((message.splitOn 124).drop 2) st w0
          = foldOptionalFields p ((message.splitOn 124).drop 2) st w0 := by
      rw [hfields]
      apply foldOptionalFields_provider_other
      intro f hf
      rcases List.mem_append.1 hf with e | e
      · exact Or.inl (honly f (List.mem_append.2 (Or.inl e)))
      · rcases List.mem_cons.1 e with e | e
        · subst e
          right
          intro w0
          rw [resolveContainerIDFromLocalData_inode _ x w0 hx,
            resolveContainerIDFromLocalData_inode p x w0 hx]
          unfold resolveContainerIDFromInode
          simp only [he]
        · exact Or.inl (honly f (List.mem_append.2 (Or.inr e)))
    simp only [hfoldeq,
      readMetricValues_congr { p with GetContainerIDForInode := g } p rfl rfl rfl]

theorem parseMetricSample_inode_unresolved_witness :
    parseMetricSample (exampleParser true false) (B "foo:1|c|#a|c:in-9|@0.5") 0
      = some (({ name := B "foo", value := ⟨1, 0⟩, values := [], setValue := [],
                 metricType := .countType, sampleRate := ⟨5, 1⟩, tags := [B "a"],
                 containerID := none, externalData := {}, ts := Time.zero }, none), 3) ∧
    ((∃ s w', parseMetricSample (exampleParser true false) (B "foo:1|c|#a|c:in-9|@0.5") 0
        = some ((s, none), w') ∧ s.containerID = none) ∧
     ((∃ err, ParseUint (B "9") = .error err) →
      ∀ g, parseMetricSample { exampleParser true false with GetContainerIDForInode := g }
          (B "foo:1|c|#a|c:in-9|@0.5") 0
        = parseMetricSample (exampleParser true false) (B "foo:1|c|#a|c:in-9|@0.5") 0)) :=
  ⟨by decide,
    parseMetricSample_inode_unresolved (exampleParser true false) rfl
      (B "foo:1|c|#a|c:in-9|@0.5") 0 0 [B "#a"] [B "@0.5"] (B "9") (B "foo") (B "1") []
      .countType [] ⟨1, 0⟩ (by decide) (by decide) (by decide) (by decide) (by decide)
      (by decide) (by decide)
      (by
        intro f hf st w0
        have hf' : f = B "#a" ∨ f = B "@0.5" := by simpa using hf
        rcases hf' with e | e
        · subst e
          exact ⟨_, _, parseOptionalField_tags_field _ _ st w0 (by decide)⟩
        · subst e
          exact ⟨{ st with sampleRate := ⟨5, 1⟩ }, w0, by
            have h1 : HasPrefix (B "@0.5") tagsFieldPrefix = false := by decide
            have h2 : HasPrefix (B "@0.5") sampleRateFieldPrefix = true := by decide
            have h3 : (exampleParser true false).parseMetricSampleSampleRate ((B "@0.5").drop 1)
                = .ok ⟨5, 1⟩ := by decide
            unfold parseOptionalField
            simp only [h1, h2, h3, Bool.false_eq_true, if_false, if_true]⟩)
      (Or.inr ⟨9, by decide, fun w0 => ⟨Error.other 0, w0 + 1, rfl⟩⟩)⟩

/-- C29. In a message that `parseMetricSample` accepts, the last optional field
of a kind alone decides the variable of that kind, whatever the earlier
fields of the kind were: the tags are the pieces of the last `#` field (none
when it is empty), the sample rate is the number of the last `@` field, the
timestamp that of the last `T` field (when timestamps are read), the container
ID is what the last `c:` field resolves to and the external data that of the
last `e:` field (when origin detection is on). -/
theorem parseMetricSample_last_occurrence {F W : Type} [Zero F] [One F] (p : parser F W)
    (message : Bytes) (w w' : W) (s : dogstatsdMetricSample F) (pre post : List Bytes)
    (f : Bytes)
    (hsucc : parseMetricSample p message w = some ((s, none), w'))
    (hfields : (message.splitOn 124).drop 2 = pre ++ f :: post) :
    (f.head? = some 35 → (∀ g ∈ post, g.head? ≠ some 35) →
      (∀ b w0, (p.LoadOrStore b w0).1 = b) →
      s.tags = if f.drop 1 = [] then [] else (f.drop 1).splitOn 44) ∧
    (f.head? = some 64 → (∀ g ∈ post, g.head? ≠ some 64) →
      p.parseMetricSampleSampleRate (f.drop 1) = .ok s.sampleRate) ∧
    (p.readTimestamps = true → f.head? = some 84 → (∀ g ∈ post, g.head? ≠ some 84) →
      ∃ n, ParseInt (f.drop 1) = .ok n ∧ s.ts = Time.unix n 0) ∧
    (p.dsdOriginEnabled = true → [99, 58] <+: f → (∀ g ∈ post, ¬ [99, 58] <+: g) →
      ∃ wx, s.containerID = (resolveContainerIDFromLocalData p f wx).1) ∧
    (p.dsdOriginEnabled = true → [101, 58] <+: f → (∀ g ∈ post, ¬ [101, 58] <+: g) →
      s.externalData = (ParseExternalData (f.drop 2)).1) := by
  obtain ⟨name, rawValue, mt, setValue, values, value, w1, st, w2, -, -, -, -, hfold, hs, -⟩ :=
    parseMetricSample_ok p message w w' s hsucc
  rw [hfields] at hfold
  obtain ⟨st1, wa, st2, wb, -, hstep, hpost⟩ :=
    foldOptionalFields_split p pre post f _ st w1 w2 hfold
  subst hs
  refine ⟨?_, ?_, ?_, ?_, ?_⟩
  · intro hf hlater hp
    have hframe := foldOptionalFields_tags p post st2 st wb w2 hlater hpost
    rw [parseOptionalField_tags_field p f st1 wa hf] at hstep
    simp only
    rw [hframe]
    cases hstep
    exact parseTags_content p hp (f.drop 1) wa
  · intro hf hlater
    have hframe := foldOptionalFields_sampleRate p post st2 st wb w2 hlater hpost
    simp only
    rw [hframe]
    exact parseOptionalField_rate_field p f st1 st2 wa wb hf hstep
  · intro hts hf hlater
    have hframe := foldOptionalFields_frame_on p (fun st => st.timestamp)
      (fun g => g.head? ≠ some 84)
      (fun g hg st st' w w' hr => (parseOptionalField_frames p g st st' w w' hr).1 hg)
      post hlater st2 st wb w2 hpost
    rw [parseOptionalField_timestamp p f st1 wa hf] at hstep
    simp only [hts, Bool.not_true, Bool.false_eq_true, if_false] at hstep
    simp only at hframe ⊢
    rw [hframe]
    cases hint : ParseInt (f.drop 1) with
    | error e => rw [hint] at hstep; cases hstep
    | ok n =>
      rw [hint] at hstep
      simp only at hstep
      by_cases hlt : n < 1
      · simp only [hlt, if_true] at hstep
        cases hstep
      · simp only [hlt, if_false] at hstep
        cases hstep
        exact ⟨n, rfl, rfl⟩
  · intro ho hf hlater
    have hframe := foldOptionalFields_frame_on p (fun st => st.containerID)
      (fun g => ¬ [99, 58] <+: g)
      (fun g hg st st' w w' hr => (parseOptionalField_frames p g st st' w w' hr).2.1 hg)
      post hlater st2 st wb w2 hpost
    rw [parseOptionalField_localData p f st1 wa ho hf] at hstep
    simp only at hframe ⊢
    rw [hframe]
    cases hstep
    exact ⟨wa, rfl⟩
  · intro ho hf hlater
    have hframe := foldOptionalFields_frame_on p (fun st => st.externalData)
      (fun g => ¬ [101, 58] <+: g)
      (fun g hg st st' w w' hr => (parseOptionalField_frames p g st st' w w' hr).2.2 hg)
      post hlater st2 st wb w2 hpost
    rw [parseOptionalField_externalData p f st1 wa ho hf] at hstep
    simp only at hframe ⊢
    rw [hframe]
    cases hext : (ParseExternalData (f.drop 2)).2 with
    | some e => rw [hext] at hstep; cases hstep
    | none => rw [hext] at hstep; cases hstep; rfl

theorem parseMetricSample_last_occurrence_witness :
    parseMetricSample (exampleParser true true)
        (B "foo:1|c|#a,b|c:in-456|#|c:in-9|@0.5|@0.25") 0
      = some (({ name := B "foo", value := ⟨1, 0⟩, values := [], setValue := [],
                 metricType := .countType, sampleRate := ⟨25, 2⟩, tags := [],
                 containerID := none, externalData := {}, ts := Time.zero }, none), 5) ∧
    (([] : List Bytes) = if (B "#").drop 1 = [] then [] else ((B "#").drop 1).splitOn 44) :=
  ⟨by decide,
    (parseMetricSample_last_occurrence (exampleParser true true)
      (B "foo:1|c|#a,b|c:in-456|#|c:in-9|@0.5|@0.25") 0 5
      { name := B "foo", value := ⟨1, 0⟩, values := [], setValue := [],
        metricType := .countType, sampleRate := ⟨25, 2⟩, tags := [],
        containerID := none, externalData := {}, ts := Time.zero }
      [B "#a,b", B "c:in-456"] [B "c:in-9", B "@0.5", B "@0.25"] (B "#")
      (by decide) (by decide)).1 (by decide) (by decide) (fun _ _ => rfl)⟩

/-- C26. Let the interner return its input and let `view` be the part of the
collaborator state that the provider reads and writes (the interner and the
pool leave it alone).  Take a message whose optional fields are of pairwise
different kinds, and a second message with the same first two fields, the
same answer of the format check, and a permutation of the optional fields.
Then `parseMetricSample` returns on both, with an error on both or on
neither, and with the same sample. -/
theorem parseMetricSample_permutation {F W V : Type} [Zero F] [One F] (p : parser F W)
    (hp : ∀ b w, (p.LoadOrStore b w).1 = b) (view : W → V)
    (hinterner : ∀ b w, view (p.LoadOrStore b w).2 = view w)
    (hget : ∀ w, view (p.float64ListGet w) = view w)
    (hput : ∀ l w, view (p.float64ListPut l w) = view w)
    (hprovider : ∀ n d w1 w2, view w1 = view w2 →
      (p.GetContainerIDForInode n d w1).1 = (p.GetContainerIDForInode n d w2).1 ∧
      view (p.GetContainerIDForInode n d w1).2 = view (p.GetContainerIDForInode n d w2).2)
    (message message' : Bytes) (w : W)
    (hkinds : ((message.splitOn 124).drop 2).Pairwise
      (fun a b => fieldKindOf a ≠ fieldKindOf b))
    (hhead : (message'.splitOn 124).take 2 = (message.splitOn 124).take 2)
    (hperm : ((message'.splitOn 124).drop 2).Perm ((message.splitOn 124).drop 2))
    (hfmt : p.hasMetricSampleFormat message' = p.hasMetricSampleFormat message) :
    ∃ s e e' w1 w2, parseMetricSample p message w = some ((s, e), w1) ∧
      parseMetricSample p message' w = some ((s, e'), w2) ∧ (e = none ↔ e' = none) := by
  have hc := collaboratorsRel_view p hp view hinterner hget hput hprovider
  have h1 : (message'.splitOn 124).headD [] = (message.splitOn 124).headD [] := by
    rw [(headD_take_two _ _).1, hhead, ← (headD_take_two _ _).1]
  have h2 : ((message'.splitOn 124).drop 1).headD [] = ((message.splitOn 124).drop 1).headD [] := by
    rw [(headD_take_two _ _).2, hhead, ← (headD_take_two _ _).2]
  rw [parseMetricSample_eq, parseMetricSample_eq p message', nextField_fst, nextField_type,
    nextField_fst, nextField_type, h1, h2, hfmt]
  by_cases hf : p.hasMetricSampleFormat message = true
  · simp only [hf, Bool.not_true, Bool.false_eq_true, if_false]
    cases hn : p.parseMetricSampleNameAndRawValue ((message.splitOn 124).headD []) with
    | error err => exact ⟨_, _, _, _, _, rfl, rfl, by simp⟩
    | ok nr =>
      obtain ⟨name, rawValue⟩ := nr
      simp only
      cases ht : p.parseMetricSampleMetricType (((message.splitOn 124).drop 1).headD []) with
      | error err => exact ⟨_, _, _, _, _, rfl, rfl, by simp⟩
      | ok mt =>
        simp only
        rcases hv : readMetricValues p mt rawValue w with _ | ⟨⟨sv, vs, v, _ | err⟩, w1⟩
        · rw [readMetricValues_eq] at hv
          cases hv
        · simp only
          have hrel := foldOptionalFields_perm p hp view hinterner hc _ _ hperm.symm hkinds
            (optionalFields.init F) w1 w1 rfl
          rcases e1 : foldOptionalFields p ((message.splitOn 124).drop 2)
              (optionalFields.init F) w1 with ⟨_ | st1, wa⟩ <;>
            rcases e2 : foldOptionalFields p ((message'.splitOn 124).drop 2)
              (optionalFields.init F) w1 with ⟨_ | st2, wb⟩ <;>
            rw [e1, e2] at hrel <;> simp only [outcomeRel] at hrel ⊢
          · exact ⟨_, _, _, _, _, rfl, rfl, by simp⟩
          · obtain ⟨rfl, -⟩ := hrel
            rw [hp, hp]
            exact ⟨_, _, _, _, _, rfl, rfl, by simp⟩
        · exact ⟨_, _, _, _, _, rfl, rfl, by simp⟩
  · simp only [hf, Bool.not_false, if_true]
    exact ⟨_, _, _, _, _, rfl, rfl, by simp⟩

theorem parseMetricSample_permutation_witness :
    ∃ s e e' w1 w2,
      parseMetricSample (exampleParser true false) (B "foo:1|c|#a,b|@0.5|c:in-456") 0
        = some ((s, e), w1) ∧
      parseMetricSample (exampleParser true false) (B "foo:1|c|c:in-456|#a,b|@0.5") 0
        = some ((s, e'), w2) ∧ (e = none ↔ e' = none) :=
  parseMetricSample_permutation (exampleParser true false) (fun _ _ => rfl)
    (fun _ => ()) (fun _ _ => rfl) (fun _ => rfl) (fun _ _ => rfl)
    (fun n d w1 w2 _ => by
      constructor
      · show (if n = 456 then _ else _ : Except Error Bytes × Nat).1
          = (if n = 456 then _ else _ : Except Error Bytes × Nat).1
        by_cases hn : n = 456 <;> simp [hn]
      · rfl)
    (B "foo:1|c|#a,b|@0.5|c:in-456") (B "foo:1|c|c:in-456|#a,b|@0.5") 0
    (by decide) (by decide) (by decide) (by decide)

/-- C31. An optional field that starts with none of the prefixes `#`, `@`, `T`,
`c:`, `e:` (the empty field of a trailing or doubled `|` is one) is ignored:
put anywhere after the type field of a message, at its end in particular, it
leaves the whole result of `parseMetricSample` as it is, provided that the
format check gives the same answer on the two messages. -/
theorem parseMetricSample_unrecognized_field {F W : Type} [Zero F] [One F] (p : parser F W)
    (message f : Bytes) (k : Nat) (w : W)
    (htype : (124 : UInt8) ∈ message) (hf : (124 : UInt8) ∉ f)
    (hkind : fieldKindOf f = .other)
    (hfmt : p.hasMetricSampleFormat (insertOptionalField f k message)
      = p.hasMetricSampleFormat message) :
    parseMetricSample p (insertOptionalField f k message) w = parseMetricSample p message w ∧
    ((message.splitOn 124).length ≤ k + 2 →
      insertOptionalField f k message = message ++ 124 :: f) := by
  obtain ⟨h1, h2, h3⟩ := fields_insertOptionalField f k message hf htype
  refine ⟨parseMetricSample_congr_message p _ _ w hfmt h1 h2 ?_, insertOptionalField_end f k message⟩
  intro st w'
  rw [h3, foldOptionalFields_insert p f (parseOptionalField_other p f hkind), List.take_append_drop]

theorem parseMetricSample_unrecognized_field_witness :
    insertOptionalField [] 0 (B "foo:1|c|#a") = B "foo:1|c||#a" ∧
    (parseMetricSample (exampleParser true true) (insertOptionalField (B "x:y") 5 (B "foo:1|c|#a")) 0
        = parseMetricSample (exampleParser true true) (B "foo:1|c|#a") 0 ∧
     (((B "foo:1|c|#a").splitOn 124).length ≤ 5 + 2 →
        insertOptionalField (B "x:y") 5 (B "foo:1|c|#a") = B "foo:1|c|#a" ++ 124 :: B "x:y")) :=
  ⟨by decide,
    parseMetricSample_unrecognized_field (exampleParser true true) (B "foo:1|c|#a") (B "x:y") 5 0
      (by decide) (by decide) (by decide) (by decide)⟩

/-- C32. In a local-data list (payload with a comma) without an item that
starts with `ci-`, the items that start neither with `ci-` nor with `in-` are
ignored: when an item starts with `in-`, the result is the provider's answer
for the inode of the last such item, asked after the lookups of the earlier
items, and no container ID when `ParseUint` rejects that inode or the
provider fails on it, whatever the earlier lookups gave; when no item starts
with `in-`, there is no container ID and the provider is left alone. -/
theorem resolveContainerIDFromLocalData_list_no_ci {F W : Type} (p : parser F W)
    (localData : Bytes) (w : W) (hlist : (44 : UInt8) ∈ localData)
    (hnoci : ∀ x ∈ localData.splitOn 44, ¬ [99, 105, 45] <+: x) :
    (∀ pre it post, localData.splitOn 44 = pre ++ it :: post → [105, 110, 45] <+: it →
      (∀ x ∈ post, ¬ [105, 110, 45] <+: x) →
      (resolveContainerIDFromLocalData p (B "c:" ++ localData) w).1 =
        match ParseUint (it.drop 3) with
        | .error _ => none
        | .ok n =>
          match (p.GetContainerIDForInode n 2000000000
            ((inodeLookups pre).foldl
              (fun w n => (p.GetContainerIDForInode n 2000000000 w).2) w)).1 with
          | .error _ => none
          | .ok containerID => some containerID) ∧
    ((∀ x ∈ localData.splitOn 44, ¬ [105, 110, 45] <+: x) →
      resolveContainerIDFromLocalData p (B "c:" ++ localData) w = (none, w)) := by
  have hraw : (B "c:" ++ localData).drop 2 = localData := by
    have : B "c:" = [99, 58] := by decide
    rw [this]; rfl
  have hci := foldl_resolveContainerIDItem_no_ci p (localData.splitOn 44) (none, none, w) hnoci
  rw [resolveContainerIDFromLocalData_list p _ w (by rw [hraw]; exact hlist), hraw]
  simp only [hci, if_true]
  refine ⟨?_, ?_⟩
  · intro pre it post hitems hit hpost
    rw [hitems, foldl_resolveContainerIDItem_in p pre post it _ hit hpost,
      resolveContainerIDFromInode_fst]
  · intro hnoin
    have h2 := foldl_resolveContainerIDItem_no_in p (localData.splitOn 44) (none, none, w) hnoin
    rw [h2]

theorem resolveContainerIDFromLocalData_list_no_ci_witness :
    (resolveContainerIDFromLocalData (exampleParser true false) (B "c:" ++ B "in-456,x,in-9") 0).1
        = none ∧
    resolveContainerIDFromLocalData (exampleParser true false) (B "c:" ++ B "in-9,in-456,x") 0
        = (some (B "from-inode"), 2) ∧
    resolveContainerIDFromLocalData (exampleParser true false) (B "c:" ++ B "abc,def") 0
        = (none, 0) :=
  ⟨(resolveContainerIDFromLocalData_list_no_ci (exampleParser true false) (B "in-456,x,in-9") 0
      (by decide) (by decide)).1 [B "in-456", B "x"] (B "in-9") [] (by decide) (by decide)
      (by decide),
    by decide,
    (resolveContainerIDFromLocalData_list_no_ci (exampleParser true false) (B "abc,def") 0
      (by decide) (by decide)).2 (by decide)⟩

/-- C33. In a local-data list (payload with a comma) whose only item that
starts with `ci-` is `ci-` itself, `resolveContainerIDFromLocalData` returns
the empty container ID, which is a container ID and not the absence of one,
whatever the provider gives for the `in-` items. -/
theorem resolveContainerIDFromLocalData_list_empty_ci {F W : Type} (p : parser F W)
    (localData : Bytes) (w : W) (pre post : List Bytes)
    (hlist : (44 : UInt8) ∈ localData)
    (hitems : localData.splitOn 44 = pre ++ B "ci-" :: post)
    (hother : ∀ x ∈ pre ++ post, ¬ [99, 105, 45] <+: x) :
    (resolveContainerIDFromLocalData p (B "c:" ++ localData) w).1 = some [] := by
  have hraw : (B "c:" ++ localData).drop 2 = localData := by
    have : B "c:" = [99, 58] := by decide
    rw [this]; rfl
  rw [resolveContainerIDFromLocalData_list p _ w (by rw [hraw]; exact hlist), hraw, hitems]
  have hci := foldl_resolveContainerIDItem_ci p pre post (B "ci-") (none, none, w)
    (by decide) (fun x hx => hother x (List.mem_append.2 (Or.inr hx)))
  simp only [hci, reduceCtorEq, if_false]
  decide

theorem resolveContainerIDFromLocalData_list_empty_ci_witness :
    (resolveContainerIDFromLocalData (exampleParser true false) (B "c:" ++ B "ci-,in-456") 0).1
        = some [] ∧
    resolveContainerIDFromLocalData (exampleParser true false) (B "c:in-456") 0
        = (some (B "from-inode"), 1) :=
  ⟨resolveContainerIDFromLocalData_list_empty_ci (exampleParser true false) (B "ci-,in-456") 0
      [] [B "in-456"] (by decide) (by decide) (by decide),
    by decide⟩

/-- C34. `parseFloat64List` takes the buffer from the pool once, at the start.
When it fails (a segment is not a number, or no value is found) it returns no
list and puts the buffer back, with the numbers read before the failure; when
it succeeds it puts nothing back, and the list it returns is the buffer
followed by the numbers read. -/
theorem parseFloat64List_pool {F W : Type} (p : parser F W) (rawFloats : Bytes) (w : W) :
    ∃ values err w', parseFloat64List p rawFloats w = some ((values, err), w') ∧
      (err ≠ none → values = [] ∧
        w' = p.float64ListPut
          (float64ListBuffer F ++ (parseSegments p.parseFloat64 (nonEmptySegments rawFloats)).1)
          (p.float64ListGet w)) ∧
      (err = none → w' = p.float64ListGet w ∧
        values = float64ListBuffer F
          ++ (parseSegments p.parseFloat64 (nonEmptySegments rawFloats)).1) := by
  rw [parseFloat64List_eq_spec]
  unfold specFloat64List specFloat64ListPool float64ListBuffer
  rcases parseSegments p.parseFloat64 (nonEmptySegments rawFloats) with ⟨_ | ⟨v, vs⟩, _ | e⟩ <;>
    exact ⟨_, _, _, rfl, by simp, by simp⟩

/-- C35. `parseFloat64List` terminates on every input.  In an iteration of
its loop (the loop condition holds), either the loop goes on with an input
that is strictly shorter and has one colon less, or the iteration is the last
one.  So the loop makes at most one iteration more than the input has colons:
allowed that many iterations, the loop returns what `parseFloat64List`
returns, which is a result for every input. -/
theorem parseFloat64List_terminates {F W : Type} (p : parser F W) :
    (∀ (idx : Int) (raw : Bytes) (values : List F) (w : W), idx ≠ -1 → raw ≠ [] →
      (∃ idx' raw' values', idx' ≠ -1 ∧ raw'.length < raw.length ∧
          raw'.count 58 + 1 = raw.count 58 ∧
          ∀ fuel, parseFloat64ListLoop p (fuel + 1) idx raw values w
            = parseFloat64ListLoop p fuel idx' raw' values' w) ∨
      (∃ r, ∀ fuel, parseFloat64ListLoop p (fuel + 1) idx raw values w = some r)) ∧
    (∀ (rawFloats : Bytes) (w : W), ∃ r,
      parseFloat64ListLoop p (rawFloats.count 58 + 1) 0 rawFloats (float64ListBuffer F)
        (p.float64ListGet w) = some r ∧
      parseFloat64List p rawFloats w = some r) := by
  refine ⟨parseFloat64ListLoop_progress p, fun rawFloats w => ?_⟩
  obtain ⟨r, hr⟩ := parseFloat64ListLoop_returns p (rawFloats.count 58 + 1) 0 rawFloats
    (float64ListBuffer F) (p.float64ListGet w) (by omega) (by omega)
  have hle : rawFloats.count 58 ≤ rawFloats.length := List.count_le_length _ _
  refine ⟨r, hr 0, ?_⟩
  unfold parseFloat64List
  rw [show rawFloats.length + 1 = rawFloats.count 58 + 1 + (rawFloats.length - rawFloats.count 58)
    by omega]
  exact hr _

/-- The bound is reached: on `1:2:3` two iterations are not enough, three are. -/
theorem parseFloat64List_iterations_example :
    parseFloat64ListLoop (exampleParser false false) 2 0 (B "1:2:3") [] 1 = none ∧
    parseFloat64ListLoop (exampleParser false false) 3 0 (B "1:2:3") [] 1
      = some (([⟨1, 0⟩, ⟨2, 0⟩, ⟨3, 0⟩], none), 1) := by
  decide

/-- C36. On a non-empty input with `n` commas, `parseTags` makes a list of
`n + 1` slots and writes to the indices `0, 1, ..., n` in this order, each
once and each within the list: the loop makes exactly `n` iterations and
writes the slots `0` to `n - 1`, it is not left through `break`, and the
write after the loop goes to the last slot `n`.  The function with the trace
returns what `parseTags` returns. -/
theorem parseTags_indexing {F W : Type} (p : parser F W) (rawTags : Bytes) (w : W)
    (hne : rawTags ≠ []) :
    (parseTagsTrace p rawTags w).1 = parseTags p rawTags w ∧
    (parseTagsTrace p rawTags w).2 =
      { writes := (List.range (rawTags.count 44 + 1)).map (fun i => (i, rawTags.count 44 + 1))
        iterations := rawTags.count 44
        broke := false } ∧
    (∀ x ∈ (parseTagsTrace p rawTags w).2.writes, x.1 < x.2) ∧
    (parseTagsTrace p rawTags w).2.writes.getLast? = some (rawTags.count 44, rawTags.count 44 + 1) ∧
    (parseTags p rawTags w).1.length = rawTags.count 44 + 1 := by
  have hlen : ¬ rawTags.length = 0 := fun h => hne (List.length_eq_zero.1 h)
  have hcount : Count rawTags commaSeparator = rawTags.count 44 := by
    rw [commaSeparator_eq, Count_singleton]
  obtain ⟨hl, hi⟩ := parseTagsLoop_length p (rawTags.count 44)
    (List.replicate (rawTags.count 44 + 1) []) 0 rawTags w
  have hi := hi rfl
  rw [List.length_replicate] at hl
  rw [Nat.zero_add] at hi
  have htrace : parseTagsTrace p rawTags w =
      (parseTags p rawTags w,
        { writes := (List.range (rawTags.count 44 + 1)).map
            (fun i => (i, rawTags.count 44 + 1))
          iterations := rawTags.count 44
          broke := false }) := by
    unfold parseTagsTrace parseTags
    simp only [hlen, if_false, hcount]
    rw [parseTagsLoopTrace_spec p _ _ 0 rawTags w _ rfl]
    simp only [hl, hi, List.length_replicate, List.nil_append, Nat.zero_add]
    rw [List.range_succ, List.map_append, List.range_eq_range']
    rfl
  rw [htrace]
  refine ⟨rfl, rfl, ?_, ?_, ?_⟩
  · intro x hx
    simp only [List.mem_map, List.mem_range] at hx
    obtain ⟨i, hi', rfl⟩ := hx
    exact hi'
  · rw [List.range_succ, List.map_append]
    simp
  · unfold parseTags
    simp only [hlen, if_false, hcount]
    rw [List.length_set, hl]

theorem parseTags_indexing_witness :
    (parseTagsTrace (exampleParser false false) (B "a,,b") 0).1
        = parseTags (exampleParser false false) (B "a,,b") 0 ∧
    (parseTagsTrace (exampleParser false false) (B "a,,b") 0).2 =
      { writes := (List.range ((B "a,,b").count 44 + 1)).map
          (fun i => (i, (B "a,,b").count 44 + 1))
        iterations := (B "a,,b").count 44
        broke := false } ∧
    (∀ x ∈ (parseTagsTrace (exampleParser false false) (B "a,,b") 0).2.writes, x.1 < x.2) ∧
    (parseTagsTrace (exampleParser false false) (B "a,,b") 0).2.writes.getLast?
        = some ((B "a,,b").count 44, (B "a,,b").count 44 + 1) ∧
    (parseTags (exampleParser false false) (B "a,,b") 0).1.length = (B "a,,b").count 44 + 1 :=
  parseTags_indexing (exampleParser false false) (B "a,,b") 0 (by decide)

/-- The trace of `parseTags` on `a,,b`. -/
theorem parseTagsTrace_example :
    parseTagsTrace (exampleParser false false) (B "a,,b") 0
      = (([B "a", [], B "b"], 3),
          { writes := [(0, 3), (1, 3), (2, 3)], iterations := 2, broke := false }) := by
  decide

end Dogstatsd
